import Mathlib

/-!
# Predictive inventory engine: embedding of `backend/services/predictiveAnalytics.js`

The service turns historical sales records into a demand forecast.  This file
embeds its pure computations in Lean and proves properties of them.

## Numbers

JavaScript numbers are IEEE 754 binary64 numbers.  `JSNum` carries one as an
exact rational, or one of the three special values `NaN`, `+Infinity`,
`-Infinity`; zero is unsigned (a zero divisor behaves as `+0`).  Division by
zero and the propagation of `NaN` and of the infinities follow IEEE 754 as
JavaScript does.  The computations of the service are embedded twice.

* In real-number arithmetic (the definitions directly in
  `PredictiveAnalytics`): `+`, `-`, `*`, `/` on finite values are exact, and
  the decimal literals of the source (`0.1`, `0.3`, `0.5`, `0.95`, `1.5`) are
  the rationals they denote.  Quantities read from the store are finite
  numbers and are carried as `ℚ`.  This embedding follows the control flow,
  the guards, the error paths and the formulas of the source; it does not
  round.
* In binary64 arithmetic (namespace `Binary64`): every `+`, `-`, `*`, `/` is
  the exact result rounded to the nearest binary64 number, ties to even
  (`Binary64.ofRat`), with the subnormal range and overflow to the
  infinities; `Math.sqrt` is correctly rounded; a decimal literal is the
  binary64 number nearest to it.  `Math.round`, `Math.max`, `Math.min` and
  the comparisons are exact on binary64 numbers and are shared by the two
  embeddings.  The properties whose truth depends on rounding (a fit that is
  perfect only in real numbers, a smoothing step that is a convex combination
  only in real numbers) are stated and proved on this embedding.

## Dates

A `Date` is carried as its number of milliseconds of local wall-clock time
since 1970-01-01T00:00 local.  `calendarDay` is the calendar day it falls on
(the source's `format(d, 'yyyy-MM-dd')` key, whose string order is the order
of days for four-digit years) and `getDay` its day of the week, 0 = Sunday.
-/

namespace PredictiveAnalytics

/-! ## JavaScript numbers -/

/-- A JavaScript number: a finite value, `NaN`, `+Infinity` or `-Infinity`. -/
inductive JSNum where
  | fin (q : ℚ)
  | nan
  | pinf
  | ninf
deriving DecidableEq

namespace JSNum

/-- The infinity carrying the sign of `s`, and `NaN` when `s = 0`
(the value of `s * Infinity`, and of `s / 0`). -/
def ofSign (s : ℚ) : JSNum :=
  if s = 0 then nan else if 0 < s then pinf else ninf

/-- Unary minus. -/
def neg : JSNum → JSNum
  | fin a => fin (-a)
  | nan => nan
  | pinf => ninf
  | ninf => pinf

/-- The `+` of JavaScript numbers. -/
def add : JSNum → JSNum → JSNum
  | fin a, fin b => fin (a + b)
  | fin _, pinf => pinf
  | fin _, ninf => ninf
  | pinf, fin _ => pinf
  | ninf, fin _ => ninf
  | pinf, pinf => pinf
  | ninf, ninf => ninf
  | pinf, ninf => nan
  | ninf, pinf => nan
  | nan, _ => nan
  | _, nan => nan

/-- The binary `-` of JavaScript numbers. -/
def sub (a b : JSNum) : JSNum := add a (neg b)

/-- The `*` of JavaScript numbers. -/
def mul : JSNum → JSNum → JSNum
  | fin a, fin b => fin (a * b)
  | fin a, pinf => ofSign a
  | fin a, ninf => ofSign (-a)
  | pinf, fin b => ofSign b
  | ninf, fin b => ofSign (-b)
  | pinf, pinf => pinf
  | ninf, ninf => pinf
  | pinf, ninf => ninf
  | ninf, pinf => ninf
  | nan, _ => nan
  | _, nan => nan

/-- The `/` of JavaScript numbers. -/
def div : JSNum → JSNum → JSNum
  | fin a, fin b => if b = 0 then ofSign a else fin (a / b)
  | fin _, pinf => fin 0
  | fin _, ninf => fin 0
  | pinf, fin b => if b < 0 then ninf else pinf
  | ninf, fin b => if b < 0 then pinf else ninf
  | pinf, pinf => nan
  | ninf, ninf => nan
  | pinf, ninf => nan
  | ninf, pinf => nan
  | nan, _ => nan
  | _, nan => nan

instance : Neg JSNum := ⟨neg⟩
instance : Add JSNum := ⟨add⟩
instance : Sub JSNum := ⟨sub⟩
instance : Mul JSNum := ⟨mul⟩
instance : Div JSNum := ⟨div⟩

/-- The comparison `a < b`; false as soon as one side is `NaN`. -/
def lt : JSNum → JSNum → Bool
  | fin a, fin b => decide (a < b)
  | fin _, pinf => true
  | ninf, fin _ => true
  | ninf, pinf => true
  | _, _ => false

/-- The comparison `a > b`. -/
def gt (a b : JSNum) : Bool := lt b a

/-- The comparison `a >= b`; false as soon as one side is `NaN`. -/
def ge : JSNum → JSNum → Bool
  | fin a, fin b => decide (b ≤ a)
  | pinf, fin _ => true
  | fin _, ninf => true
  | pinf, ninf => true
  | pinf, pinf => true
  | ninf, ninf => true
  | _, _ => false

/-- The function `Math.abs`. -/
def abs : JSNum → JSNum
  | fin a => fin |a|
  | nan => nan
  | pinf => pinf
  | ninf => pinf

/-- The function `Math.round`: the nearest integer, halves rounded up. -/
def round : JSNum → JSNum
  | fin a => fin (⌊a + 1 / 2⌋ : ℤ)
  | nan => nan
  | pinf => pinf
  | ninf => ninf

/-- The function `Math.max` of two arguments. -/
def max : JSNum → JSNum → JSNum
  | nan, _ => nan
  | _, nan => nan
  | a, b => if lt a b then b else a

/-- The function `Math.min` of two arguments. -/
def min : JSNum → JSNum → JSNum
  | nan, _ => nan
  | _, nan => nan
  | a, b => if lt b a then b else a

/-- Truthiness of a number: everything but `0` and `NaN`. -/
def truthy : JSNum → Bool
  | fin a => decide (a ≠ 0)
  | nan => false
  | pinf => true
  | ninf => true

/-- The value of `(n / Math.sqrt(d)) * (n / Math.sqrt(d))`.  For `d > 0` and
finite `n` it is `n² / d`, the square root being taken in the reals; the
other cases follow `Math.sqrt` (`NaN` below zero) and the division rules. -/
def sqDivSqrt : JSNum → JSNum → JSNum
  | fin n, fin d =>
    if d < 0 then nan
    else if d = 0 then (if n = 0 then nan else pinf)
    else fin (n * n / d)
  | pinf, fin d => if d < 0 then nan else pinf
  | ninf, fin d => if d < 0 then nan else pinf
  | fin _, pinf => fin 0
  | pinf, pinf => nan
  | ninf, pinf => nan
  | _, ninf => nan
  | nan, _ => nan
  | _, nan => nan

/-- A non-negative whole number: what the spec calls a non-negative integer. -/
def IsNonNegInteger : JSNum → Prop
  | fin a => ∃ k : ℕ, a = k
  | _ => False

end JSNum

open JSNum

/-- The value of `v || d` for a possibly undefined number `v`. -/
def orDefault (v : Option JSNum) (d : JSNum) : JSNum :=
  match v with
  | some a => if a.truthy then a else d
  | none => d

/-! ## Dates -/

/-- Milliseconds in a day. -/
def msPerDay : Int := 86400000

/-- The calendar day a date falls on, as a day count from 1970-01-01: the
day that `format(date, 'yyyy-MM-dd')` prints. -/
def calendarDay (date : Int) : Int := date / msPerDay

/-- The day of the week of a calendar day, 0 = Sunday (1970-01-01 was a
Thursday). -/
def dayOfWeekOfDay (day : Int) : Nat := ((day + 4) % 7).toNat

/-- The method `Date.prototype.getDay`. -/
def getDay (date : Int) : Nat := dayOfWeekOfDay (calendarDay date)

/-- The function `addDays` of date-fns: the same wall-clock time `i` days on. -/
def addDays (date : Int) (i : Int) : Int := date + i * msPerDay

/-- The weekday name printed by `format(date, 'EEEE')`. -/
def dayName (dow : Nat) : String :=
  match dow with
  | 0 => "Sunday"
  | 1 => "Monday"
  | 2 => "Tuesday"
  | 3 => "Wednesday"
  | 4 => "Thursday"
  | 5 => "Friday"
  | _ => "Saturday"

/-! ## Data model -/

/-- A row of the `SalesData` collection, with the two fields the engine reads. -/
structure SalesRecord where
  date : Int
  quantity : ℚ
deriving DecidableEq

/-- The configuration read by the constructor of the service. -/
structure Config where
  minDataPoints : Int
  lookbackMonths : Int
  forecastDays : Int

/-- The expression `parseInt(v) || d`: `none` stands for a variable that is
unset or does not parse (`NaN`). -/
def parseIntOr (v : Option Int) (d : Int) : Int :=
  match v with
  | some n => if n = 0 then d else n
  | none => d

/-- The constructor of `PredictiveAnalytics`, from the three environment
variables. -/
def Config.ofEnv (minDataPoints lookbackMonths forecastDays : Option Int) : Config :=
  { minDataPoints := parseIntOr minDataPoints 30
    lookbackMonths := parseIntOr lookbackMonths 6
    forecastDays := parseIntOr forecastDays 30 }

/-- The result of `prepareTimeSeriesData`; `dates` is absent on the empty input. -/
structure TimeSeries where
  x : List ℚ
  y : List ℚ
  dates : Option (List Int)

/-- The three trend labels. -/
inductive Trend where
  | INCREASING
  | DECREASING
  | STABLE
deriving DecidableEq

/-- The object returned by `calculateTrend`; `intercept` and `r2` are absent
on the two degenerate paths. -/
structure TrendAnalysis where
  trend : Trend
  slope : JSNum
  intercept : Option JSNum
  r2 : Option JSNum
deriving DecidableEq

/-- One entry of `predictions`.  `date` is the calendar day (printed by the
source as `yyyy-MM-dd`), `dayOfWeek` the weekday name. -/
structure ForecastPoint where
  date : Int
  forecastedQuantity : JSNum
  dayOfWeek : String
deriving DecidableEq

/-- The messages pushed by `generateRecommendations`, one constructor per
string literal of the source; the peak-day message carries the two values
interpolated into it. -/
inductive Recommendation where
  /-- "Demand is trending upward. Consider increasing stock levels." -/
  | increaseStock
  /-- "Significant demand spike expected. Prepare additional inventory." -/
  | demandSpike
  /-- "Demand is trending downward. Optimize inventory to avoid overstocking." -/
  | reduceInventory
  /-- "Consider promotional offers to boost sales." -/
  | promotionalOffers
  /-- "Demand is stable. Maintain current inventory levels." -/
  | maintainInventory
  /-- "Peak demand expected on (dayOfWeek) ((date))" -/
  | peakDay (dayOfWeek : String) (date : Int)
deriving DecidableEq

/-- The `success: true` object returned by `generateForecast`.  The fields
`historicalMedian` and `standardDeviation` are left out: they are computed
from `y` after everything else and nothing reads them. -/
structure Forecast where
  trend : Trend
  confidenceScore : JSNum
  historicalAverage : JSNum
  predictions : List ForecastPoint
  recommendations : List Recommendation
  r2 : Option JSNum
  dataPoints : Nat
deriving DecidableEq

/-- What `generateForecast` returns. -/
inductive ForecastResult where
  /-- The object with `success: false`, `message: 'Insufficient historical data'`. -/
  | insufficient (dataPoints : Nat) (required : Int)
  /-- The object with `success: true`. -/
  | success (forecast : Forecast)
deriving DecidableEq

deriving instance DecidableEq for Except

/-- The flag `success` of a result. -/
def ForecastResult.isSuccess : ForecastResult → Bool
  | .insufficient _ _ => false
  | .success _ => true

/-! ## Library functions: `simple-statistics` and `ml-regression` -/

/-- One step of the compensated summation loop of `sum` in simple-statistics:
the pair is `(sum, correction)`. -/
def sumStep (acc : JSNum × JSNum) (xi : JSNum) : JSNum × JSNum :=
  let transition := acc.1 + xi
  if ge (abs acc.1) (abs xi) then
    (transition, acc.2 + ((acc.1 - transition) + xi))
  else
    (transition, acc.2 + ((xi - transition) + acc.1))

/-- The function `sum` of simple-statistics (Kahan-Babuska summation). -/
def sum : List JSNum → JSNum
  | [] => fin 0
  | x0 :: xs =>
    let acc := xs.foldl sumStep (x0, fin 0)
    acc.1 + acc.2

/-- The function `mean` of simple-statistics: it throws on the empty list. -/
def mean (x : List JSNum) : Except String JSNum :=
  if x.length = 0 then .error "mean requires at least one data point"
  else .ok (sum x / fin x.length)

/-- The plain accumulation loop `s = 0; for (...) s += v`. -/
def loopSum (vs : List JSNum) : JSNum := vs.foldl (· + ·) (fin 0)

/-- A fitted simple linear regression (`regression.SLR`). -/
structure SLR where
  slope : JSNum
  intercept : JSNum

/-- The function `regress` of ml-regression-simple-linear.  The four sums run
over finite inputs and are exact. -/
def regress (x y : List ℚ) : SLR :=
  let n : ℚ := x.length
  let xSum := x.sum
  let ySum := y.sum
  let xSquared := (x.map (fun a => a * a)).sum
  let xY := (List.zipWith (· * ·) x y).sum
  let numerator := n * xY - xSum * ySum
  let slope := fin numerator / fin (n * xSquared - xSum * xSum)
  { slope := slope
    intercept := (fin 1 / fin n) * fin ySum - slope * (fin 1 / fin n) * fin xSum }

/-- The constructor `new regression.SLR(x, y)`: it throws when the two arrays
differ in length. -/
def SLR.create (x y : List ℚ) : Except String SLR :=
  if x.length ≠ y.length then .error "x and y arrays must have the same length"
  else .ok (regress x y)

/-- The method `predict` on a number. -/
def SLR.predict (slr : SLR) (x : JSNum) : JSNum := slr.slope * x + slr.intercept

/-- The value `r * r` computed by `score(x, y)` (ml-regression-base) once the
lengths are checked: `r` is the correlation between the predictions and `y`. -/
def SLR.r2Value (slr : SLR) (x y : List ℚ) : JSNum :=
  let n : JSNum := fin x.length
  let y2 := x.map (fun xi => slr.predict (fin xi))
  let ys := y.map fin
  let xSum := loopSum y2
  let ySum := loopSum ys
  let xSquared := loopSum (y2.map (fun v => v * v))
  let ySquared := loopSum (ys.map (fun v => v * v))
  let xY := loopSum (List.zipWith (· * ·) y2 ys)
  sqDivSqrt (n * xY - xSum * ySum)
    ((n * xSquared - xSum * xSum) * (n * ySquared - ySum * ySum))

/-- The field `r2` of `score(x, y)`: it throws when the two arrays differ in
length. -/
def SLR.scoreR2 (slr : SLR) (x y : List ℚ) : Except String JSNum :=
  if x.length ≠ y.length then .error "x and y arrays must have the same length"
  else .ok (slr.r2Value x y)

/-! ## The service -/

/-- The body of the `forEach` of `prepareTimeSeriesData` on the object
`dataByDate`, kept as the list of its entries in insertion order. -/
def addToDate (dataByDate : List (Int × ℚ)) (dateKey : Int) (quantity : ℚ) :
    List (Int × ℚ) :=
  match dataByDate with
  | [] => [(dateKey, 0 + quantity)]
  | (k, v) :: rest =>
    if k = dateKey then (k, (if v = 0 then 0 else v) + quantity) :: rest
    else (k, v) :: addToDate rest dateKey quantity

/-- The object `dataByDate` after the `forEach`. -/
def groupByDate (salesData : List SalesRecord) : List (Int × ℚ) :=
  salesData.foldl (fun m sale => addToDate m (calendarDay sale.date) sale.quantity) []

/-- The method `prepareTimeSeriesData`. -/
def prepareTimeSeriesData (salesData : List SalesRecord) : TimeSeries :=
  if salesData.length = 0 then { x := [], y := [], dates := none }
  else
    let dataByDate := groupByDate salesData
    let dates := (dataByDate.map Prod.fst).insertionSort (· ≤ ·)
    { x := (List.range dates.length).map (fun (index : Nat) => (index : ℚ))
      y := dates.map (fun date => (dataByDate.lookup date).getD 0)
      dates := some dates }

/-- The classification of a slope in `calculateTrend`. -/
def classify (slope : JSNum) : Trend :=
  if gt slope (fin (1 / 10)) then .INCREASING
  else if lt slope (fin (-(1 / 10))) then .DECREASING
  else .STABLE

/-- The object `{ trend: 'STABLE', slope: 0 }` of the two degenerate paths of
`calculateTrend`. -/
def stableTrend : TrendAnalysis :=
  { trend := .STABLE, slope := fin 0, intercept := none, r2 := none }

/-- The `try` block of `calculateTrend`. -/
def fitTrend (x y : List ℚ) : Except String TrendAnalysis := do
  let slr ← SLR.create x y
  let slope := slr.slope
  let trend := classify slope
  let r2 ← slr.scoreR2 x y
  pure { trend := trend, slope := slope, intercept := some slr.intercept, r2 := some r2 }

/-- The method `calculateTrend`. -/
def calculateTrend (x y : List ℚ) : TrendAnalysis :=
  if x.length < 2 then stableTrend
  else
    match fitTrend x y with
    | .ok t => t
    | .error _ => stableTrend

/-- The loop of `exponentialSmoothing` from index 1 on: `prev` is
`smoothed[i - 1]`. -/
def smoothFrom (alpha : ℚ) (prev : ℚ) : List ℚ → List ℚ
  | [] => []
  | d :: ds => (alpha * d + (1 - alpha) * prev) :: smoothFrom alpha (alpha * d + (1 - alpha) * prev) ds

/-- The method `exponentialSmoothing`. -/
def exponentialSmoothing (data : List ℚ) (alpha : ℚ) : List ℚ :=
  match data with
  | [] => []
  | d0 :: ds => d0 :: smoothFrom alpha d0 ds

/-- The default value of the parameter `alpha`. -/
def defaultAlpha : ℚ := 3 / 10

/-- The body of the first `forEach` of `detectSeasonality` on the object
`dayOfWeekSales`. -/
def addToDay (dayOfWeekSales : List (Nat × List ℚ)) (dayOfWeek : Nat) (quantity : ℚ) :
    List (Nat × List ℚ) :=
  match dayOfWeekSales with
  | [] => [(dayOfWeek, [quantity])]
  | (k, v) :: rest =>
    if k = dayOfWeek then (k, v ++ [quantity]) :: rest
    else (k, v) :: addToDay rest dayOfWeek quantity

/-- The second `forEach` of `detectSeasonality`: the mean of every group. -/
def meanOfGroups : List (Nat × List ℚ) → Except String (List (Nat × JSNum))
  | [] => .ok []
  | (k, v) :: rest => do
    let m ← mean (v.map fin)
    let ms ← meanOfGroups rest
    pure ((k, m) :: ms)

/-- The method `detectSeasonality`: the entries of `seasonalityFactors`. -/
def detectSeasonality (salesData : List SalesRecord) : List (Nat × JSNum) :=
  let dayOfWeekSales :=
    salesData.foldl (fun m sale => addToDay m (getDay sale.date) sale.quantity) []
  match meanOfGroups dayOfWeekSales with
  | .ok factors => factors
  | .error _ => []

/-- The callback of the `reduce` that picks the peak day. -/
def peakStep (max p : ForecastPoint) : ForecastPoint :=
  if gt p.forecastedQuantity max.forecastedQuantity then p else max

/-- The messages pushed by the `if` on the trend in `generateRecommendations`. -/
def trendRecommendations (trend : Trend) (avgForecast historicalAverage : JSNum) :
    List Recommendation :=
  if trend = .INCREASING then
    if gt avgForecast (historicalAverage * fin (3 / 2)) then [.increaseStock, .demandSpike]
    else [.increaseStock]
  else if trend = .DECREASING then [.reduceInventory, .promotionalOffers]
  else [.maintainInventory]

/-- The method `generateRecommendations`; it throws on an empty list of
predictions (`mean`, then `reduce` without an initial value). -/
def generateRecommendations (predictions : List ForecastPoint) (trendAnalysis : TrendAnalysis)
    (historicalAverage : JSNum) : Except String (List Recommendation) := do
  let avgForecast ← mean (predictions.map (fun p => p.forecastedQuantity))
  let byTrend := trendRecommendations trendAnalysis.trend avgForecast historicalAverage
  match predictions with
  | [] => .error "Reduce of empty array with no initial value"
  | p0 :: ps =>
    let peak := ps.foldl peakStep p0
    pure (byTrend ++ [.peakDay peak.dayOfWeek peak.date])

/-- One turn of the forecast loop of `generateForecast`, for day `i`. -/
def forecastPoint (slr : SLR) (lastIndex : JSNum) (seasonalityFactors : List (Nat × JSNum))
    (y : List ℚ) (now : Int) (i : Nat) : Except String ForecastPoint := do
  let forecastIndex := lastIndex + fin i
  let forecastValue := slr.predict forecastIndex
  let forecastDate := addDays now i
  let dayOfWeek := getDay forecastDate
  let adjusted ←
    match seasonalityFactors.lookup dayOfWeek with
    | some factor =>
      if factor.truthy then do
        let avgSales ← mean (y.map fin)
        pure (forecastValue * (factor / avgSales))
      else pure forecastValue
    | none => pure forecastValue
  pure { date := calendarDay forecastDate
         forecastedQuantity := max (fin 0) (round adjusted)
         dayOfWeek := dayName dayOfWeek }

/-- The forecast loop over the days `is`. -/
def forecastLoop (slr : SLR) (lastIndex : JSNum) (seasonalityFactors : List (Nat × JSNum))
    (y : List ℚ) (now : Int) : List Nat → Except String (List ForecastPoint)
  | [] => .ok []
  | i :: is => do
    let p ← forecastPoint slr lastIndex seasonalityFactors y now i
    let ps ← forecastLoop slr lastIndex seasonalityFactors y now is
    pure (p :: ps)

/-- The value `x[x.length - 1]` as it enters `lastIndex + i`: a missing
element is `undefined`, which turns the sum into `NaN`. -/
def lastIndexOf (x : List ℚ) : JSNum :=
  match x.getLast? with
  | some v => fin v
  | none => nan

/-- The confidence score: `Math.min(0.95, trendAnalysis.r2 || 0.5)`. -/
def confidenceOf (r2 : Option JSNum) : JSNum :=
  min (fin (19 / 20)) (orDefault r2 (fin (1 / 2)))

/-- The method `generateForecast`, on the records `salesData` returned by
`getHistoricalData`, at the time `now`; `forecastDays` is `none` when the
caller leaves the parameter out.  An `error` is a thrown exception. -/
def generateForecast (cfg : Config) (salesData : List SalesRecord) (now : Int)
    (forecastDays : Option Int) : Except String ForecastResult :=
  let forecastDays := forecastDays.getD cfg.forecastDays
  if (salesData.length : Int) < cfg.minDataPoints then
    .ok (.insufficient salesData.length cfg.minDataPoints)
  else do
    let series := prepareTimeSeriesData salesData
    let x := series.x
    let y := series.y
    let trendAnalysis := calculateTrend x y
    let smoothedY := exponentialSmoothing y defaultAlpha
    let seasonalityFactors := detectSeasonality salesData
    let lastIndex := lastIndexOf x
    let slr ← SLR.create x smoothedY
    let predictions ← forecastLoop slr lastIndex seasonalityFactors y now
      ((List.range forecastDays.toNat).map (fun (j : Nat) => j + 1))
    let confidenceScore := confidenceOf trendAnalysis.r2
    let historicalAverage ← mean (y.map fin)
    let recommendations ← generateRecommendations predictions trendAnalysis historicalAverage
    pure (.success
      { trend := trendAnalysis.trend
        confidenceScore := confidenceScore
        historicalAverage := historicalAverage
        predictions := predictions
        recommendations := recommendations
        r2 := trendAnalysis.r2
        dataPoints := salesData.length })

/-! ## Definitions used to state the properties -/

/-- The quantities of the forecast points of a result, when there is one. -/
def forecastQuantities : Except String ForecastResult → Option (List JSNum)
  | .ok (.success f) => some (f.predictions.map (fun p => p.forecastedQuantity))
  | _ => none

/-- The index list `[0, 1, ..., n - 1]` of an aggregated series of `n` days. -/
def indices (n : Nat) : List ℚ := (List.range n).map (fun (index : Nat) => (index : ℚ))

/-- The arithmetic mean of a list of rationals (`0` on the empty list). -/
def average (l : List ℚ) : ℚ := l.sum / l.length

/-- The ordinary-least-squares slope of `y` against `x` in its textbook
form: the sum of the products of the deviations from the two means over the
sum of the squared deviations of `x`. -/
def olsSlope (x y : List ℚ) : ℚ :=
  (List.zipWith (fun a b => (a - average x) * (b - average y)) x y).sum /
    (x.map (fun a => (a - average x) * (a - average x))).sum

/-- Whether a recommendation is the peak-day message. -/
def Recommendation.isPeakDay : Recommendation → Bool
  | .peakDay _ _ => true
  | _ => false

/-- Thirty sales of five units, all on the calendar day 1970-01-01, one
millisecond apart. -/
def singleDaySales : List SalesRecord :=
  (List.range 30).map (fun (i : Nat) => { date := (i : Int), quantity := 5 })

/-- Forty daily records, one per day from 1970-01-01, selling `10 + i` units
on day `i`. -/
def risingSales : List SalesRecord :=
  (List.range 40).map (fun (i : Nat) => { date := (i : Int) * msPerDay, quantity := 10 + (i : ℚ) })

/-- The service as configured when no environment variable is set. -/
def defaultConfig : Config := Config.ofEnv none none none

/-- The forecast computed from `risingSales` on 1970-02-10 for three days. -/
def risingForecast : Forecast :=
  { trend := .INCREASING
    confidenceScore := fin (19 / 20)
    historicalAverage := fin (59 / 2)
    predictions :=
      [{ date := 41, forecastedQuantity := fin 48, dayOfWeek := "Wednesday" },
       { date := 42, forecastedQuantity := fin 45, dayOfWeek := "Thursday" },
       { date := 43, forecastedQuantity := fin 48, dayOfWeek := "Friday" }]
    recommendations := [.increaseStock, .demandSpike, .peakDay "Wednesday" 41]
    r2 := some (fin 1)
    dataPoints := 40 }

/-- The value rounded into the forecast of day `i` by the source: the
projection `slr.predict(lastIndex + i)`, multiplied by `factor / avg` when the
mapping holds a truthy (non-zero) `factor` for the day of the week. -/
def adjustedProjection (slr : SLR) (lastIndex : JSNum) (seasonalityFactors : List (Nat × JSNum))
    (avg : JSNum) (now : Int) (i : Nat) : JSNum :=
  match seasonalityFactors.lookup (getDay (addDays now i)) with
  | some factor =>
    if factor.truthy then slr.predict (lastIndex + fin i) * (factor / avg)
    else slr.predict (lastIndex + fin i)
  | none => slr.predict (lastIndex + fin i)

/-- The value rounded into the forecast of day `i` as the claim words it: the
projection multiplied by `factor / avg` whenever the mapping has an entry for
the day of the week, and by `1` when it has none. -/
def projectionByMembership (slr : SLR) (lastIndex : JSNum)
    (seasonalityFactors : List (Nat × JSNum)) (avg : JSNum) (now : Int) (i : Nat) : JSNum :=
  match seasonalityFactors.lookup (getDay (addDays now i)) with
  | some factor => slr.predict (lastIndex + fin i) * (factor / avg)
  | none => slr.predict (lastIndex + fin i) * fin 1

/-- Thirty-five daily records from 1970-01-01: nothing sold on Thursdays,
seven units on every other day. -/
def closedThursdaySales : List SalesRecord :=
  (List.range 35).map (fun (i : Nat) =>
    { date := (i : Int) * msPerDay, quantity := if i % 7 = 0 then 0 else 7 })

/-- The total quantity of the records that fall on the calendar day `d`. -/
def totalOnDay (salesData : List SalesRecord) (d : Int) : ℚ :=
  ((salesData.filter (fun s => calendarDay s.date = d)).map (fun s => s.quantity)).sum

/-- Three records out of order, two of them on 1970-01-02 at different times. -/
def unorderedSales : List SalesRecord :=
  [{ date := msPerDay + 5, quantity := 2 }, { date := 3, quantity := 1 },
   { date := msPerDay + 9, quantity := 4 }]

/-- The quantities of the records that fall on the day of week `d`, in input
order. -/
def quantitiesOnWeekday (salesData : List SalesRecord) (d : Nat) : List ℚ :=
  (salesData.filter (fun s => getDay s.date = d)).map (fun s => s.quantity)

/-- Four records: two Thursdays (1970-01-01 and 1970-01-08) and a Friday. -/
def weekdaySales : List SalesRecord :=
  [{ date := 0, quantity := 4 }, { date := msPerDay, quantity := 3 },
   { date := 7 * msPerDay, quantity := 8 }]

/-- The messages that the claim on recommendations lists before the peak-day
entry: for `DECREASING` the reduce-inventory message alone. -/
def claimedTrendRecommendations (trend : Trend) (avgForecast historicalAverage : ℚ) :
    List Recommendation :=
  match trend with
  | .INCREASING =>
    if historicalAverage * (3 / 2) < avgForecast then [.increaseStock, .demandSpike]
    else [.increaseStock]
  | .DECREASING => [.reduceInventory]
  | .STABLE => [.maintainInventory]

/-- The messages that the source pushes before the peak-day entry: for
`DECREASING` the reduce-inventory message and the promotional-offers message. -/
def expectedTrendRecommendations (trend : Trend) (avgForecast historicalAverage : ℚ) :
    List Recommendation :=
  match trend with
  | .INCREASING =>
    if historicalAverage * (3 / 2) < avgForecast then [.increaseStock, .demandSpike]
    else [.increaseStock]
  | .DECREASING => [.reduceInventory, .promotionalOffers]
  | .STABLE => [.maintainInventory]

/-- A trend analysis with the label `DECREASING`. -/
def decreasingTrend : TrendAnalysis :=
  { trend := .DECREASING, slope := fin (-1), intercept := some (fin 9), r2 := some (fin 1) }

/-- The numerator of the slope in `regress`: `n Σxy - Σx Σy`. -/
def crossSum (x y : List ℚ) : ℚ :=
  x.length * (List.zipWith (· * ·) x y).sum - x.sum * y.sum

/-- The denominator of the slope in `regress`, `n Σx² - (Σx)²`, for any list. -/
def squareSum (x : List ℚ) : ℚ :=
  x.length * (x.map (fun a => a * a)).sum - x.sum * x.sum

/-- Thirty-five daily records of five units, one per day from 1970-01-01. -/
def constantSales : List SalesRecord :=
  (List.range 35).map (fun (i : Nat) => { date := (i : Int) * msPerDay + 5, quantity := 5 })

/-- A configuration whose minimum is one record (`MIN_DATA_POINTS=1`). -/
def singleRecordConfig : Config := Config.ofEnv (some 1) none none

/-! ## The trending-product ranking: data and pipeline -/

/-- A row of the `SalesData` collection with the fields read by the ranking
pipeline; the product's `ObjectId` is carried as a number. -/
structure SalesRow where
  productId : Nat
  categoryId : String
  date : Int
  quantity : ℚ
  revenue : ℚ
  orderCount : ℚ
  averageOrderValue : ℚ
deriving DecidableEq

/-- A document produced by the `$group` stage. -/
structure TrendingItem where
  id : Nat
  totalQuantity : ℚ
  totalRevenue : ℚ
  avgOrderValue : ℚ
  orderCount : ℚ
deriving DecidableEq

/-- The `$match` stage: the rows of the category dated on or after `startDate`. -/
def matchStage (rows : List SalesRow) (categoryId : String) (startDate : Int) : List SalesRow :=
  rows.filter (fun r => r.categoryId = categoryId ∧ startDate ≤ r.date)

/-- The document that `$group` builds for the product `pid`. -/
def groupOf (rows : List SalesRow) (pid : Nat) : TrendingItem :=
  let g := rows.filter (fun r => r.productId = pid)
  { id := pid
    totalQuantity := (g.map (fun r => r.quantity)).sum
    totalRevenue := (g.map (fun r => r.revenue)).sum
    avgOrderValue := (g.map (fun r => r.averageOrderValue)).sum / g.length
    orderCount := (g.map (fun r => r.orderCount)).sum }

/-- The `$group` stage: one document per distinct `productId`. -/
def groupStage (rows : List SalesRow) : List TrendingItem :=
  ((rows.map (fun r => r.productId)).dedup).map (groupOf rows)

/-- The order of `$sort: { totalQuantity: -1 }`: larger totals first. -/
def byQuantityDesc (a b : TrendingItem) : Prop := b.totalQuantity ≤ a.totalQuantity

instance : DecidableRel byQuantityDesc := fun a b =>
  inferInstanceAs (Decidable (b.totalQuantity ≤ a.totalQuantity))

instance : IsTotal TrendingItem byQuantityDesc := ⟨fun a b => le_total b.totalQuantity a.totalQuantity⟩

instance : IsTrans TrendingItem byQuantityDesc :=
  ⟨fun _ _ _ hab hbc => le_trans hbc hab⟩

/-- The `$sort` stage; the order it gives to equal totals is one of those the
database may give. -/
def sortStage (items : List TrendingItem) : List TrendingItem :=
  items.insertionSort byQuantityDesc

/-- The method `getTrendingProductsByCategory` on the rows of the collection:
`startDate` is `subMonths(new Date(), 1)` and `findById` the lookup of the
product document; the database rejects a `$limit` that is not positive. -/
def getTrendingProductsByCategory (rows : List SalesRow) (findById : Nat → Option String)
    (categoryId : String) (limit : Int) (startDate : Int) :
    Except String (List (TrendingItem × Option String)) :=
  if limit ≤ 0 then .error "the limit must be positive"
  else
    let trendingProducts :=
      (sortStage (groupStage (matchStage rows categoryId startDate))).take limit.toNat
    .ok (trendingProducts.map (fun item => (item, findById item.id)))

/-- The total quantity of the product `pid` over the matched rows. -/
def productTotal (rows : List SalesRow) (categoryId : String) (startDate : Int) (pid : Nat) : ℚ :=
  (((matchStage rows categoryId startDate).filter (fun r => r.productId = pid)).map
    (fun r => r.quantity)).sum

/-- The distinct products that have a matched row. -/
def matchedProducts (rows : List SalesRow) (categoryId : String) (startDate : Int) : List Nat :=
  ((matchStage rows categoryId startDate).map (fun r => r.productId)).dedup

/-- Rows of one category in the window: product 1 sells 100 units (in two
rows), products 2 and 3 sell 80 each; a fourth row is older than the window. -/
def rankingRows : List SalesRow :=
  [{ productId := 2, categoryId := "toys", date := 50, quantity := 80, revenue := 800,
     orderCount := 8, averageOrderValue := 100 },
   { productId := 1, categoryId := "toys", date := 60, quantity := 60, revenue := 600,
     orderCount := 6, averageOrderValue := 100 },
   { productId := 3, categoryId := "toys", date := 70, quantity := 80, revenue := 800,
     orderCount := 8, averageOrderValue := 100 },
   { productId := 1, categoryId := "toys", date := 80, quantity := 40, revenue := 400,
     orderCount := 4, averageOrderValue := 100 },
   { productId := 4, categoryId := "toys", date := 10, quantity := 500, revenue := 5000,
     orderCount := 50, averageOrderValue := 100 }]

/-! ## The prediction store: data and operations -/

/-- The values of the field `status` of a prediction. -/
inductive PredictionStatus where
  | PENDING
  | ACTIVE
  | ARCHIVED
deriving DecidableEq

/-- The values of the field `type` of a prediction. -/
inductive PredictionType where
  | INVENTORY
  | TRENDING
  | DEMAND
deriving DecidableEq

/-- The object passed to `savePrediction`.  The two fields with a schema
default are absent when the caller leaves them out; `productId`,
`historicalData`, `factors` and `modelMetrics` are not carried, no hook or
query of the repository reads them. -/
structure PredictionData where
  type : PredictionType
  categoryId : String
  predictionDate : Int
  forecastedValue : ℚ
  confidenceScore : Option ℚ
  recommendations : List String
  status : Option PredictionStatus
  validUntil : Int
deriving DecidableEq

/-- A stored `Prediction` document, with the same fields as `PredictionData`
and its identifier; the bookkeeping fields `createdAt` and `updatedAt` of the
schema option `timestamps` are not carried. -/
structure Prediction where
  id : Nat
  type : PredictionType
  categoryId : String
  predictionDate : Int
  forecastedValue : ℚ
  confidenceScore : ℚ
  recommendations : List String
  status : PredictionStatus
  validUntil : Int
deriving DecidableEq

/-- The document built by `new Prediction(data)`: the schema defaults are
`status: 'ACTIVE'` and `confidenceScore: 0`. -/
def Prediction.ofData (id : Nat) (data : PredictionData) : Prediction :=
  { id := id
    type := data.type
    categoryId := data.categoryId
    predictionDate := data.predictionDate
    forecastedValue := data.forecastedValue
    confidenceScore := data.confidenceScore.getD 0
    recommendations := data.recommendations
    status := data.status.getD .ACTIVE
    validUntil := data.validUntil }

/-- The validation of the schema that can fail on a document of this type:
`confidenceScore` has `min: 0` and `max: 1`. -/
def Prediction.validate (doc : Prediction) : Except String Unit :=
  if doc.confidenceScore < 0 ∨ 1 < doc.confidenceScore then
    .error "Prediction validation failed: confidenceScore"
  else .ok ()

/-- The hook `predictionSchema.pre('save')`, run at the time `now`. -/
def preSave (now : Int) (doc : Prediction) : Prediction :=
  if doc.validUntil < now ∧ doc.status = .ACTIVE then { doc with status := .ARCHIVED }
  else doc

/-- The method `savePrediction`, that is `Prediction.create(predictionData)`:
the document is validated, passed through the `pre('save')` hook and inserted
in the collection `store` under the fresh identifier `newId`; it returns the
saved document and the collection after the insert. -/
def savePrediction (now : Int) (store : List Prediction) (newId : Nat) (data : PredictionData) :
    Except String (Prediction × List Prediction) := do
  let doc := Prediction.ofData newId data
  doc.validate
  let saved := preSave now doc
  pure (saved, store ++ [saved])

/-- A read of one prediction by identifier (`findById(...).lean()`): the
stored document as it is. -/
def findPrediction (store : List Prediction) (id : Nat) : Option Prediction :=
  store.find? (fun p => p.id = id)

/-- A forecast result saved after its validity has ended, without a status. -/
def expiredData : PredictionData :=
  { type := .TRENDING, categoryId := "toys", predictionDate := 100, forecastedValue := 12,
    confidenceScore := some (19 / 20), recommendations := [], status := none, validUntil := 500 }

/-! ## The prediction store: sweep and read -/

/-- Thirty days in milliseconds: `30 * 24 * 60 * 60 * 1000`. -/
def thirtyDaysMs : Int := 30 * 24 * 60 * 60 * 1000

/-- The update that the `updateMany` of `cleanupOldData` makes to one
document at the time `now`: the filter is `validUntil < thirtyDaysAgo` and
`status: 'ACTIVE'`, the update `$set: { status: 'ARCHIVED' }`. -/
def archiveIfOld (now : Int) (doc : Prediction) : Prediction :=
  if doc.validUntil < now - thirtyDaysMs ∧ doc.status = .ACTIVE then
    { doc with status := .ARCHIVED }
  else doc

/-- The archival sweep of the job `cleanupOldData` on the collection. -/
def cleanupOldData (now : Int) (store : List Prediction) : List Prediction :=
  store.map (archiveIfOld now)

/-- The query of `getPredictionAccuracy`, the one read of predictions in the
repository: `Prediction.find` with `status: 'ARCHIVED'` and `validUntil` not
older than thirty days, returned as stored (`lean()`). -/
def findArchivedRecent (now : Int) (store : List Prediction) : List Prediction :=
  store.filter (fun p => p.status = .ARCHIVED ∧ now - thirtyDaysMs ≤ p.validUntil)

/-- The object `accuracyMetrics` of `getPredictionAccuracy`. -/
structure AccuracyMetrics where
  totalPredictions : Nat
  averageConfidence : ℚ
deriving DecidableEq

/-- The handler `getPredictionAccuracy`: the object `accuracyMetrics` of its
response and the collection after the request.  The handler only runs the
`find` and computes on its result; it writes nothing. -/
def getPredictionAccuracy (now : Int) (store : List Prediction) :
    AccuracyMetrics × List Prediction :=
  let predictions := findArchivedRecent now store
  ({ totalPredictions := predictions.length
     averageConfidence :=
       if predictions.length > 0 then
         predictions.foldl (fun sum p => sum + p.confidenceScore) 0 / predictions.length
       else 0 },
   store)

/-- The operations of the repository on the collection of predictions:
`savePrediction` (called by the daily job and by the admin endpoint), the
archival sweep of `cleanupOldData`, and the read of `getPredictionAccuracy`. -/
inductive StoreOp where
  | save (newId : Nat) (data : PredictionData)
  | sweep
  | read

/-- The collection after one operation run at the time `now`.  A save that
fails validation inserts nothing. -/
def StoreOp.run (now : Int) (store : List Prediction) : StoreOp → List Prediction
  | .save newId data =>
    match savePrediction now store newId data with
    | .ok (_, store2) => store2
    | .error _ => store
  | .sweep => cleanupOldData now store
  | .read => (getPredictionAccuracy now store).2

/-- A forecast result saved with a validity that ends at time 500. -/
def shortLivedData : PredictionData :=
  { type := .INVENTORY, categoryId := "toys", predictionDate := 100, forecastedValue := 12,
    confidenceScore := some (1 / 2), recommendations := [], status := none, validUntil := 500 }

/-- The document stored for `shortLivedData` when it is saved at time 100. -/
def shortLivedPrediction : Prediction :=
  { id := 7, type := .INVENTORY, categoryId := "toys", predictionDate := 100,
    forecastedValue := 12, confidenceScore := 1 / 2, recommendations := [], status := .ACTIVE,
    validUntil := 500 }

/-- The handler `getInventoryForecast` on the records selected by its
filters: `days` is the result of `parseInt(req.query.days)`, `none` when the
parameter is missing or not numeric (`NaN`).  An `error` is passed to
`next`. -/
def getInventoryForecast (cfg : Config) (salesData : List SalesRecord) (now : Int)
    (days : Option Int) : Except String ForecastResult :=
  let forecastDays := parseIntOr days 30
  generateForecast cfg salesData now (some forecastDays)

/-- Thirty records of quantity zero, all on the calendar day 1970-01-01. -/
def zeroSingleDaySales : List SalesRecord :=
  (List.range 30).map (fun (i : Nat) => { date := (i : Int), quantity := 0 })

/-! ## The daily job and the admin endpoint: data and operations -/

/-- The list `CATEGORIES` of the scheduled jobs. -/
def CATEGORIES : List String :=
  ["ELECTRONICS", "CLOTHING", "GROCERIES", "AGRICULTURE", "HANDICRAFTS", "PHARMACY", "BOOKS",
   "SPORTS", "HOME_DECOR", "JEWELRY"]

/-- The field `historicalData` of the object passed to `savePrediction`. -/
structure HistoricalData where
  dataPoints : Nat
  averageValue : JSNum
  trend : Trend
deriving DecidableEq

/-- The field `modelMetrics` of the object passed to `savePrediction`: the job
passes `forecast.modelMetrics` (`algorithm`, `r2`, `dataPoints`), the admin
endpoint an object with `algorithm`, `accuracy` and `r2`. -/
structure ModelMetrics where
  algorithm : String
  accuracy : Option JSNum
  r2 : Option JSNum
  dataPoints : Option Nat
deriving DecidableEq

/-- The object literal that the job and the admin endpoint pass to
`savePrediction`. -/
structure PredictionPayload where
  type : PredictionType
  categoryId : String
  predictionDate : Int
  forecastedValue : JSNum
  confidenceScore : JSNum
  historicalData : HistoricalData
  modelMetrics : ModelMetrics
  recommendations : List Recommendation
  validUntil : Int
deriving DecidableEq

/-- What the two service calls do for one category at one turn of a loop:
`now` is the time of the turn, `forecast` the outcome of
`generateForecast({ categoryId })` and `save` that of `savePrediction` on a
payload, the identifier of the saved prediction or a thrown error. -/
structure CategoryRun where
  categoryId : String
  now : Int
  forecast : Except String ForecastResult
  save : PredictionPayload → Except String Nat

/-- The message of the `success: false` result of `generateForecast`. -/
def insufficientMessage : String := "Insufficient historical data"

/-- The payload built by the daily job for a successful forecast. -/
def jobPayload (now : Int) (categoryId : String) (forecast : Forecast) : PredictionPayload :=
  { type := .TRENDING
    categoryId := categoryId
    predictionDate := now
    forecastedValue := forecast.historicalAverage
    confidenceScore := forecast.confidenceScore
    historicalData :=
      { dataPoints := forecast.dataPoints
        averageValue := forecast.historicalAverage
        trend := forecast.trend }
    modelMetrics :=
      { algorithm := "LINEAR_REGRESSION", accuracy := none, r2 := forecast.r2,
        dataPoints := some forecast.dataPoints }
    recommendations := forecast.recommendations
    validUntil := now + thirtyDaysMs }

/-- What the daily job does, in order: calls of the two services, and the two
log lines of a turn. -/
inductive JobEvent where
  | forecastCalled (categoryId : String)
  | saveCalled (payload : PredictionPayload)
  | predictionSaved (categoryId : String) (id : Nat)
  | errorLogged (categoryId : String) (message : String)
deriving DecidableEq

/-- One turn of the loop of `generateDailyPredictions`, with its own
`try`/`catch`. -/
def dailyPredictionStep (run : CategoryRun) : List JobEvent :=
  .forecastCalled run.categoryId ::
    match run.forecast with
    | .error e => [.errorLogged run.categoryId e]
    | .ok (.insufficient _ _) => []
    | .ok (.success forecast) =>
      .saveCalled (jobPayload run.now run.categoryId forecast) ::
        match run.save (jobPayload run.now run.categoryId forecast) with
        | .error e => [.errorLogged run.categoryId e]
        | .ok id => [.predictionSaved run.categoryId id]

/-- The job `generateDailyPredictions` over the turns of its loop. -/
def generateDailyPredictions (runs : List CategoryRun) : List JobEvent :=
  runs.flatMap dailyPredictionStep

/-- The categories for which `generateForecast` was called, in order. -/
def forecastCalls (events : List JobEvent) : List String :=
  events.filterMap (fun e => match e with
    | .forecastCalled c => some c
    | _ => none)

/-- The categories for which `savePrediction` was called, in order. -/
def saveCalls (events : List JobEvent) : List String :=
  events.filterMap (fun e => match e with
    | .saveCalled p => some p.categoryId
    | _ => none)

/-- The categories for which a prediction was saved, in order. -/
def savedCategories (events : List JobEvent) : List String :=
  events.filterMap (fun e => match e with
    | .predictionSaved c _ => some c
    | _ => none)

/-- Whether the forecast of a turn returned `success: true`. -/
def CategoryRun.forecastSucceeded (run : CategoryRun) : Bool :=
  match run.forecast with
  | .ok (.success _) => true
  | _ => false

/-- Whether the forecast of a turn returned `success: true` and the save of
its payload by the job did not throw. -/
def CategoryRun.jobSaved (run : CategoryRun) : Bool :=
  match run.forecast with
  | .ok (.success forecast) =>
    match run.save (jobPayload run.now run.categoryId forecast) with
    | .ok _ => true
    | .error _ => false
  | _ => false

/-- A turn for the category `BOOKS` whose forecast succeeds and whose save
throws. -/
def failingSaveRun : CategoryRun :=
  { categoryId := "BOOKS", now := 40 * msPerDay, forecast := .ok (.success risingForecast),
    save := fun _ => .error "connection lost" }

/-- The payload built by the admin endpoint `generatePredictions` for a
successful forecast. -/
def adminPayload (now : Int) (categoryId : String) (forecast : Forecast) : PredictionPayload :=
  { type := .INVENTORY
    categoryId := categoryId
    predictionDate := now
    forecastedValue := forecast.historicalAverage
    confidenceScore := forecast.confidenceScore
    historicalData :=
      { dataPoints := forecast.dataPoints
        averageValue := forecast.historicalAverage
        trend := forecast.trend }
    modelMetrics :=
      { algorithm := "LINEAR_REGRESSION", accuracy := some forecast.confidenceScore,
        r2 := forecast.r2, dataPoints := none }
    recommendations := forecast.recommendations
    validUntil := addDays now 30 }

/-- An entry of the `results` array of the admin endpoint, one constructor per
value of `status`. -/
inductive ResultEntry where
  /-- `{ categoryId, status: 'success', predictionId }` -/
  | success (categoryId : String) (predictionId : Nat)
  /-- `{ categoryId, status: 'failed', reason }` -/
  | failed (categoryId : String) (reason : String)
  /-- `{ categoryId, status: 'error', error }` -/
  | error (categoryId : String) (error : String)
deriving DecidableEq

/-- The field `categoryId` of an entry. -/
def ResultEntry.categoryId : ResultEntry → String
  | .success c _ => c
  | .failed c _ => c
  | .error c _ => c

/-- The field `status` of an entry. -/
def ResultEntry.status : ResultEntry → String
  | .success _ _ => "success"
  | .failed _ _ => "failed"
  | .error _ _ => "error"

/-- One turn of the loop of the admin endpoint: the entry pushed to `results`. -/
def adminEntry (run : CategoryRun) : ResultEntry :=
  match run.forecast with
  | .error e => .error run.categoryId e
  | .ok (.insufficient _ _) => .failed run.categoryId insufficientMessage
  | .ok (.success forecast) =>
    match run.save (adminPayload run.now run.categoryId forecast) with
    | .error e => .error run.categoryId e
    | .ok id => .success run.categoryId id

/-- The `data` of the response of the admin endpoint `generatePredictions` to
an array of category identifiers, over the turns of its loop. -/
def generatePredictions (runs : List CategoryRun) : List ResultEntry :=
  runs.map adminEntry

/-- The payloads that the admin endpoint passed to `savePrediction` and that
were saved, with the identifier returned. -/
def adminSaved (runs : List CategoryRun) : List (Nat × PredictionPayload) :=
  runs.filterMap (fun run =>
    match run.forecast with
    | .ok (.success forecast) =>
      match run.save (adminPayload run.now run.categoryId forecast) with
      | .ok id => some (id, adminPayload run.now run.categoryId forecast)
      | .error _ => none
    | _ => none)

/-- A turn for the category `TOYS` whose forecast succeeds and whose save
returns the identifier 11. -/
def savedRun : CategoryRun :=
  { categoryId := "TOYS", now := 40 * msPerDay, forecast := .ok (.success risingForecast),
    save := fun _ => .ok 11 }

/-! ## Binary64 arithmetic -/

namespace Binary64

/-- The power `2 ^ k` for an integer exponent `k`. -/
def pow2 (k : ℤ) : ℚ :=
  if 0 ≤ k then ((2 ^ k.toNat : ℕ) : ℚ) else 1 / ((2 ^ (-k).toNat : ℕ) : ℚ)

/-- The first phase of `natLog2`: the first `j`, counted up from the given
one, with `n < 2 ^ 2 ^ j`. -/
def log2Bound (n : ℕ) : ℕ → ℕ → ℕ
  | 0, j => j
  | fuel + 1, j => if n < 2 ^ 2 ^ j then j else log2Bound n fuel (j + 1)

/-- The second phase of `natLog2`, a binary search: `k` holds the binary
digits of the result above position `s`. -/
def log2Search (n : ℕ) : ℕ → ℕ → ℕ
  | 0, k => k
  | s + 1, k => if 2 ^ (k + 2 ^ s) ≤ n then log2Search n s (k + 2 ^ s) else log2Search n s k

/-- The binary logarithm `⌊log₂ n⌋` of a natural number (`0` for `n = 0`). -/
def natLog2 (n : ℕ) : ℕ := log2Search n (log2Bound n n 0) 0

/-- The binary exponent of a rational `q ≠ 0`: the integer `e` with
`2 ^ e ≤ |q| < 2 ^ (e + 1)`. -/
def floorLog2 (q : ℚ) : ℤ :=
  let e0 : ℤ := (natLog2 q.num.natAbs : ℤ) - (natLog2 q.den : ℤ)
  if pow2 e0 ≤ |q| then e0 else e0 - 1

/-- The nearest integer, a tie going to the even neighbour. -/
def roundHalfEven (x : ℚ) : ℤ :=
  let f := ⌊x⌋
  if x - f < 1 / 2 then f
  else if 1 / 2 < x - f then f + 1
  else if f % 2 = 0 then f else f + 1

/-- The spacing of the binary64 numbers at the magnitude of `q`: `2 ^ (e - 52)`
for the binary exponent `e` of `q`, and `2 ^ (-1074)` in the subnormal range
(`e < -1022`). -/
def ulp (q : ℚ) : ℚ := pow2 (max (floorLog2 q) (-1022 : ℤ) - 52)

/-- The magnitude from which an exact result rounds to an infinity: half a
spacing above the largest finite binary64 number `2 ^ 1024 - 2 ^ 971`. -/
def overflowThreshold : ℚ := pow2 1024 - pow2 970

/-- The binary64 number nearest to the rational `q` (IEEE 754 round to nearest,
ties to even), an infinity on overflow. -/
def ofRat (q : ℚ) : JSNum :=
  if overflowThreshold ≤ |q| then (if 0 < q then pinf else ninf)
  else fin ((roundHalfEven (q / ulp q) : ℚ) * ulp q)

/-- The binary64 number nearest to a value; the special values are kept. -/
def ofNum : JSNum → JSNum
  | fin q => ofRat q
  | v => v

/-- The binary64 `+`: the exact sum, rounded. -/
def fadd (a b : JSNum) : JSNum := ofNum (a + b)

/-- The binary64 `-`: the exact difference, rounded. -/
def fsub (a b : JSNum) : JSNum := ofNum (a - b)

/-- The binary64 `*`: the exact product, rounded. -/
def fmul (a b : JSNum) : JSNum := ofNum (a * b)

/-- The binary64 `/`: the exact quotient, rounded. -/
def fdiv (a b : JSNum) : JSNum := ofNum (a / b)

/-- One step of the bitwise integer square root: `r` holds the bits above
position `k`. -/
def sqrtBits (n : ℕ) : ℕ → ℕ → ℕ
  | 0, r => r
  | k + 1, r => if (r + 2 ^ k) * (r + 2 ^ k) ≤ n then sqrtBits n k (r + 2 ^ k) else sqrtBits n k r

/-- The integer square root `⌊√n⌋`. -/
def natSqrt (n : ℕ) : ℕ := sqrtBits n (natLog2 n / 2 + 1) 0

/-- The binary64 number nearest to the square root of a rational `q > 0`.  The
root lies in the binade of exponent `⌊e / 2⌋` for the binary exponent `e` of
`q`; `m` is the integer part of the root counted in spacings, and the root is
compared with `m + 1/2` by comparing squares. -/
def sqrtBinary64 (q : ℚ) : JSNum :=
  let u := pow2 (max (floorLog2 q / 2) (-1022 : ℤ) - 52)
  let t := q / (u * u)
  let m := natSqrt ⌊t⌋₊
  let h : ℚ := (m : ℚ) + 1 / 2
  let k := if t < h * h then m else if h * h < t then m + 1 else if m % 2 = 0 then m else m + 1
  fin ((k : ℚ) * u)

/-- The function `Math.sqrt`. -/
def fsqrt : JSNum → JSNum
  | fin q => if q < 0 then nan else if q = 0 then fin 0 else sqrtBinary64 q
  | nan => nan
  | pinf => pinf
  | ninf => nan

end Binary64

/-! ## The service in binary64 arithmetic -/

namespace Binary64

/-- The result of `prepareTimeSeriesData`. -/
structure TimeSeries where
  x : List JSNum
  y : List JSNum
  dates : Option (List Int)

/-- One step of the compensated summation loop of `sum` in simple-statistics:
the pair is `(sum, correction)`. -/
def sumStep (acc : JSNum × JSNum) (xi : JSNum) : JSNum × JSNum :=
  let transition := fadd acc.1 xi
  if ge (abs acc.1) (abs xi) then
    (transition, fadd acc.2 (fadd (fsub acc.1 transition) xi))
  else
    (transition, fadd acc.2 (fadd (fsub xi transition) acc.1))

/-- The function `sum` of simple-statistics (Kahan-Babuska summation). -/
def sum : List JSNum → JSNum
  | [] => fin 0
  | x0 :: xs =>
    let acc := xs.foldl sumStep (x0, fin 0)
    fadd acc.1 acc.2

/-- The function `mean` of simple-statistics: it throws on the empty list. -/
def mean (x : List JSNum) : Except String JSNum :=
  if x.length = 0 then .error "mean requires at least one data point"
  else .ok (fdiv (sum x) (fin x.length))

/-- The plain accumulation loop `s = 0; for (...) s += v`. -/
def loopSum (vs : List JSNum) : JSNum := vs.foldl fadd (fin 0)

/-- A fitted simple linear regression (`regression.SLR`). -/
structure SLR where
  slope : JSNum
  intercept : JSNum

/-- The function `regress` of ml-regression-simple-linear. -/
def regress (x y : List JSNum) : SLR :=
  let n : JSNum := fin x.length
  let xSum := loopSum x
  let ySum := loopSum y
  let xSquared := loopSum (x.map (fun a => fmul a a))
  let xY := loopSum (List.zipWith fmul x y)
  let numerator := fsub (fmul n xY) (fmul xSum ySum)
  let slope := fdiv numerator (fsub (fmul n xSquared) (fmul xSum xSum))
  { slope := slope
    intercept := fsub (fmul (fdiv (fin 1) n) ySum) (fmul (fmul slope (fdiv (fin 1) n)) xSum) }

/-- The constructor `new regression.SLR(x, y)`: it throws when the two arrays
differ in length. -/
def SLR.create (x y : List JSNum) : Except String SLR :=
  if x.length ≠ y.length then .error "x and y arrays must have the same length"
  else .ok (regress x y)

/-- The method `predict` on a number: `slope * x + intercept`. -/
def SLR.predict (slr : SLR) (x : JSNum) : JSNum := fadd (fmul slr.slope x) slr.intercept

/-- The correlation `r` computed by `score(x, y)` (ml-regression-base) once the
lengths are checked, between the predictions and `y`. -/
def SLR.correlation (slr : SLR) (x y : List JSNum) : JSNum :=
  let n : JSNum := fin x.length
  let y2 := x.map (fun xi => slr.predict xi)
  let xSum := loopSum y2
  let ySum := loopSum y
  let xSquared := loopSum (y2.map (fun v => fmul v v))
  let ySquared := loopSum (y.map (fun v => fmul v v))
  let xY := loopSum (List.zipWith fmul y2 y)
  fdiv (fsub (fmul n xY) (fmul xSum ySum))
    (fsqrt (fmul (fsub (fmul n xSquared) (fmul xSum xSum))
      (fsub (fmul n ySquared) (fmul ySum ySum))))

/-- The value `r * r` of the field `r2` of `score(x, y)`. -/
def SLR.r2Value (slr : SLR) (x y : List JSNum) : JSNum :=
  fmul (slr.correlation x y) (slr.correlation x y)

/-- The field `r2` of `score(x, y)`: it throws when the two arrays differ in
length. -/
def SLR.scoreR2 (slr : SLR) (x y : List JSNum) : Except String JSNum :=
  if x.length ≠ y.length then .error "x and y arrays must have the same length"
  else .ok (slr.r2Value x y)

/-- The body of the `forEach` of `prepareTimeSeriesData` on the object
`dataByDate`, kept as the list of its entries in insertion order. -/
def addToDate (dataByDate : List (Int × JSNum)) (dateKey : Int) (quantity : JSNum) :
    List (Int × JSNum) :=
  match dataByDate with
  | [] => [(dateKey, fadd (fin 0) quantity)]
  | (k, v) :: rest =>
    if k = dateKey then (k, fadd (if v.truthy then v else fin 0) quantity) :: rest
    else (k, v) :: addToDate rest dateKey quantity

/-- The object `dataByDate` after the `forEach`; a stored quantity is read as
the binary64 number it is. -/
def groupByDate (salesData : List SalesRecord) : List (Int × JSNum) :=
  salesData.foldl (fun m sale => addToDate m (calendarDay sale.date) (ofRat sale.quantity)) []

/-- The method `prepareTimeSeriesData`. -/
def prepareTimeSeriesData (salesData : List SalesRecord) : TimeSeries :=
  if salesData.length = 0 then { x := [], y := [], dates := none }
  else
    let dataByDate := groupByDate salesData
    let dates := (dataByDate.map Prod.fst).insertionSort (· ≤ ·)
    { x := (List.range dates.length).map (fun (index : Nat) => fin (index : ℚ))
      y := dates.map (fun date => (dataByDate.lookup date).getD (fin 0))
      dates := some dates }

/-- The classification of a slope in `calculateTrend`, against the literals
`0.1` and `-0.1`. -/
def classify (slope : JSNum) : Trend :=
  if gt slope (ofRat (1 / 10)) then .INCREASING
  else if lt slope (neg (ofRat (1 / 10))) then .DECREASING
  else .STABLE

/-- The `try` block of `calculateTrend`. -/
def fitTrend (x y : List JSNum) : Except String TrendAnalysis := do
  let slr ← SLR.create x y
  let slope := slr.slope
  let trend := classify slope
  let r2 ← slr.scoreR2 x y
  pure { trend := trend, slope := slope, intercept := some slr.intercept, r2 := some r2 }

/-- The method `calculateTrend`. -/
def calculateTrend (x y : List JSNum) : TrendAnalysis :=
  if x.length < 2 then stableTrend
  else
    match fitTrend x y with
    | .ok t => t
    | .error _ => stableTrend

/-- One turn of the loop of `exponentialSmoothing`:
`alpha * data[i] + (1 - alpha) * smoothed[i - 1]`. -/
def smoothStep (alpha d prev : JSNum) : JSNum :=
  fadd (fmul alpha d) (fmul (fsub (fin 1) alpha) prev)

/-- The loop of `exponentialSmoothing` from index 1 on: `prev` is
`smoothed[i - 1]`. -/
def smoothFrom (alpha : JSNum) (prev : JSNum) : List JSNum → List JSNum
  | [] => []
  | d :: ds => smoothStep alpha d prev :: smoothFrom alpha (smoothStep alpha d prev) ds

/-- The method `exponentialSmoothing`. -/
def exponentialSmoothing (data : List JSNum) (alpha : JSNum) : List JSNum :=
  match data with
  | [] => []
  | d0 :: ds => d0 :: smoothFrom alpha d0 ds

/-- The default value `0.3` of the parameter `alpha`. -/
def defaultAlpha : JSNum := ofRat (3 / 10)

/-- The body of the first `forEach` of `detectSeasonality` on the object
`dayOfWeekSales`. -/
def addToDay (dayOfWeekSales : List (Nat × List JSNum)) (dayOfWeek : Nat) (quantity : JSNum) :
    List (Nat × List JSNum) :=
  match dayOfWeekSales with
  | [] => [(dayOfWeek, [quantity])]
  | (k, v) :: rest =>
    if k = dayOfWeek then (k, v ++ [quantity]) :: rest
    else (k, v) :: addToDay rest dayOfWeek quantity

/-- The second `forEach` of `detectSeasonality`: the mean of every group. -/
def meanOfGroups : List (Nat × List JSNum) → Except String (List (Nat × JSNum))
  | [] => .ok []
  | (k, v) :: rest => do
    let m ← mean v
    let ms ← meanOfGroups rest
    pure ((k, m) :: ms)

/-- The method `detectSeasonality`: the entries of `seasonalityFactors`. -/
def detectSeasonality (salesData : List SalesRecord) : List (Nat × JSNum) :=
  let dayOfWeekSales :=
    salesData.foldl (fun m sale => addToDay m (getDay sale.date) (ofRat sale.quantity)) []
  match meanOfGroups dayOfWeekSales with
  | .ok factors => factors
  | .error _ => []

/-- The messages pushed by the `if` on the trend in `generateRecommendations`;
the spike test is `avgForecast > historicalAverage * 1.5`. -/
def trendRecommendations (trend : Trend) (avgForecast historicalAverage : JSNum) :
    List Recommendation :=
  if trend = .INCREASING then
    if gt avgForecast (fmul historicalAverage (ofRat (3 / 2))) then [.increaseStock, .demandSpike]
    else [.increaseStock]
  else if trend = .DECREASING then [.reduceInventory, .promotionalOffers]
  else [.maintainInventory]

/-- The method `generateRecommendations`; it throws on an empty list of
predictions (`mean`, then `reduce` without an initial value). -/
def generateRecommendations (predictions : List ForecastPoint) (trendAnalysis : TrendAnalysis)
    (historicalAverage : JSNum) : Except String (List Recommendation) := do
  let avgForecast ← mean (predictions.map (fun p => p.forecastedQuantity))
  let byTrend := trendRecommendations trendAnalysis.trend avgForecast historicalAverage
  match predictions with
  | [] => .error "Reduce of empty array with no initial value"
  | p0 :: ps =>
    let peak := ps.foldl peakStep p0
    pure (byTrend ++ [.peakDay peak.dayOfWeek peak.date])

/-- One turn of the forecast loop of `generateForecast`, for day `i`. -/
def forecastPoint (slr : SLR) (lastIndex : JSNum) (seasonalityFactors : List (Nat × JSNum))
    (y : List JSNum) (now : Int) (i : Nat) : Except String ForecastPoint := do
  let forecastIndex := fadd lastIndex (fin i)
  let forecastValue := slr.predict forecastIndex
  let forecastDate := addDays now i
  let dayOfWeek := getDay forecastDate
  let adjusted ←
    match seasonalityFactors.lookup dayOfWeek with
    | some factor =>
      if factor.truthy then do
        let avgSales ← mean y
        pure (fmul forecastValue (fdiv factor avgSales))
      else pure forecastValue
    | none => pure forecastValue
  pure { date := calendarDay forecastDate
         forecastedQuantity := max (fin 0) (round adjusted)
         dayOfWeek := dayName dayOfWeek }

/-- The forecast loop over the days `is`. -/
def forecastLoop (slr : SLR) (lastIndex : JSNum) (seasonalityFactors : List (Nat × JSNum))
    (y : List JSNum) (now : Int) : List Nat → Except String (List ForecastPoint)
  | [] => .ok []
  | i :: is => do
    let p ← forecastPoint slr lastIndex seasonalityFactors y now i
    let ps ← forecastLoop slr lastIndex seasonalityFactors y now is
    pure (p :: ps)

/-- The value `x[x.length - 1]` as it enters `lastIndex + i`: a missing
element is `undefined`, which turns the sum into `NaN`. -/
def lastIndexOf (x : List JSNum) : JSNum := x.getLast?.getD nan

/-- The confidence score: `Math.min(0.95, trendAnalysis.r2 || 0.5)`. -/
def confidenceOf (r2 : Option JSNum) : JSNum :=
  min (ofRat (19 / 20)) (orDefault r2 (ofRat (1 / 2)))

/-- The method `generateForecast`, on the records `salesData` returned by
`getHistoricalData`, at the time `now`; `forecastDays` is `none` when the
caller leaves the parameter out.  An `error` is a thrown exception. -/
def generateForecast (cfg : Config) (salesData : List SalesRecord) (now : Int)
    (forecastDays : Option Int) : Except String ForecastResult :=
  let forecastDays := forecastDays.getD cfg.forecastDays
  if (salesData.length : Int) < cfg.minDataPoints then
    .ok (.insufficient salesData.length cfg.minDataPoints)
  else do
    let series := prepareTimeSeriesData salesData
    let x := series.x
    let y := series.y
    let trendAnalysis := calculateTrend x y
    let smoothedY := exponentialSmoothing y defaultAlpha
    let seasonalityFactors := detectSeasonality salesData
    let lastIndex := lastIndexOf x
    let slr ← SLR.create x smoothedY
    let predictions ← forecastLoop slr lastIndex seasonalityFactors y now
      ((List.range forecastDays.toNat).map (fun (j : Nat) => j + 1))
    let confidenceScore := confidenceOf trendAnalysis.r2
    let historicalAverage ← mean y
    let recommendations ← generateRecommendations predictions trendAnalysis historicalAverage
    pure (.success
      { trend := trendAnalysis.trend
        confidenceScore := confidenceScore
        historicalAverage := historicalAverage
        predictions := predictions
        recommendations := recommendations
        r2 := trendAnalysis.r2
        dataPoints := salesData.length })

end Binary64

/-! ## Definitions used to state the properties in binary64 arithmetic -/

namespace Binary64

/-- A list of natural numbers as a list of JavaScript numbers. -/
def ofNats (l : List ℕ) : List JSNum := l.map (fun (k : ℕ) => fin (k : ℚ))

/-- The index list `[0, 1, ..., n - 1]` of an aggregated series of `n` days. -/
def indices (n : Nat) : List JSNum := ofNats (List.range n)

/-- The exactly linear series `a + b * i` of whole numbers, for
`i = 0, ..., n - 1`. -/
def linearSeries (a b : ℕ) (n : Nat) : List JSNum :=
  ofNats ((List.range n).map (fun (i : Nat) => a + b * i))

/-- The condition under which every sum and product of `regress` on two lists
of whole numbers is a whole number below `2 ^ 53`, hence computed exactly. -/
def ExactSums (xs ys : List ℕ) : Prop :=
  xs.sum < 2 ^ 53 ∧ ys.sum < 2 ^ 53 ∧
  (xs.map (fun k => k * k)).sum < 2 ^ 53 ∧ (List.zipWith (· * ·) xs ys).sum < 2 ^ 53 ∧
  xs.length * (List.zipWith (· * ·) xs ys).sum < 2 ^ 53 ∧ xs.sum * ys.sum < 2 ^ 53 ∧
  xs.length * (xs.map (fun k => k * k)).sum < 2 ^ 53 ∧ xs.sum * xs.sum < 2 ^ 53

end Binary64

namespace Binary64

/-- A rational that is a binary64 number: rounding leaves it unchanged. -/
def IsBinary64 (q : ℚ) : Prop := ofRat q = fin q

instance (q : ℚ) : Decidable (IsBinary64 q) := by
  unfold IsBinary64
  infer_instance

instance (xs ys : List ℕ) : Decidable (ExactSums xs ys) := by
  unfold ExactSums
  infer_instance

/-- Thirty records on the five days from 1970-01-01, six a day, each selling
one unit more than the records of the day before: the aggregated series is
`6, 12, 18, 24, 30`, the linear series `a + b * i` with `a = 6` and `b = 6`. -/
def growingSales : List SalesRecord :=
  (List.range 30).map (fun (i : Nat) =>
    { date := ((i % 5 : Nat) : Int) * msPerDay + (i : Int), quantity := ((i % 5 + 1 : Nat) : ℚ) })

/-- The forecast computed in binary64 arithmetic from `growingSales` on
1970-01-06 for two days. -/
def growingForecast : Forecast :=
  { trend := .INCREASING
    confidenceScore := ofRat (19 / 20)
    historicalAverage := fin 18
    predictions :=
      [{ date := 6, forecastedQuantity := fin 22, dayOfWeek := "Wednesday" },
       { date := 7, forecastedQuantity := fin 1, dayOfWeek := "Thursday" }]
    recommendations := [.increaseStock, .peakDay "Wednesday" 6]
    r2 := some (fin 1)
    dataPoints := 30 }

/-- Thirty records on the five days from 1970-01-01, six a day: one unit is
sold on the third day and nothing else, so the aggregated series is
`0, 0, 1, 0, 0`. -/
def sparseSales : List SalesRecord :=
  (List.range 30).map (fun (i : Nat) =>
    { date := ((i % 5 : Nat) : Int) * msPerDay + (i : Int), quantity := if i = 2 then 1 else 0 })

/-- The forecast computed in binary64 arithmetic from `sparseSales` on
1970-01-06 for two days. -/
def sparseForecast : Forecast :=
  { trend := .STABLE
    confidenceScore := fin (1 / 2)
    historicalAverage := ofRat (1 / 5)
    predictions :=
      [{ date := 6, forecastedQuantity := fin 0, dayOfWeek := "Wednesday" },
       { date := 7, forecastedQuantity := fin 0, dayOfWeek := "Thursday" }]
    recommendations := [.maintainInventory, .peakDay "Wednesday" 6]
    r2 := some (fin 0)
    dataPoints := 30 }

/-- A configuration whose minimum is two records (`MIN_DATA_POINTS=2`). -/
def twoRecordConfig : Config := Config.ofEnv (some 2) none none

/-- Two daily records that sell 1000000000 and 1000000001 units: the linear
series `a + b * i` with `a = 1000000000` and `b = 1`. -/
def offsetSales : List SalesRecord :=
  [{ date := 0, quantity := 1000000000 }, { date := msPerDay, quantity := 1000000001 }]

/-- The forecast computed in binary64 arithmetic from `offsetSales` on
1970-01-03 for one day. -/
def offsetForecast : Forecast :=
  { trend := .INCREASING
    confidenceScore := fin (1 / 2)
    historicalAverage := fin (2000000001 / 2)
    predictions := [{ date := 3, forecastedQuantity := fin 1000000001, dayOfWeek := "Sunday" }]
    recommendations := [.increaseStock, .peakDay "Sunday" 3]
    r2 := some nan
    dataPoints := 2 }

end Binary64

namespace Binary64

/-- The binary64 number written `0.3`. -/
def threeTenths : ℚ := 5404319552844595 / 18014398509481984

end Binary64

/-! ## Arithmetic of `JSNum` -/

namespace JSNum

@[simp] theorem fin_add_fin (a b : ℚ) : fin a + fin b = fin (a + b) := rfl

@[simp] theorem fin_mul_fin (a b : ℚ) : fin a * fin b = fin (a * b) := rfl

@[simp] theorem fin_sub_fin (a b : ℚ) : fin a - fin b = fin (a - b) := by
  show fin (a + -b) = fin (a - b)
  rw [sub_eq_add_neg]

theorem fin_div_fin (a b : ℚ) (hb : b ≠ 0) : fin a / fin b = fin (a / b) := by
  show (if b = 0 then ofSign a else fin (a / b)) = fin (a / b)
  rw [if_neg hb]

@[simp] theorem zero_div_zero : fin 0 / fin 0 = nan := by
  show (if (0 : ℚ) = 0 then ofSign 0 else fin (0 / 0)) = nan
  simp [ofSign]

@[simp] theorem nan_add (a : JSNum) : nan + a = nan := by cases a <;> rfl

@[simp] theorem add_nan (a : JSNum) : a + nan = nan := by cases a <;> rfl

@[simp] theorem nan_mul (a : JSNum) : nan * a = nan := by cases a <;> rfl

@[simp] theorem mul_nan (a : JSNum) : a * nan = nan := by cases a <;> rfl

@[simp] theorem lt_fin_fin (a b : ℚ) : lt (fin a) (fin b) = decide (a < b) := rfl

@[simp] theorem gt_fin_fin (a b : ℚ) : gt (fin a) (fin b) = decide (b < a) := rfl

/-- The value of `r * r` is `NaN`, `+Infinity` or a non-negative number. -/
theorem sqDivSqrt_cases (n d : JSNum) :
    sqDivSqrt n d = nan ∨ sqDivSqrt n d = pinf ∨ ∃ q : ℚ, sqDivSqrt n d = fin q ∧ 0 ≤ q := by
  cases n <;> cases d <;> simp only [sqDivSqrt] <;> try simp
  · rename_i a b
    by_cases h1 : b < 0
    · simp [h1]
    · by_cases h2 : b = 0
      · by_cases h3 : a = 0 <;> simp [h2, h3]
      · simp only [h1, h2, if_false]
        right; right
        have hb : 0 < b := lt_of_le_of_ne (not_lt.mp h1) (Ne.symm h2)
        exact ⟨_, rfl, div_nonneg (mul_self_nonneg a) hb.le⟩
  · rename_i b
    by_cases h1 : b < 0
    · simp [h1]
    · simpa [h1] using not_lt.mp h1
  · rename_i b
    by_cases h1 : b < 0
    · simp [h1]
    · simpa [h1] using not_lt.mp h1

end JSNum

/-! ## The confidence score -/

/-- The confidence score computed from any `r * r` lies in `[0, 0.95]`. -/
theorem confidenceOf_range (r2 : Option JSNum)
    (h : r2 = none ∨ ∃ n d, r2 = some (sqDivSqrt n d)) :
    ∃ c : ℚ, confidenceOf r2 = fin c ∧ 0 ≤ c ∧ c ≤ 19 / 20 := by
  rcases h with h | ⟨n, d, h⟩
  · subst h
    refine ⟨1 / 2, ?_, by norm_num, by norm_num⟩
    simp [confidenceOf, orDefault, JSNum.min]
    norm_num
  · subst h
    rcases sqDivSqrt_cases n d with h | h | ⟨q, h, hq⟩
    · refine ⟨1 / 2, ?_, by norm_num, by norm_num⟩
      simp [confidenceOf, orDefault, h, truthy, JSNum.min]
      norm_num
    · refine ⟨19 / 20, ?_, by norm_num, le_refl _⟩
      simp [confidenceOf, orDefault, h, truthy, JSNum.min, JSNum.lt]
    · by_cases hq0 : q = 0
      · refine ⟨1 / 2, ?_, by norm_num, by norm_num⟩
        simp [confidenceOf, orDefault, h, truthy, hq0, JSNum.min]
        norm_num
      · by_cases hlt : q < 19 / 20
        · refine ⟨q, ?_, hq, hlt.le⟩
          simp [confidenceOf, orDefault, h, truthy, hq0, JSNum.min, hlt]
        · refine ⟨19 / 20, ?_, by norm_num, le_refl _⟩
          simp [confidenceOf, orDefault, h, truthy, hq0, JSNum.min, hlt]

/-! ## Unfolding `calculateTrend` and `generateForecast` -/

theorem calculateTrend_short (x y : List ℚ) (h : x.length < 2) :
    calculateTrend x y = stableTrend := by
  simp [calculateTrend, h]

theorem calculateTrend_fit (x y : List ℚ) (h2 : 2 ≤ x.length) (hl : x.length = y.length) :
    calculateTrend x y =
      { trend := classify (regress x y).slope
        slope := (regress x y).slope
        intercept := some (regress x y).intercept
        r2 := some ((regress x y).r2Value x y) } := by
  have h2' : ¬ x.length < 2 := by omega
  have hl' : ¬ x.length ≠ y.length := by simpa using hl
  unfold calculateTrend
  rw [if_neg h2']
  simp only [fitTrend, SLR.create, SLR.scoreR2, if_neg hl', bind, Except.bind, pure, Except.pure]

theorem calculateTrend_r2_cases (x y : List ℚ) :
    (calculateTrend x y).r2 = none ∨ ∃ n d, (calculateTrend x y).r2 = some (sqDivSqrt n d) := by
  by_cases h2 : x.length < 2
  · left; rw [calculateTrend_short x y h2]; rfl
  · by_cases hl : x.length = y.length
    · right
      rw [calculateTrend_fit x y (by omega) hl]
      exact ⟨_, _, rfl⟩
    · left
      simp [calculateTrend, h2, fitTrend, SLR.create, hl, bind, Except.bind, stableTrend]

theorem generateForecast_success_inv {cfg : Config} {salesData : List SalesRecord} {now : Int}
    {fd : Option Int} {f : Forecast}
    (h : generateForecast cfg salesData now fd = .ok (.success f)) :
    ¬ ((salesData.length : Int) < cfg.minDataPoints) ∧
    ∃ slr avg,
      SLR.create (prepareTimeSeriesData salesData).x
        (exponentialSmoothing (prepareTimeSeriesData salesData).y defaultAlpha) = .ok slr ∧
      forecastLoop slr (lastIndexOf (prepareTimeSeriesData salesData).x)
        (detectSeasonality salesData) (prepareTimeSeriesData salesData).y now
        ((List.range (fd.getD cfg.forecastDays).toNat).map (fun (j : Nat) => j + 1)) = .ok f.predictions ∧
      mean ((prepareTimeSeriesData salesData).y.map fin) = .ok avg ∧
      generateRecommendations f.predictions
        (calculateTrend (prepareTimeSeriesData salesData).x (prepareTimeSeriesData salesData).y) avg
        = .ok f.recommendations ∧
      f.trend = (calculateTrend (prepareTimeSeriesData salesData).x (prepareTimeSeriesData salesData).y).trend ∧
      f.r2 = (calculateTrend (prepareTimeSeriesData salesData).x (prepareTimeSeriesData salesData).y).r2 ∧
      f.confidenceScore = confidenceOf
        (calculateTrend (prepareTimeSeriesData salesData).x (prepareTimeSeriesData salesData).y).r2 ∧
      f.historicalAverage = avg ∧ f.dataPoints = salesData.length := by
  unfold generateForecast at h
  by_cases hlt : (salesData.length : Int) < cfg.minDataPoints
  · simp [hlt] at h
  · refine ⟨hlt, ?_⟩
    simp only [hlt, if_false] at h
    cases hs : SLR.create (prepareTimeSeriesData salesData).x
        (exponentialSmoothing (prepareTimeSeriesData salesData).y defaultAlpha) with
    | error e => simp [hs, bind, Except.bind] at h
    | ok slr =>
      cases hp : forecastLoop slr (lastIndexOf (prepareTimeSeriesData salesData).x)
        (detectSeasonality salesData) (prepareTimeSeriesData salesData).y now
        ((List.range (fd.getD cfg.forecastDays).toNat).map (fun (j : Nat) => j + 1)) with
      | error e => simp [hs, hp, bind, Except.bind] at h
      | ok preds =>
        cases hm : mean ((prepareTimeSeriesData salesData).y.map fin) with
        | error e => simp [hs, hp, hm, bind, Except.bind] at h
        | ok avg =>
          cases hr : generateRecommendations preds
            (calculateTrend (prepareTimeSeriesData salesData).x (prepareTimeSeriesData salesData).y) avg with
          | error e => simp [hs, hp, hm, hr, bind, Except.bind] at h
          | ok recs =>
            simp only [hs, hp, hm, hr, bind, Except.bind, pure, Except.pure, Except.ok.injEq,
              ForecastResult.success.injEq] at h
            subst h
            exact ⟨slr, avg, rfl, hp, rfl, hr, rfl, rfl, rfl, rfl, rfl⟩

/-! ## Exponential smoothing -/

theorem smoothFrom_length (alpha prev : ℚ) (ds : List ℚ) :
    (smoothFrom alpha prev ds).length = ds.length := by
  induction ds generalizing prev with
  | nil => rfl
  | cons d ds ih => simp [smoothFrom, ih]

theorem smoothFrom_step (alpha : ℚ) (ds : List ℚ) (prev : ℚ) (i : Nat) (hi : i < ds.length) :
    (prev :: smoothFrom alpha prev ds).getD (i + 1) 0 =
      alpha * ds.getD i 0 + (1 - alpha) * (prev :: smoothFrom alpha prev ds).getD i 0 := by
  induction ds generalizing prev i with
  | nil => simp at hi
  | cons d ds ih =>
    cases i with
    | zero => simp [smoothFrom]
    | succ j =>
      have hj : j < ds.length := by simpa using hi
      have := ih (alpha * d + (1 - alpha) * prev) j hj
      simpa [smoothFrom] using this

theorem smoothFrom_replicate (alpha v : ℚ) (n : Nat) :
    smoothFrom alpha v (List.replicate n v) = List.replicate n v := by
  induction n with
  | zero => rfl
  | succ n ih =>
    have hv : alpha * v + (1 - alpha) * v = v := by ring
    simp [List.replicate_succ, smoothFrom, hv, ih]

/-- Claim C9: `exponentialSmoothing` returns a list as long as its input,
whose first element is the first value and whose element `i ≥ 1` is
`alpha * values[i] + (1 - alpha) * smoothed[i - 1]`; on the empty list it
returns the empty list. -/
theorem exponentialSmoothing_recurrence (data : List ℚ) (alpha : ℚ) :
    (exponentialSmoothing data alpha).length = data.length ∧
    (exponentialSmoothing data alpha)[0]? = data[0]? ∧
    (∀ i, 1 ≤ i → i < data.length →
      (exponentialSmoothing data alpha).getD i 0 =
        alpha * data.getD i 0 + (1 - alpha) * (exponentialSmoothing data alpha).getD (i - 1) 0) ∧
    exponentialSmoothing [] alpha = [] := by
  refine ⟨?_, ?_, ?_, rfl⟩
  · cases data with
    | nil => rfl
    | cons d ds => simp [exponentialSmoothing, smoothFrom_length]
  · cases data with
    | nil => rfl
    | cons d ds => simp [exponentialSmoothing]
  · intro i h1 hi
    cases data with
    | nil => simp at hi
    | cons d ds =>
      obtain ⟨j, rfl⟩ : ∃ j, i = j + 1 := ⟨i - 1, by omega⟩
      have hj : j < ds.length := by simpa using hi
      have := smoothFrom_step alpha ds d j hj
      simpa [exponentialSmoothing] using this

theorem exponentialSmoothing_recurrence_witness :
    (exponentialSmoothing [4, 8, 6] (1 / 2)).getD 1 0 =
      1 / 2 * ([4, 8, 6] : List ℚ).getD 1 0 +
        (1 - 1 / 2) * (exponentialSmoothing [4, 8, 6] (1 / 2)).getD (1 - 1) 0 :=
  (exponentialSmoothing_recurrence [4, 8, 6] (1 / 2)).2.2.1 1 (by decide) (by decide)

/-! ## Claims on `generateForecast` and `calculateTrend` -/

/-- Evaluation for claim C1: thirty records that all fall on one calendar day
pass the `minDataPoints` gate, the aggregated series has a single point, the
projection fit divides zero by zero, and every `forecastedQuantity` is `NaN`,
which is not a non-negative integer. -/
theorem generateForecast_single_day_nan :
    forecastQuantities (generateForecast defaultConfig singleDaySales 0 (some 2)) = some [nan, nan] ∧
    ¬ IsNonNegInteger nan := by
  refine ⟨by decide!, fun h => h⟩

/-- Claim C2: whenever `generateForecast` returns `success: true`, the
confidence score is a number `c` with `0 ≤ c ≤ 0.95`, and a perfect fit
(`r2 = 1`) gives exactly `0.95`. -/
theorem confidenceScore_bounds (cfg : Config) (salesData : List SalesRecord) (now : Int)
    (forecastDays : Option Int) (f : Forecast)
    (h : generateForecast cfg salesData now forecastDays = .ok (.success f)) :
    (∃ c : ℚ, f.confidenceScore = fin c ∧ 0 ≤ c ∧ c ≤ 19 / 20) ∧
    (f.r2 = some (fin 1) → f.confidenceScore = fin (19 / 20)) := by
  obtain ⟨-, slr, avg, -, -, -, -, -, hr2, hc, -, -⟩ := generateForecast_success_inv h
  constructor
  · rw [hc]
    exact confidenceOf_range _ (calculateTrend_r2_cases _ _)
  · intro h1
    rw [hc, ← hr2, h1]
    simp [confidenceOf, orDefault, truthy, JSNum.min]
    norm_num

theorem confidenceScore_bounds_witness :
    (∃ c : ℚ, risingForecast.confidenceScore = fin c ∧ 0 ≤ c ∧ c ≤ 19 / 20) ∧
    (risingForecast.r2 = some (fin 1) → risingForecast.confidenceScore = fin (19 / 20)) :=
  confidenceScore_bounds defaultConfig risingSales (40 * msPerDay) (some 3) risingForecast
    (by decide!)

/-- Claim C3: on a record set with fewer than `minDataPoints` records (the
empty set included) `generateForecast` returns, without throwing, the failure
result whose `dataPoints` is the number of records and whose `required` is
the configured minimum. -/
theorem generateForecast_insufficient (cfg : Config) (salesData : List SalesRecord) (now : Int)
    (forecastDays : Option Int) (h : (salesData.length : Int) < cfg.minDataPoints) :
    generateForecast cfg salesData now forecastDays =
      .ok (.insufficient salesData.length cfg.minDataPoints) ∧
    (ForecastResult.insufficient salesData.length cfg.minDataPoints).isSuccess = false := by
  simp [generateForecast, h, ForecastResult.isSuccess]

theorem generateForecast_insufficient_witness :
    generateForecast defaultConfig [] 0 none = .ok (.insufficient 0 30) ∧
    (ForecastResult.insufficient 0 30).isSuccess = false :=
  generateForecast_insufficient defaultConfig [] 0 none (by decide)

/-- Claim C7: on a series with fewer than two points `calculateTrend` returns
the trend `STABLE` with slope `0` (and neither intercept nor `r2`); the model
is a total function, so no error is raised. -/
theorem calculateTrend_degenerate (x y : List ℚ) (h : x.length < 2) :
    calculateTrend x y = { trend := .STABLE, slope := fin 0, intercept := none, r2 := none } := by
  rw [calculateTrend_short x y h]; rfl

theorem calculateTrend_degenerate_witness :
    calculateTrend [0] [7] = { trend := .STABLE, slope := fin 0, intercept := none, r2 := none } :=
  calculateTrend_degenerate [0] [7] (by decide)


/-! ## The peak day -/

theorem JSNum.lt_chain {a b c : JSNum} (h1 : lt a b = true) (h2 : lt b c = true) :
    lt a c = true := by
  cases a <;> cases b <;> cases c <;> simp [lt] at h1 h2 ⊢
  exact lt_trans h1 h2

theorem JSNum.lt_of_not_lt_chain {a b c : JSNum} (ha : a ≠ nan) (h1 : lt b a = false)
    (h2 : lt b c = true) : lt a c = true := by
  cases a <;> cases b <;> cases c <;> simp [lt] at h1 h2 ha ⊢
  exact lt_of_le_of_lt h1 h2

/-- The `reduce` keeps the earliest point that no other point exceeds. -/
theorem foldl_peakStep_split (rest : List ForecastPoint) (before after : List ForecastPoint)
    (m : ForecastPoint)
    (hrest : ∀ p ∈ rest, p.forecastedQuantity ≠ nan)
    (hnum : ∀ p ∈ after, p.forecastedQuantity ≠ nan)
    (hm : m.forecastedQuantity ≠ nan)
    (hb : ∀ p ∈ before, lt p.forecastedQuantity m.forecastedQuantity = true)
    (ha : ∀ p ∈ after, lt m.forecastedQuantity p.forecastedQuantity = false) :
    ∃ before2 after2,
      before ++ m :: after ++ rest = before2 ++ rest.foldl peakStep m :: after2 ∧
      (∀ p ∈ before2, lt p.forecastedQuantity (rest.foldl peakStep m).forecastedQuantity = true) ∧
      (∀ p ∈ after2, lt (rest.foldl peakStep m).forecastedQuantity p.forecastedQuantity = false) := by
  induction rest generalizing before after m with
  | nil => exact ⟨before, after, by simp, hb, ha⟩
  | cons p rest ih =>
    rw [List.foldl_cons]
    by_cases hgt : gt p.forecastedQuantity m.forecastedQuantity = true
    · have hstep : peakStep m p = p := by simp [peakStep, hgt]
      have hlt : lt m.forecastedQuantity p.forecastedQuantity = true := hgt
      rw [hstep]
      have hp : p.forecastedQuantity ≠ nan := hrest p (List.mem_cons_self _ _)
      obtain ⟨b2, a2, heq, h1, h2⟩ := ih (before ++ m :: after) [] p
        (fun q hq => hrest q (List.mem_cons_of_mem _ hq)) (by simp) hp
        (by
          intro q hq
          rcases List.mem_append.mp hq with hq | hq
          · exact lt_chain (hb q hq) hlt
          · rcases List.mem_cons.mp hq with hq | hq
            · subst hq; exact hlt
            · exact lt_of_not_lt_chain (hnum q hq) (ha q hq) hlt)
        (by simp)
      exact ⟨b2, a2, by simpa using heq, h1, h2⟩
    · have hstep : peakStep m p = m := by simp [peakStep, hgt]
      have hlt : lt m.forecastedQuantity p.forecastedQuantity = false := by
        simpa [gt] using hgt
      rw [hstep]
      obtain ⟨b2, a2, heq, h1, h2⟩ := ih before (after ++ [p]) m
        (fun q hq => hrest q (List.mem_cons_of_mem _ hq))
        (by
          intro q hq
          rcases List.mem_append.mp hq with hq | hq
          · exact hnum q hq
          · rw [List.mem_singleton.mp hq]; exact hrest p (List.mem_cons_self _ _))
        hm hb
        (by
          intro q hq
          rcases List.mem_append.mp hq with hq | hq
          · exact ha q hq
          · rw [List.mem_singleton.mp hq]; exact hlt)
      exact ⟨b2, a2, by simpa using heq, h1, h2⟩

theorem mean_ok_of_ne_nil (l : List JSNum) (h : l ≠ []) :
    mean l = .ok (sum l / fin l.length) := by
  have : l.length ≠ 0 := by simpa using h
  simp [mean, this]

/-- Claim C5: on a non-empty list of forecast points (whose quantities are
numbers) `generateRecommendations` returns a list whose only peak-day entry
is its last element, and that entry names the day of week and date of the
earliest point of maximal quantity: every earlier point is strictly smaller
and no later point is greater. -/
theorem generateRecommendations_peakDay (predictions : List ForecastPoint)
    (trendAnalysis : TrendAnalysis) (historicalAverage : JSNum)
    (hne : predictions ≠ [])
    (hnum : ∀ p ∈ predictions, p.forecastedQuantity ≠ nan) :
    ∃ recs before peak after,
      generateRecommendations predictions trendAnalysis historicalAverage = .ok recs ∧
      predictions = before ++ peak :: after ∧
      recs.filter Recommendation.isPeakDay = [.peakDay peak.dayOfWeek peak.date] ∧
      recs.getLast? = some (.peakDay peak.dayOfWeek peak.date) ∧
      (∀ p ∈ before, lt p.forecastedQuantity peak.forecastedQuantity = true) ∧
      (∀ p ∈ after, lt peak.forecastedQuantity p.forecastedQuantity = false) := by
  cases predictions with
  | nil => exact absurd rfl hne
  | cons p0 ps =>
    obtain ⟨before, after, heq, hb, ha⟩ := foldl_peakStep_split ps [] [] p0
      (fun q hq => hnum q (List.mem_cons_of_mem _ hq)) (by simp)
      (hnum p0 (List.mem_cons_self _ _)) (by simp) (by simp)
    refine ⟨trendRecommendations trendAnalysis.trend
        (sum ((p0 :: ps).map (fun p => p.forecastedQuantity)) /
          fin ((p0 :: ps).map (fun p => p.forecastedQuantity)).length) historicalAverage ++
        [.peakDay (ps.foldl peakStep p0).dayOfWeek (ps.foldl peakStep p0).date],
      before, ps.foldl peakStep p0, after, ?_, by simpa using heq, ?_, ?_, hb, ha⟩
    · simp only [generateRecommendations]
      rw [mean_ok_of_ne_nil _ (by simp)]
      rfl
    · rw [List.filter_append]
      have : ∀ l : List Recommendation, (∀ r ∈ l, r.isPeakDay = false) →
          l.filter Recommendation.isPeakDay = [] := by
        intro l hl
        simpa [List.filter_eq_nil_iff] using hl
      rw [this]
      · simp [Recommendation.isPeakDay]
      · intro r hr
        unfold trendRecommendations at hr
        split_ifs at hr <;> simp at hr <;> rcases hr with rfl | rfl <;> rfl
    · simp

theorem generateRecommendations_peakDay_witness :
    ∃ recs before peak after,
      generateRecommendations risingForecast.predictions stableTrend (fin 40) = .ok recs ∧
      risingForecast.predictions = before ++ peak :: after ∧
      recs.filter Recommendation.isPeakDay = [.peakDay peak.dayOfWeek peak.date] ∧
      recs.getLast? = some (.peakDay peak.dayOfWeek peak.date) ∧
      (∀ p ∈ before, lt p.forecastedQuantity peak.forecastedQuantity = true) ∧
      (∀ p ∈ after, lt peak.forecastedQuantity p.forecastedQuantity = false) :=
  generateRecommendations_peakDay risingForecast.predictions stableTrend (fin 40)
    (by decide) (by decide)


/-! ## Least squares -/

theorem sum_dev_mul (c d : ℚ) (x y : List ℚ) (hlen : x.length = y.length) :
    (List.zipWith (fun a b => (a - c) * (b - d)) x y).sum =
      (List.zipWith (· * ·) x y).sum - c * y.sum - d * x.sum + x.length * c * d := by
  induction x generalizing y with
  | nil =>
    have hy : y = [] := List.length_eq_zero.mp hlen.symm
    simp [hy]
  | cons a x ih =>
    cases y with
    | nil => simp at hlen
    | cons b y =>
      have hl : x.length = y.length := by simpa using hlen
      simp only [List.zipWith_cons_cons, List.sum_cons, List.length_cons, ih y hl]
      push_cast
      ring

theorem sum_dev_sq (c : ℚ) (x : List ℚ) :
    (x.map (fun a => (a - c) * (a - c))).sum =
      (x.map (fun a => a * a)).sum - 2 * c * x.sum + x.length * c * c := by
  induction x with
  | nil => simp
  | cons a x ih =>
    simp only [List.map_cons, List.sum_cons, List.length_cons, ih]
    push_cast
    ring

theorem sum_eq_zero_of_nonneg (l : List ℚ) (hl : ∀ a ∈ l, 0 ≤ a) (hs : l.sum = 0) :
    ∀ a ∈ l, a = 0 := by
  induction l with
  | nil => simp
  | cons b l ih =>
    have hb : 0 ≤ b := hl b (List.mem_cons_self _ _)
    have hrest : ∀ a ∈ l, 0 ≤ a := fun a ha => hl a (List.mem_cons_of_mem _ ha)
    have hsum : 0 ≤ l.sum := List.sum_nonneg hrest
    rw [List.sum_cons] at hs
    have hb0 : b = 0 := by linarith
    have hl0 : l.sum = 0 := by linarith
    intro a ha
    rcases List.mem_cons.mp ha with rfl | ha
    · exact hb0
    · exact ih hrest hl0 a ha

/-- A list with two different entries has a positive sum of squared
deviations from its mean. -/
theorem sum_dev_sq_pos (x : List ℚ) (hx : ∃ a ∈ x, ∃ b ∈ x, a ≠ b) :
    0 < (x.map (fun a => (a - average x) * (a - average x))).sum := by
  have hnn : ∀ v ∈ x.map (fun a => (a - average x) * (a - average x)), 0 ≤ v := by
    intro v hv
    obtain ⟨a, -, rfl⟩ := List.mem_map.mp hv
    exact mul_self_nonneg _
  rcases (List.sum_nonneg hnn).lt_or_eq with h | h
  · exact h
  · exfalso
    obtain ⟨a, ha, b, hb, hab⟩ := hx
    have hz := sum_eq_zero_of_nonneg _ hnn h.symm
    have h1 := hz _ (List.mem_map.mpr ⟨a, ha, rfl⟩)
    have h2 := hz _ (List.mem_map.mpr ⟨b, hb, rfl⟩)
    have h1' : a - average x = 0 := mul_self_eq_zero.mp h1
    have h2' : b - average x = 0 := mul_self_eq_zero.mp h2
    exact hab (by linarith)

/-- The denominator of `regress` is the length times the sum of squared
deviations. -/
theorem regress_denominator (x : List ℚ) (hn : x.length ≠ 0) :
    (x.length : ℚ) * (x.map (fun a => a * a)).sum - x.sum * x.sum =
      x.length * (x.map (fun a => (a - average x) * (a - average x))).sum := by
  have hn' : (x.length : ℚ) ≠ 0 := by exact_mod_cast hn
  rw [sum_dev_sq, average]
  field_simp
  ring

/-- The numerator of `regress` is the length times the sum of the products of
deviations. -/
theorem regress_numerator (x y : List ℚ) (hlen : x.length = y.length) (hn : x.length ≠ 0) :
    (x.length : ℚ) * (List.zipWith (· * ·) x y).sum - x.sum * y.sum =
      x.length * (List.zipWith (fun a b => (a - average x) * (b - average y)) x y).sum := by
  have hn' : (x.length : ℚ) ≠ 0 := by exact_mod_cast hn
  have hy : (y.length : ℚ) = x.length := by rw [hlen]
  rw [sum_dev_mul _ _ x y hlen, average, average, hy]
  field_simp
  ring

theorem regress_slope (x y : List ℚ) (hlen : x.length = y.length)
    (hx : ∃ a ∈ x, ∃ b ∈ x, a ≠ b) :
    (regress x y).slope = fin (olsSlope x y) := by
  have hn : x.length ≠ 0 := by
    obtain ⟨a, ha, -⟩ := hx
    intro h
    rw [List.length_eq_zero] at h
    simp [h] at ha
  have hn' : (x.length : ℚ) ≠ 0 := by exact_mod_cast hn
  have hpos := sum_dev_sq_pos x hx
  have hd : (x.length : ℚ) * (x.map (fun a => a * a)).sum - x.sum * x.sum ≠ 0 := by
    rw [regress_denominator x hn]
    exact mul_ne_zero hn' hpos.ne'
  show fin _ / fin _ = _
  rw [fin_div_fin _ _ hd, regress_numerator x y hlen hn, regress_denominator x hn, olsSlope,
    mul_div_mul_left _ _ hn']

theorem classify_fin (s : ℚ) :
    (classify (fin s) = .INCREASING ↔ 1 / 10 < s) ∧
    (classify (fin s) = .DECREASING ↔ s < -(1 / 10)) ∧
    (classify (fin s) = .STABLE ↔ -(1 / 10) ≤ s ∧ s ≤ 1 / 10) := by
  simp only [classify, gt, lt, decide_eq_true_eq]
  split_ifs with h1 h2
  · exact ⟨iff_of_true rfl h1, iff_of_false (by decide) (by linarith),
      iff_of_false (by decide) (fun h => by linarith [h.2])⟩
  · exact ⟨iff_of_false (by decide) h1, iff_of_true rfl h2,
      iff_of_false (by decide) (fun h => by linarith [h.1])⟩
  · exact ⟨iff_of_false (by decide) h1, iff_of_false (by decide) h2,
      iff_of_true rfl ⟨not_lt.mp h2, not_lt.mp h1⟩⟩

/-- Claim C6: for index and value lists of equal length with at least two
points, the indices not all equal (so that the fit is determined),
`calculateTrend` returns the ordinary-least-squares slope of the values
against the indices, and labels it `INCREASING` iff the slope exceeds `0.1`,
`DECREASING` iff it is below `-0.1`, and `STABLE` otherwise (so a slope of
exactly `0.1` or `-0.1` is `STABLE`). -/
theorem calculateTrend_least_squares (x y : List ℚ) (hlen : x.length = y.length)
    (h2 : 2 ≤ x.length) (hx : ∃ a ∈ x, ∃ b ∈ x, a ≠ b) :
    (calculateTrend x y).slope = fin (olsSlope x y) ∧
    ((calculateTrend x y).trend = .INCREASING ↔ 1 / 10 < olsSlope x y) ∧
    ((calculateTrend x y).trend = .DECREASING ↔ olsSlope x y < -(1 / 10)) ∧
    ((calculateTrend x y).trend = .STABLE ↔
      -(1 / 10) ≤ olsSlope x y ∧ olsSlope x y ≤ 1 / 10) := by
  have hs := regress_slope x y hlen hx
  rw [calculateTrend_fit x y h2 hlen]
  show (regress x y).slope = _ ∧ (classify (regress x y).slope = _ ↔ _) ∧
    (classify (regress x y).slope = _ ↔ _) ∧ (classify (regress x y).slope = _ ↔ _)
  rw [hs]
  exact ⟨rfl, classify_fin _⟩

theorem calculateTrend_least_squares_witness :
    (calculateTrend [0, 1, 2] [1, 3, 2]).slope = fin (olsSlope [0, 1, 2] [1, 3, 2]) ∧
    ((calculateTrend [0, 1, 2] [1, 3, 2]).trend = .INCREASING ↔
      1 / 10 < olsSlope [0, 1, 2] [1, 3, 2]) ∧
    ((calculateTrend [0, 1, 2] [1, 3, 2]).trend = .DECREASING ↔
      olsSlope [0, 1, 2] [1, 3, 2] < -(1 / 10)) ∧
    ((calculateTrend [0, 1, 2] [1, 3, 2]).trend = .STABLE ↔
      -(1 / 10) ≤ olsSlope [0, 1, 2] [1, 3, 2] ∧ olsSlope [0, 1, 2] [1, 3, 2] ≤ 1 / 10) :=
  calculateTrend_least_squares [0, 1, 2] [1, 3, 2] (by decide) (by decide)
    ⟨0, by decide, 1, by decide, by decide⟩


/-! ## An exactly linear series -/

theorem foldl_add_fin (l : List ℚ) (c : ℚ) :
    (l.map fin).foldl (· + ·) (fin c) = fin (c + l.sum) := by
  induction l generalizing c with
  | nil => simp
  | cons a l ih => simp [List.foldl_cons, ih, add_assoc]

theorem loopSum_fin (l : List ℚ) : loopSum (l.map fin) = fin l.sum := by
  simp [loopSum, foldl_add_fin]

theorem sum_affine (a b : ℚ) (x : List ℚ) :
    (x.map (fun t => a + b * t)).sum = x.length * a + b * x.sum := by
  induction x with
  | nil => simp
  | cons t x ih => simp only [List.map_cons, List.sum_cons, List.length_cons, ih]; push_cast; ring

theorem sum_mul_affine (a b : ℚ) (x : List ℚ) :
    (List.zipWith (· * ·) x (x.map (fun t => a + b * t))).sum =
      a * x.sum + b * (x.map (fun t => t * t)).sum := by
  induction x with
  | nil => simp
  | cons t x ih =>
    simp only [List.map_cons, List.zipWith_cons_cons, List.sum_cons, ih]; ring

theorem sum_sq_affine (a b : ℚ) (x : List ℚ) :
    ((x.map (fun t => a + b * t)).map (fun v => v * v)).sum =
      x.length * a * a + 2 * a * b * x.sum + b * b * (x.map (fun t => t * t)).sum := by
  induction x with
  | nil => simp
  | cons t x ih =>
    simp only [List.map_cons, List.sum_cons, List.length_cons, ih]; push_cast; ring

theorem zipWith_mul_self (l : List JSNum) :
    List.zipWith (· * ·) l l = l.map (fun v => v * v) := by
  induction l with
  | nil => rfl
  | cons a l ih => simp [ih]

/-- The fit of an exactly linear series over indices that are not all equal:
the slope and the intercept are those of the series and `r * r` is `1`. -/
theorem regress_affine (a b : ℚ) (x : List ℚ) (hb : b ≠ 0) (hx : ∃ u ∈ x, ∃ v ∈ x, u ≠ v) :
    (regress x (x.map (fun t => a + b * t))).slope = fin b ∧
    (regress x (x.map (fun t => a + b * t))).intercept = fin a ∧
    (regress x (x.map (fun t => a + b * t))).r2Value x (x.map (fun t => a + b * t)) = fin 1 := by
  have hn : x.length ≠ 0 := by
    obtain ⟨u, hu, -⟩ := hx
    intro h
    rw [List.length_eq_zero] at h
    simp [h] at hu
  have hn' : (x.length : ℚ) ≠ 0 := by exact_mod_cast hn
  have hpos := sum_dev_sq_pos x hx
  have hD : 0 < (x.length : ℚ) * (x.map (fun t => t * t)).sum - x.sum * x.sum := by
    rw [regress_denominator x hn]
    exact mul_pos (by positivity) hpos
  have hslope : (regress x (x.map (fun t => a + b * t))).slope = fin b := by
    show fin _ / fin _ = _
    rw [fin_div_fin _ _ hD.ne', sum_mul_affine, sum_affine]
    congr 1
    field_simp
    ring
  have hint : (regress x (x.map (fun t => a + b * t))).intercept = fin a := by
    show (fin 1 / fin _) * fin _ - (regress x (x.map (fun t => a + b * t))).slope * (fin 1 / fin _) * fin _ = _
    rw [hslope, fin_div_fin _ _ hn', sum_affine]
    simp only [fin_mul_fin, fin_sub_fin]
    congr 1
    field_simp
  refine ⟨hslope, hint, ?_⟩
  have hy2 : x.map (fun xi => (regress x (x.map (fun t => a + b * t))).predict (fin xi)) =
      (x.map (fun t => a + b * t)).map fin := by
    rw [List.map_map]
    apply List.map_congr_left
    intro t _
    simp only [SLR.predict, hslope, hint, fin_mul_fin, fin_add_fin, Function.comp]
    congr 1
    ring
  have hsq : ∀ l : List ℚ, (l.map fin).map (fun v => v * v) = (l.map (fun v => v * v)).map fin := by
    intro l
    simp [List.map_map, Function.comp]
  have hW : 0 < (x.length : ℚ) * ((x.map (fun t => a + b * t)).map (fun v => v * v)).sum -
      (x.map (fun t => a + b * t)).sum * (x.map (fun t => a + b * t)).sum := by
    rw [sum_sq_affine, sum_affine]
    have : (x.length : ℚ) * (x.length * a * a + 2 * a * b * x.sum +
        b * b * (x.map (fun t => t * t)).sum) - (x.length * a + b * x.sum) * (x.length * a + b * x.sum)
        = b * b * ((x.length : ℚ) * (x.map (fun t => t * t)).sum - x.sum * x.sum) := by ring
    rw [this]
    exact mul_pos (mul_self_pos.mpr hb) hD
  unfold SLR.r2Value
  simp only [hy2, zipWith_mul_self, hsq, loopSum_fin, fin_mul_fin, fin_sub_fin]
  have hWW := mul_pos hW hW
  simp only [sqDivSqrt, if_neg (not_lt.mpr hWW.le), if_neg hWW.ne']
  congr 1
  exact div_self hWW.ne'

theorem indices_length (n : Nat) : (indices n).length = n := by simp [indices]

theorem indices_distinct (n : Nat) (hn : 2 ≤ n) : ∃ u ∈ indices n, ∃ v ∈ indices n, u ≠ v := by
  refine ⟨0, ?_, 1, ?_, by norm_num⟩
  · exact List.mem_map.mpr ⟨0, List.mem_range.mpr (show 0 < n by omega), by simp⟩
  · exact List.mem_map.mpr ⟨1, List.mem_range.mpr (show 1 < n by omega), by simp⟩

theorem prepareTimeSeriesData_x (salesData : List SalesRecord) :
    (prepareTimeSeriesData salesData).x = indices (prepareTimeSeriesData salesData).y.length := by
  unfold prepareTimeSeriesData
  split_ifs <;> simp [indices]

/-! ## The forecast loop -/

theorem foldl_sumStep_fin (l : List ℚ) (s : ℚ) :
    (l.map fin).foldl sumStep (fin s, fin 0) = (fin (s + l.sum), fin 0) := by
  induction l generalizing s with
  | nil => simp
  | cons a l ih =>
    have hstep : sumStep (fin s, fin 0) (fin a) = (fin (s + a), fin 0) := by
      unfold sumStep
      split_ifs <;> simp
    rw [List.map_cons, List.foldl_cons, hstep, ih, List.sum_cons, add_assoc]

theorem sum_fin (l : List ℚ) : sum (l.map fin) = fin l.sum := by
  cases l with
  | nil => rfl
  | cons a l => simp [sum, foldl_sumStep_fin]

theorem mean_fin (l : List ℚ) (h : l ≠ []) : mean (l.map fin) = .ok (fin (average l)) := by
  have hlen : (l.length : ℚ) ≠ 0 := by
    have : l.length ≠ 0 := by simpa using h
    exact_mod_cast this
  rw [mean_ok_of_ne_nil _ (by simpa using h), sum_fin, List.length_map, fin_div_fin _ _ hlen]
  rfl

theorem mean_fin_nil_error : mean (([] : List ℚ).map fin) = .error "mean requires at least one data point" :=
  rfl

theorem forecastPoint_ok (slr : SLR) (lastIndex : JSNum) (sf : List (Nat × JSNum))
    (y : List ℚ) (now : Int) (i : Nat) (avg : JSNum) (hm : mean (y.map fin) = .ok avg) :
    forecastPoint slr lastIndex sf y now i = .ok
      { date := calendarDay (addDays now i)
        forecastedQuantity := max (fin 0) (JSNum.round (adjustedProjection slr lastIndex sf avg now i))
        dayOfWeek := dayName (getDay (addDays now i)) } := by
  simp only [forecastPoint, adjustedProjection]
  cases hl : sf.lookup (getDay (addDays now i)) with
  | none => simp only [bind, Except.bind, pure, Except.pure]
  | some factor =>
    by_cases ht : factor.truthy = true
    · simp only [ht, if_true, hm, bind, Except.bind, pure, Except.pure]
    · simp only [ht, bind, Except.bind, pure, Except.pure]
      rfl

theorem forecastLoop_ok (slr : SLR) (lastIndex : JSNum) (sf : List (Nat × JSNum))
    (y : List ℚ) (now : Int) (avg : JSNum) (hm : mean (y.map fin) = .ok avg) (is : List Nat) :
    forecastLoop slr lastIndex sf y now is = .ok (is.map (fun (i : Nat) =>
      { date := calendarDay (addDays now i)
        forecastedQuantity := max (fin 0) (JSNum.round (adjustedProjection slr lastIndex sf avg now i))
        dayOfWeek := dayName (getDay (addDays now i)) })) := by
  induction is with
  | nil => rfl
  | cons i is ih =>
    simp only [forecastLoop, forecastPoint_ok slr lastIndex sf y now i avg hm, ih, bind,
      Except.bind, pure, Except.pure, List.map_cons]


/-- Amended claim C4: in every successful forecast there is one prediction per
day `i = 1, ..., horizonDays`, and the `i`-th `forecastedQuantity` is
`max(0, round(p_i * f_i))`, where `p_i` is the value at `lastIndex + i` of the
line fitted to the indices and the exponentially smoothed aggregated values,
and `f_i = seasonality[d] / mean(raw aggregated values)` when the mapping holds
a non-zero entry for the day of week `d` of the forecast date; when it holds
no entry, or an entry equal to `0`, the projection is left as it is. -/
theorem forecastedQuantity_formula (cfg : Config) (salesData : List SalesRecord) (now : Int)
    (forecastDays : Option Int) (f : Forecast)
    (h : generateForecast cfg salesData now forecastDays = .ok (.success f)) :
    f.predictions.length = (forecastDays.getD cfg.forecastDays).toNat ∧
    ∀ i : Nat, 1 ≤ i → i ≤ (forecastDays.getD cfg.forecastDays).toNat →
      (f.predictions.map (fun p => p.forecastedQuantity))[i - 1]? =
        some (max (fin 0) (JSNum.round
          (adjustedProjection
            (regress (prepareTimeSeriesData salesData).x
              (exponentialSmoothing (prepareTimeSeriesData salesData).y defaultAlpha))
            (lastIndexOf (prepareTimeSeriesData salesData).x)
            (detectSeasonality salesData)
            (fin (average (prepareTimeSeriesData salesData).y)) now i))) := by
  obtain ⟨-, slr, avg, hs, hp, hm, -, -, -, -, -, -⟩ := generateForecast_success_inv h
  have hy : (prepareTimeSeriesData salesData).y ≠ [] := by
    intro hnil
    rw [hnil] at hm
    simp [mean] at hm
  have havg : avg = fin (average (prepareTimeSeriesData salesData).y) := by
    rw [mean_fin _ hy] at hm
    exact (Except.ok.inj hm).symm
  have hslr : slr = regress (prepareTimeSeriesData salesData).x
      (exponentialSmoothing (prepareTimeSeriesData salesData).y defaultAlpha) := by
    unfold SLR.create at hs
    split_ifs at hs
    exact (Except.ok.inj hs).symm
  rw [forecastLoop_ok _ _ _ _ _ avg hm] at hp
  have hp' := (Except.ok.inj hp).symm
  rw [hp']
  constructor
  · simp
  · intro i h1 hi
    obtain ⟨j, rfl⟩ : ∃ j, i = j + 1 := ⟨i - 1, by omega⟩
    have hj : j < (forecastDays.getD cfg.forecastDays).toNat := by omega
    simp [List.getElem?_map, List.getElem?_range hj, havg, hslr]


theorem forecastedQuantity_formula_witness :
    risingForecast.predictions.length = 3 ∧
    (risingForecast.predictions.map (fun p => p.forecastedQuantity))[1 - 1]? =
      some (max (fin 0) (JSNum.round
        (adjustedProjection
          (regress (prepareTimeSeriesData risingSales).x
            (exponentialSmoothing (prepareTimeSeriesData risingSales).y defaultAlpha))
          (lastIndexOf (prepareTimeSeriesData risingSales).x)
          (detectSeasonality risingSales)
          (fin (average (prepareTimeSeriesData risingSales).y)) (40 * msPerDay) 1))) :=
  have h := forecastedQuantity_formula defaultConfig risingSales (40 * msPerDay) (some 3)
    risingForecast (by decide!)
  ⟨h.1, h.2 1 (by decide) (by decide)⟩

/-- Counterexample to claim C4 as stated: with nothing sold on Thursdays the
seasonality mapping holds the entry `0` for Thursday, the claim's formula
multiplies the Thursday projection by `0 / mean = 0` and gives `0`, but the
forecast returned for Thursday 1970-02-05 is `7`: the projection was not
multiplied. -/
theorem zero_factor_not_applied :
    getDay (addDays (34 * msPerDay) 1) = 4 ∧
    (detectSeasonality closedThursdaySales).lookup 4 = some (fin 0) ∧
    forecastQuantities
      (generateForecast defaultConfig closedThursdaySales (34 * msPerDay) (some 1)) =
      some [fin 7] ∧
    max (fin 0) (JSNum.round
      (projectionByMembership
        (regress (prepareTimeSeriesData closedThursdaySales).x
          (exponentialSmoothing (prepareTimeSeriesData closedThursdaySales).y defaultAlpha))
        (lastIndexOf (prepareTimeSeriesData closedThursdaySales).x)
        (detectSeasonality closedThursdaySales)
        (fin (average (prepareTimeSeriesData closedThursdaySales).y)) (34 * msPerDay) 1)) =
      fin 0 := by
  decide!
/-! ## Aggregation by calendar day -/

theorem lookup_cons_self {β : Type} (d : Int) (v : β) (m : List (Int × β)) :
    List.lookup d ((d, v) :: m) = some v := by
  simp [List.lookup]

theorem lookup_cons_ne {β : Type} {d k : Int} (h : d ≠ k) (v : β) (m : List (Int × β)) :
    List.lookup d ((k, v) :: m) = List.lookup d m := by
  have hb : (d == k) = false := by simpa using h
  simp [List.lookup, hb]

theorem addToDate_lookup (m : List (Int × ℚ)) (k : Int) (q : ℚ) (d : Int) :
    (addToDate m k q).lookup d =
      if d = k then some ((m.lookup k).getD 0 + q) else m.lookup d := by
  induction m with
  | nil =>
    by_cases h : d = k
    · subst h; simp [addToDate, lookup_cons_self]
    · simp [addToDate, lookup_cons_ne h, h]
  | cons e m ih =>
    obtain ⟨k', v⟩ := e
    by_cases hk : k' = k
    · subst hk
      by_cases h : d = k'
      · subst h
        by_cases hv : v = 0 <;> simp [addToDate, lookup_cons_self, hv]
      · simp [addToDate, lookup_cons_ne h, h]
    · have hk' : k ≠ k' := fun h => hk h.symm
      by_cases h : d = k
      · subst h
        simp [addToDate, hk, lookup_cons_ne hk', ih]
      · by_cases h2 : d = k'
        · subst h2
          simp [addToDate, hk, h, lookup_cons_self]
        · simp [addToDate, hk, h, lookup_cons_ne h2, ih]

theorem addToDate_keys (m : List (Int × ℚ)) (k : Int) (q : ℚ) :
    (addToDate m k q).map Prod.fst =
      if k ∈ m.map Prod.fst then m.map Prod.fst else m.map Prod.fst ++ [k] := by
  induction m with
  | nil => simp [addToDate]
  | cons e m ih =>
    obtain ⟨k', v⟩ := e
    by_cases hk : k' = k
    · subst hk
      simp [addToDate]
    · have hk' : ¬ k = k' := fun h => hk h.symm
      by_cases hmem : k ∈ m.map Prod.fst
      · simp only [addToDate, hk, if_false, List.map_cons, ih, if_pos hmem, List.mem_cons, hmem,
          or_true, if_true]
      · simp only [addToDate, hk, if_false, List.map_cons, ih, if_neg hmem, List.mem_cons, hk',
          hmem, or_self, List.cons_append]


theorem foldl_addToDate_lookup (l : List SalesRecord) (m : List (Int × ℚ)) (d : Int) :
    ((l.foldl (fun m sale => addToDate m (calendarDay sale.date) sale.quantity) m).lookup d).getD 0 =
      (m.lookup d).getD 0 + totalOnDay l d := by
  induction l generalizing m with
  | nil => simp [totalOnDay]
  | cons s l ih =>
    rw [List.foldl_cons, ih, addToDate_lookup]
    by_cases h : calendarDay s.date = d
    · subst h
      simp [totalOnDay, List.filter_cons, add_assoc]
    · have h' : ¬ d = calendarDay s.date := fun e => h e.symm
      simp [totalOnDay, List.filter_cons, h, h']

theorem foldl_addToDate_mem (l : List SalesRecord) (m : List (Int × ℚ)) (d : Int) :
    d ∈ (l.foldl (fun m sale => addToDate m (calendarDay sale.date) sale.quantity) m).map Prod.fst ↔
      d ∈ m.map Prod.fst ∨ ∃ s ∈ l, calendarDay s.date = d := by
  induction l generalizing m with
  | nil => simp
  | cons s l ih =>
    rw [List.foldl_cons, ih, addToDate_keys]
    by_cases hmem : calendarDay s.date ∈ m.map Prod.fst
    · rw [if_pos hmem]
      constructor
      · rintro (h | ⟨t, ht, hd⟩)
        · exact Or.inl h
        · exact Or.inr ⟨t, List.mem_cons_of_mem _ ht, hd⟩
      · rintro (h | ⟨t, ht, hd⟩)
        · exact Or.inl h
        · rcases List.mem_cons.mp ht with rfl | ht
          · exact Or.inl (hd ▸ hmem)
          · exact Or.inr ⟨t, ht, hd⟩
    · rw [if_neg hmem]
      constructor
      · rintro (h | ⟨t, ht, hd⟩)
        · rcases List.mem_append.mp h with h | h
          · exact Or.inl h
          · exact Or.inr ⟨s, List.mem_cons_self _ _, (List.mem_singleton.mp h).symm⟩
        · exact Or.inr ⟨t, List.mem_cons_of_mem _ ht, hd⟩
      · rintro (h | ⟨t, ht, hd⟩)
        · exact Or.inl (List.mem_append_left _ h)
        · rcases List.mem_cons.mp ht with rfl | ht
          · exact Or.inl (List.mem_append_right _ (List.mem_singleton.mpr hd.symm))
          · exact Or.inr ⟨t, ht, hd⟩

theorem foldl_addToDate_nodup (l : List SalesRecord) (m : List (Int × ℚ))
    (hm : (m.map Prod.fst).Nodup) :
    ((l.foldl (fun m sale => addToDate m (calendarDay sale.date) sale.quantity) m).map
      Prod.fst).Nodup := by
  induction l generalizing m with
  | nil => exact hm
  | cons s l ih =>
    rw [List.foldl_cons]
    apply ih
    rw [addToDate_keys]
    split_ifs with hmem
    · exact hm
    · exact List.Nodup.append hm (List.nodup_singleton _) (by simpa using hmem)


/-- What `prepareTimeSeriesData` returns on a non-empty input. -/
theorem prepareTimeSeriesData_spec (salesData : List SalesRecord) (hne : salesData ≠ []) :
    ∃ dates : List Int,
      (prepareTimeSeriesData salesData).dates = some dates ∧
      (prepareTimeSeriesData salesData).x = indices dates.length ∧
      (prepareTimeSeriesData salesData).y = dates.map (totalOnDay salesData) ∧
      dates.Sorted (· ≤ ·) ∧ dates.Nodup ∧
      (∀ d, d ∈ dates ↔ ∃ s ∈ salesData, calendarDay s.date = d) ∧
      dates.length = ((salesData.map (fun s => calendarDay s.date)).dedup).length := by
  have hlen : ¬ salesData.length = 0 := by simpa using hne
  have hnodup : ((groupByDate salesData).map Prod.fst).Nodup :=
    foldl_addToDate_nodup salesData [] (by simp)
  have hmem : ∀ d, d ∈ (groupByDate salesData).map Prod.fst ↔
      ∃ s ∈ salesData, calendarDay s.date = d := by
    intro d
    have := foldl_addToDate_mem salesData [] d
    simpa [groupByDate] using this
  have hperm := List.perm_insertionSort (· ≤ ·) ((groupByDate salesData).map Prod.fst)
  refine ⟨((groupByDate salesData).map Prod.fst).insertionSort (· ≤ ·), ?_, ?_, ?_,
    List.sorted_insertionSort _ _, hperm.nodup_iff.mpr hnodup, ?_, ?_⟩
  · simp [prepareTimeSeriesData, hlen]
  · simp [prepareTimeSeriesData, hlen, indices]
  · simp only [prepareTimeSeriesData, hlen, if_false]
    apply List.map_congr_left
    intro d _
    have := foldl_addToDate_lookup salesData [] d
    simpa [groupByDate] using this
  · intro d
    rw [hperm.mem_iff, hmem]
  · rw [hperm.length_eq]
    apply List.Perm.length_eq
    rw [List.perm_ext_iff_of_nodup hnodup (List.nodup_dedup _)]
    intro d
    rw [hmem, List.mem_dedup, List.mem_map]

/-- Claim C11: the values returned by `prepareTimeSeriesData` are, position by
position, the sums of `quantity` over the records whose date falls on the
calendar day at that position of `dates`; every day appears once, so records
at different times of one day are merged into one entry. -/
theorem prepareTimeSeriesData_sums (salesData : List SalesRecord) :
    (prepareTimeSeriesData salesData).y =
      ((prepareTimeSeriesData salesData).dates.getD []).map (totalOnDay salesData) ∧
    ((prepareTimeSeriesData salesData).dates.getD []).Nodup := by
  by_cases hne : salesData = []
  · subst hne
    simp [prepareTimeSeriesData]
  · obtain ⟨dates, hd, -, hy, -, hn, -, -⟩ := prepareTimeSeriesData_spec salesData hne
    rw [hd, hy]
    exact ⟨rfl, hn⟩

/-- Claim C12: on a non-empty list of records, in any order, the dates
returned by `prepareTimeSeriesData` are strictly ascending (so pairwise
distinct), they are exactly the calendar days that occur in the input, the
indices are `[0, ..., k - 1]` and `x`, `y` and `dates` all have length `k`, the
number of distinct days of the input. -/
theorem prepareTimeSeriesData_dates (salesData : List SalesRecord) (hne : salesData ≠ []) :
    ∃ dates : List Int,
      (prepareTimeSeriesData salesData).dates = some dates ∧
      dates.Sorted (· < ·) ∧ dates.Nodup ∧
      (∀ d, d ∈ dates ↔ ∃ s ∈ salesData, calendarDay s.date = d) ∧
      (prepareTimeSeriesData salesData).x = indices dates.length ∧
      (prepareTimeSeriesData salesData).x.length = dates.length ∧
      (prepareTimeSeriesData salesData).y.length = dates.length ∧
      dates.length = ((salesData.map (fun s => calendarDay s.date)).dedup).length := by
  obtain ⟨dates, hd, hx, hy, hs, hn, hm, hl⟩ := prepareTimeSeriesData_spec salesData hne
  refine ⟨dates, hd, hs.lt_of_le hn, hn, hm, hx, ?_, ?_, hl⟩
  · rw [hx, indices_length]
  · rw [hy, List.length_map]

theorem prepareTimeSeriesData_dates_witness :
    ∃ dates : List Int,
      (prepareTimeSeriesData unorderedSales).dates = some dates ∧
      dates.Sorted (· < ·) ∧ dates.Nodup ∧
      (∀ d, d ∈ dates ↔ ∃ s ∈ unorderedSales, calendarDay s.date = d) ∧
      (prepareTimeSeriesData unorderedSales).x = indices dates.length ∧
      (prepareTimeSeriesData unorderedSales).x.length = dates.length ∧
      (prepareTimeSeriesData unorderedSales).y.length = dates.length ∧
      dates.length = ((unorderedSales.map (fun s => calendarDay s.date)).dedup).length :=
  prepareTimeSeriesData_dates unorderedSales (by decide)

/-! ## Seasonality -/

theorem lookup_head {α β : Type} [BEq α] [LawfulBEq α] (d : α) (v : β) (m : List (α × β)) :
    List.lookup d ((d, v) :: m) = some v := by
  simp [List.lookup]

theorem lookup_tail {α β : Type} [BEq α] [LawfulBEq α] {d k : α} (h : d ≠ k) (v : β)
    (m : List (α × β)) : List.lookup d ((k, v) :: m) = List.lookup d m := by
  have hb : (d == k) = false := by simpa using h
  simp [List.lookup, hb]

theorem addToDay_lookup (m : List (Nat × List ℚ)) (k : Nat) (q : ℚ) (d : Nat) :
    (addToDay m k q).lookup d =
      if d = k then some ((m.lookup k).getD [] ++ [q]) else m.lookup d := by
  induction m with
  | nil =>
    by_cases h : d = k
    · subst h; simp [addToDay, lookup_head]
    · simp [addToDay, lookup_tail h, h]
  | cons e m ih =>
    obtain ⟨k', v⟩ := e
    by_cases hk : k' = k
    · subst hk
      by_cases h : d = k'
      · subst h
        simp [addToDay, lookup_head]
      · simp [addToDay, lookup_tail h, h]
    · have hk' : k ≠ k' := fun h => hk h.symm
      by_cases h : d = k
      · subst h
        simp [addToDay, hk, lookup_tail hk', ih]
      · by_cases h2 : d = k'
        · subst h2
          simp [addToDay, hk, h, lookup_head]
        · simp [addToDay, hk, h, lookup_tail h2, ih]

theorem addToDay_keys (m : List (Nat × List ℚ)) (k : Nat) (q : ℚ) :
    (addToDay m k q).map Prod.fst =
      if k ∈ m.map Prod.fst then m.map Prod.fst else m.map Prod.fst ++ [k] := by
  induction m with
  | nil => simp [addToDay]
  | cons e m ih =>
    obtain ⟨k', v⟩ := e
    by_cases hk : k' = k
    · subst hk
      simp [addToDay]
    · have hk' : ¬ k = k' := fun h => hk h.symm
      by_cases hmem : k ∈ m.map Prod.fst
      · simp only [addToDay, hk, if_false, List.map_cons, ih, if_pos hmem, List.mem_cons, hmem,
          or_true, if_true]
      · simp only [addToDay, hk, if_false, List.map_cons, ih, if_neg hmem, List.mem_cons, hk',
          hmem, or_self, List.cons_append]

theorem addToDay_nonempty (m : List (Nat × List ℚ)) (k : Nat) (q : ℚ)
    (hm : ∀ e ∈ m, e.2 ≠ []) : ∀ e ∈ addToDay m k q, e.2 ≠ [] := by
  induction m with
  | nil => simp [addToDay]
  | cons e m ih =>
    obtain ⟨k', v⟩ := e
    have hrest : ∀ e ∈ m, e.2 ≠ [] := fun e he => hm e (List.mem_cons_of_mem _ he)
    by_cases hk : k' = k
    · intro e he
      simp only [addToDay, hk, if_true, List.mem_cons] at he
      rcases he with rfl | he
      · simp
      · exact hrest e he
    · intro e he
      simp only [addToDay, hk, if_false, List.mem_cons] at he
      rcases he with rfl | he
      · exact hm _ (List.mem_cons_self _ _)
      · exact ih hrest e he


/-- The object `dayOfWeekSales` after the first `forEach` of
`detectSeasonality`, started from `m`. -/
theorem foldl_addToDay (l : List SalesRecord) (m : List (Nat × List ℚ))
    (hm : ∀ e ∈ m, e.2 ≠ []) (hn : (m.map Prod.fst).Nodup) :
    (∀ d, ((l.foldl (fun m sale => addToDay m (getDay sale.date) sale.quantity) m).lookup d).getD [] =
      (m.lookup d).getD [] ++ quantitiesOnWeekday l d) ∧
    (∀ d, d ∈ (l.foldl (fun m sale => addToDay m (getDay sale.date) sale.quantity) m).map Prod.fst ↔
      d ∈ m.map Prod.fst ∨ ∃ s ∈ l, getDay s.date = d) ∧
    (∀ e ∈ l.foldl (fun m sale => addToDay m (getDay sale.date) sale.quantity) m, e.2 ≠ []) ∧
    ((l.foldl (fun m sale => addToDay m (getDay sale.date) sale.quantity) m).map Prod.fst).Nodup := by
  induction l generalizing m with
  | nil => exact ⟨by simp [quantitiesOnWeekday], by simp, hm, hn⟩
  | cons s l ih =>
    have hn' : ((addToDay m (getDay s.date) s.quantity).map Prod.fst).Nodup := by
      rw [addToDay_keys]
      split_ifs with hmem
      · exact hn
      · exact List.Nodup.append hn (List.nodup_singleton _) (by simpa using hmem)
    obtain ⟨h1, h2, h3, h4⟩ := ih (addToDay m (getDay s.date) s.quantity)
      (addToDay_nonempty m _ _ hm) hn'
    rw [List.foldl_cons]
    refine ⟨?_, ?_, h3, h4⟩
    · intro d
      rw [h1, addToDay_lookup]
      by_cases h : getDay s.date = d
      · subst h
        simp [quantitiesOnWeekday, List.filter_cons]
      · have h' : ¬ d = getDay s.date := fun e => h e.symm
        simp [quantitiesOnWeekday, List.filter_cons, h, h']
    · intro d
      rw [h2, addToDay_keys]
      by_cases hmem : getDay s.date ∈ m.map Prod.fst
      · rw [if_pos hmem]
        constructor
        · rintro (h | ⟨t, ht, hd⟩)
          · exact Or.inl h
          · exact Or.inr ⟨t, List.mem_cons_of_mem _ ht, hd⟩
        · rintro (h | ⟨t, ht, hd⟩)
          · exact Or.inl h
          · rcases List.mem_cons.mp ht with rfl | ht
            · exact Or.inl (hd ▸ hmem)
            · exact Or.inr ⟨t, ht, hd⟩
      · rw [if_neg hmem]
        constructor
        · rintro (h | ⟨t, ht, hd⟩)
          · rcases List.mem_append.mp h with h | h
            · exact Or.inl h
            · exact Or.inr ⟨s, List.mem_cons_self _ _, (List.mem_singleton.mp h).symm⟩
          · exact Or.inr ⟨t, List.mem_cons_of_mem _ ht, hd⟩
        · rintro (h | ⟨t, ht, hd⟩)
          · exact Or.inl (List.mem_append_left _ h)
          · rcases List.mem_cons.mp ht with rfl | ht
            · exact Or.inl (List.mem_append_right _ (List.mem_singleton.mpr hd.symm))
            · exact Or.inr ⟨t, ht, hd⟩

theorem meanOfGroups_ok (m : List (Nat × List ℚ)) (hm : ∀ e ∈ m, e.2 ≠ []) :
    meanOfGroups m = .ok (m.map (fun e => (e.1, fin (average e.2)))) := by
  induction m with
  | nil => rfl
  | cons e m ih =>
    obtain ⟨k, v⟩ := e
    have hv : v ≠ [] := hm (k, v) (List.mem_cons_self _ _)
    have hrest : ∀ e ∈ m, e.2 ≠ [] := fun e he => hm e (List.mem_cons_of_mem _ he)
    simp only [meanOfGroups, mean_fin v hv, ih hrest, bind, Except.bind, pure, Except.pure,
      List.map_cons]

theorem lookup_map_snd {β γ : Type} (f : β → γ) (m : List (Nat × β)) (d : Nat) :
    (m.map (fun e => (e.1, f e.2))).lookup d = (m.lookup d).map f := by
  induction m with
  | nil => rfl
  | cons e m ih =>
    obtain ⟨k, v⟩ := e
    by_cases h : d = k
    · subst h; simp [lookup_head]
    · simp [lookup_tail h, ih]

theorem lookup_isSome_iff {β : Type} (m : List (Nat × β)) (d : Nat) :
    (m.lookup d).isSome ↔ d ∈ m.map Prod.fst := by
  induction m with
  | nil => simp
  | cons e m ih =>
    obtain ⟨k, v⟩ := e
    by_cases h : d = k
    · subst h; simp [lookup_head]
    · simp [lookup_tail h, ih, h]

/-- The mapping returned by `detectSeasonality`, entry by entry. -/
theorem detectSeasonality_lookup (salesData : List SalesRecord) (d : Nat) :
    (detectSeasonality salesData).lookup d =
      if ∃ s ∈ salesData, getDay s.date = d then
        some (fin (average (quantitiesOnWeekday salesData d)))
      else none := by
  obtain ⟨h1, h2, h3, -⟩ := foldl_addToDay salesData [] (by simp) (by simp)
  simp only [detectSeasonality, meanOfGroups_ok _ h3]
  rw [lookup_map_snd (fun v => fin (average v))]
  have hq := h1 d
  have hk := h2 d
  rw [← lookup_isSome_iff] at hk
  simp only [List.lookup, Option.getD_none, List.nil_append, List.map_nil, List.not_mem_nil,
    false_or] at hq hk
  split_ifs with hex
  · cases hl : (salesData.foldl (fun m sale => addToDay m (getDay sale.date) sale.quantity) []).lookup d with
    | none => rw [hl] at hk; simp at hk; exact absurd hex (by simpa using hk)
    | some v => rw [hl] at hq; simp at hq; simp [hq]
  · cases hl : (salesData.foldl (fun m sale => addToDay m (getDay sale.date) sale.quantity) []).lookup d with
    | none => rfl
    | some v => rw [hl] at hk; exact absurd (hk.mp rfl) hex


theorem getDay_lt (date : Int) : getDay date < 7 := by
  unfold getDay dayOfWeekOfDay
  omega

/-- Claim C13: the mapping returned by `detectSeasonality` has one key for
each day of the week (0 to 6) on which at least one record falls and no other
key, and the value of a key is the arithmetic mean of `quantity` over the raw
records that fall on that day of the week. -/
theorem detectSeasonality_means (salesData : List SalesRecord) :
    ((detectSeasonality salesData).map Prod.fst).Nodup ∧
    (∀ d, d ∈ (detectSeasonality salesData).map Prod.fst ↔
      d < 7 ∧ ∃ s ∈ salesData, getDay s.date = d) ∧
    (∀ d, (∃ s ∈ salesData, getDay s.date = d) →
      (detectSeasonality salesData).lookup d =
        some (fin (average (quantitiesOnWeekday salesData d)))) ∧
    (∀ d, (¬ ∃ s ∈ salesData, getDay s.date = d) →
      (detectSeasonality salesData).lookup d = none) := by
  obtain ⟨-, h2, h3, h4⟩ := foldl_addToDay salesData [] (by simp) (by simp)
  have hkeys : (detectSeasonality salesData).map Prod.fst =
      (salesData.foldl (fun m sale => addToDay m (getDay sale.date) sale.quantity) []).map
        Prod.fst := by
    simp only [detectSeasonality, meanOfGroups_ok _ h3, List.map_map]
    rfl
  refine ⟨hkeys ▸ h4, ?_, ?_, ?_⟩
  · intro d
    rw [hkeys, h2]
    constructor
    · rintro (h | ⟨s, hs, hd⟩)
      · simp at h
      · exact ⟨hd ▸ getDay_lt _, s, hs, hd⟩
    · rintro ⟨-, h⟩
      exact Or.inr h
  · intro d hd
    rw [detectSeasonality_lookup, if_pos hd]
  · intro d hd
    rw [detectSeasonality_lookup, if_neg hd]

theorem detectSeasonality_means_witness :
    (detectSeasonality weekdaySales).lookup 4 =
      some (fin (average (quantitiesOnWeekday weekdaySales 4))) ∧
    (detectSeasonality weekdaySales).lookup 0 = none :=
  ⟨(detectSeasonality_means weekdaySales).2.2.1 4 ⟨{ date := 0, quantity := 4 }, by decide, by decide⟩,
   (detectSeasonality_means weekdaySales).2.2.2 0 (by decide)⟩

/-! ## Forecast dates and recommendations -/

theorem calendarDay_addDays (now i : Int) : calendarDay (addDays now i) = calendarDay now + i := by
  unfold calendarDay addDays
  exact Int.add_mul_ediv_right _ _ (by decide)

/-- Claim C15: a successful forecast with horizon `h` has exactly `h`
predictions, and the `i`-th of them (counting from 1) carries the calendar day
`i` days after the current date and the weekday name of that day; the dates
are therefore consecutive and strictly ascending. -/
theorem predictions_dates (cfg : Config) (salesData : List SalesRecord) (now : Int)
    (forecastDays : Option Int) (f : Forecast)
    (h : generateForecast cfg salesData now forecastDays = .ok (.success f)) :
    f.predictions.length = (forecastDays.getD cfg.forecastDays).toNat ∧
    f.predictions.map (fun p => (p.date, p.dayOfWeek)) =
      (List.range (forecastDays.getD cfg.forecastDays).toNat).map (fun (j : Nat) =>
        (calendarDay now + ((j + 1 : Nat) : Int),
          dayName (dayOfWeekOfDay (calendarDay now + ((j + 1 : Nat) : Int))))) ∧
    (f.predictions.map (fun p => p.date)).Sorted (· < ·) := by
  obtain ⟨-, slr, avg, -, hp, hm, -, -, -, -, -, -⟩ := generateForecast_success_inv h
  rw [forecastLoop_ok _ _ _ _ _ avg hm] at hp
  have hp' := (Except.ok.inj hp).symm
  rw [hp']
  refine ⟨by simp, ?_, ?_⟩
  · simp only [List.map_map]
    apply List.map_congr_left
    intro j _
    simp [getDay, calendarDay_addDays]
  · simp only [List.map_map]
    rw [List.Sorted, List.pairwise_map]
    refine (List.pairwise_lt_range _).imp ?_
    intro a b hab
    simp only [Function.comp, calendarDay_addDays]
    omega

theorem predictions_dates_witness :
    risingForecast.predictions.length = 3 ∧
    risingForecast.predictions.map (fun p => (p.date, p.dayOfWeek)) =
      (List.range 3).map (fun (j : Nat) =>
        (calendarDay (40 * msPerDay) + ((j + 1 : Nat) : Int),
          dayName (dayOfWeekOfDay (calendarDay (40 * msPerDay) + ((j + 1 : Nat) : Int))))) ∧
    (risingForecast.predictions.map (fun p => p.date)).Sorted (· < ·) :=
  predictions_dates defaultConfig risingSales (40 * msPerDay) (some 3) risingForecast (by decide!)


theorem foldl_peakStep_mem (ps : List ForecastPoint) (p0 : ForecastPoint) :
    ps.foldl peakStep p0 ∈ p0 :: ps := by
  induction ps generalizing p0 with
  | nil => simp
  | cons p ps ih =>
    rw [List.foldl_cons]
    have := ih (peakStep p0 p)
    rcases List.mem_cons.mp this with h | h
    · rw [h]
      unfold peakStep
      split_ifs <;> simp
    · exact List.mem_cons_of_mem _ (List.mem_cons_of_mem _ h)

theorem trendRecommendations_fin (trend : Trend) (m a : ℚ) :
    trendRecommendations trend (fin m) (fin a) = expectedTrendRecommendations trend m a := by
  cases trend <;> simp [trendRecommendations, expectedTrendRecommendations]

/-- Amended claim C16: on a non-empty list of forecast points (with finite
quantities) `generateRecommendations` returns, before the final peak-day
entry and nothing else: for `INCREASING` the increase-stock message, followed
by the spike warning if and only if the mean forecast quantity is strictly
greater than 1.5 times the historical average; for `DECREASING` the
reduce-inventory message followed by the promotional-offers message; for
`STABLE` the maintain message. -/
theorem generateRecommendations_by_trend (predictions : List ForecastPoint)
    (trendAnalysis : TrendAnalysis) (historicalAverage : ℚ) (quantities : List ℚ)
    (hne : predictions ≠ [])
    (hq : predictions.map (fun p => p.forecastedQuantity) = quantities.map fin) :
    ∃ peak ∈ predictions,
      generateRecommendations predictions trendAnalysis (fin historicalAverage) =
        .ok (expectedTrendRecommendations trendAnalysis.trend (average quantities)
              historicalAverage ++ [.peakDay peak.dayOfWeek peak.date]) := by
  cases predictions with
  | nil => exact absurd rfl hne
  | cons p0 ps =>
    have hqne : quantities ≠ [] := by
      intro h
      rw [h] at hq
      simp at hq
    refine ⟨ps.foldl peakStep p0, foldl_peakStep_mem ps p0, ?_⟩
    simp only [generateRecommendations]
    rw [hq, mean_fin _ hqne]
    simp only [bind, Except.bind, pure, Except.pure, trendRecommendations_fin]

theorem generateRecommendations_by_trend_witness :
    ∃ peak ∈ risingForecast.predictions,
      generateRecommendations risingForecast.predictions decreasingTrend (fin 40) =
        .ok (expectedTrendRecommendations decreasingTrend.trend (average [48, 45, 48]) 40 ++
          [.peakDay peak.dayOfWeek peak.date]) :=
  generateRecommendations_by_trend risingForecast.predictions decreasingTrend 40 [48, 45, 48]
    (by decide) (by decide)

/-- Counterexample to claim C16 as stated: for the trend `DECREASING` the
source pushes two messages before the peak-day entry, the reduce-inventory
message and the promotional-offers message, where the claim allows the first
one only. -/
theorem decreasing_pushes_promotional_offers :
    generateRecommendations risingForecast.predictions decreasingTrend (fin 40) =
      .ok [.reduceInventory, .promotionalOffers, .peakDay "Wednesday" 41] ∧
    generateRecommendations risingForecast.predictions decreasingTrend (fin 40) ≠
      .ok (claimedTrendRecommendations decreasingTrend.trend (average [48, 45, 48]) 40 ++
        [.peakDay "Wednesday" 41]) := by
  decide!

/-! ## The fitted line in closed form -/

theorem squareSum_eq (x : List ℚ) (hn : x.length ≠ 0) :
    squareSum x = x.length * (x.map (fun a => (a - average x) * (a - average x))).sum :=
  regress_denominator x hn

theorem regress_fin (x y : List ℚ) (hn : x.length ≠ 0) (hd : squareSum x ≠ 0) :
    regress x y =
      { slope := fin (crossSum x y / squareSum x)
        intercept := fin (1 / x.length * y.sum - crossSum x y / squareSum x * (1 / x.length) * x.sum) } := by
  have hn' : (x.length : ℚ) ≠ 0 := by exact_mod_cast hn
  have hs : (regress x y).slope = fin (crossSum x y / squareSum x) := by
    show fin _ / fin _ = _
    exact fin_div_fin _ _ hd
  have hi : (regress x y).intercept =
      fin (1 / x.length * y.sum - crossSum x y / squareSum x * (1 / x.length) * x.sum) := by
    show (fin 1 / fin _) * fin _ - (regress x y).slope * (fin 1 / fin _) * fin _ = _
    rw [hs, fin_div_fin _ _ hn']
    simp only [fin_mul_fin, fin_sub_fin]
  cases hr : regress x y with
  | mk s i =>
    rw [hr] at hs hi
    simp only at hs hi
    rw [hs, hi]

/-! ## When `generateForecast` succeeds -/

theorem exponentialSmoothing_length (data : List ℚ) (alpha : ℚ) :
    (exponentialSmoothing data alpha).length = data.length := by
  cases data with
  | nil => rfl
  | cons d ds => simp [exponentialSmoothing, smoothFrom_length]

theorem prepareTimeSeriesData_y_ne_nil (salesData : List SalesRecord) (hne : salesData ≠ []) :
    (prepareTimeSeriesData salesData).y ≠ [] := by
  obtain ⟨dates, -, -, hy, -, -, hm, -⟩ := prepareTimeSeriesData_spec salesData hne
  obtain ⟨s, hs⟩ := List.exists_mem_of_ne_nil salesData hne
  have hd : calendarDay s.date ∈ dates := (hm _).mpr ⟨s, hs, rfl⟩
  rw [hy]
  intro h
  have := List.map_eq_nil_iff.mp h
  rw [this] at hd
  simp at hd

theorem generateRecommendations_ok (predictions : List ForecastPoint) (t : TrendAnalysis)
    (avg : JSNum) (hne : predictions ≠ []) :
    ∃ recs, generateRecommendations predictions t avg = .ok recs := by
  cases predictions with
  | nil => exact absurd rfl hne
  | cons p0 ps =>
    simp only [generateRecommendations]
    rw [mean_ok_of_ne_nil _ (by simp)]
    exact ⟨_, rfl⟩

/-- The list of predictions built by the loop of `generateForecast`. -/
theorem forecastLoop_eq (salesData : List SalesRecord) (now : Int) (h : Nat)
    (hne : salesData ≠ []) :
    forecastLoop
        (regress (prepareTimeSeriesData salesData).x
          (exponentialSmoothing (prepareTimeSeriesData salesData).y defaultAlpha))
        (lastIndexOf (prepareTimeSeriesData salesData).x) (detectSeasonality salesData)
        (prepareTimeSeriesData salesData).y now ((List.range h).map (fun (j : Nat) => j + 1)) =
      .ok (((List.range h).map (fun (j : Nat) => j + 1)).map (fun (i : Nat) =>
        { date := calendarDay (addDays now i)
          forecastedQuantity := max (fin 0) (JSNum.round
            (adjustedProjection
              (regress (prepareTimeSeriesData salesData).x
                (exponentialSmoothing (prepareTimeSeriesData salesData).y defaultAlpha))
              (lastIndexOf (prepareTimeSeriesData salesData).x) (detectSeasonality salesData)
              (fin (average (prepareTimeSeriesData salesData).y)) now i))
          dayOfWeek := dayName (getDay (addDays now i)) })) :=
  forecastLoop_ok _ _ _ _ _ _ (mean_fin _ (prepareTimeSeriesData_y_ne_nil salesData hne)) _

/-- On a non-empty record set that passes the `minDataPoints` gate, with a
horizon of at least one day, `generateForecast` returns `success: true`. -/
theorem generateForecast_succeeds (cfg : Config) (salesData : List SalesRecord) (now : Int)
    (forecastDays : Option Int) (hmin : ¬ (salesData.length : Int) < cfg.minDataPoints)
    (hne : salesData ≠ []) (hh : 1 ≤ forecastDays.getD cfg.forecastDays) :
    ∃ f, generateForecast cfg salesData now forecastDays = .ok (.success f) := by
  have hlen : ¬ (prepareTimeSeriesData salesData).x.length ≠
      (exponentialSmoothing (prepareTimeSeriesData salesData).y defaultAlpha).length := by
    rw [exponentialSmoothing_length, prepareTimeSeriesData_x, indices_length]
    simp
  have hpne : ((List.range (forecastDays.getD cfg.forecastDays).toNat).map
      (fun (j : Nat) => j + 1)).map (fun (i : Nat) =>
        ({ date := calendarDay (addDays now i)
           forecastedQuantity := max (fin 0) (JSNum.round
            (adjustedProjection
              (regress (prepareTimeSeriesData salesData).x
                (exponentialSmoothing (prepareTimeSeriesData salesData).y defaultAlpha))
              (lastIndexOf (prepareTimeSeriesData salesData).x) (detectSeasonality salesData)
              (fin (average (prepareTimeSeriesData salesData).y)) now i))
           dayOfWeek := dayName (getDay (addDays now i)) } : ForecastPoint)) ≠ [] := by
    intro h0
    have := congrArg List.length h0
    simp at this
    omega
  obtain ⟨recs, hrecs⟩ := generateRecommendations_ok _
    (calculateTrend (prepareTimeSeriesData salesData).x (prepareTimeSeriesData salesData).y)
    (fin (average (prepareTimeSeriesData salesData).y)) hpne
  unfold generateForecast
  simp only [hmin, if_false, SLR.create, if_neg hlen, bind, Except.bind,
    forecastLoop_eq salesData now _ hne,
    mean_fin _ (prepareTimeSeriesData_y_ne_nil salesData hne), hrecs, pure, Except.pure]
  exact ⟨_, rfl⟩


/-! ## A constant series on consecutive days -/

theorem average_of_const (l : List ℚ) (v : ℚ) (hne : l ≠ []) (hl : ∀ a ∈ l, a = v) :
    average l = v := by
  have hrep : l = List.replicate l.length v := List.eq_replicate_of_mem hl
  have hn : (l.length : ℚ) ≠ 0 := by
    have : l.length ≠ 0 := by simpa using hne
    exact_mod_cast this
  unfold average
  rw [hrep]
  simp only [List.sum_replicate, List.length_replicate, nsmul_eq_mul]
  field_simp

theorem filter_day_length (salesData : List SalesRecord) (d : Int) :
    (salesData.filter (fun s => calendarDay s.date = d)).length =
      (salesData.map (fun s => calendarDay s.date)).count d := by
  induction salesData with
  | nil => rfl
  | cons s l ih =>
    by_cases h : calendarDay s.date = d
    · simp [List.filter_cons, h, ih]
    · simp [List.filter_cons, h, ih, List.count_cons]

/-- The aggregated series of records of one quantity, one per day on
consecutive days. -/
theorem prepareTimeSeriesData_constant (salesData : List SalesRecord) (n : Nat) (v : ℚ)
    (d0 : Int) (hn : 1 ≤ n)
    (hdays : salesData.map (fun s => calendarDay s.date) =
      (List.range n).map (fun (i : Nat) => d0 + (i : Int)))
    (hq : ∀ s ∈ salesData, s.quantity = v) :
    salesData ≠ [] ∧ (prepareTimeSeriesData salesData).x = indices n ∧
      (prepareTimeSeriesData salesData).y = List.replicate n v := by
  have hlen : salesData.length = n := by
    have := congrArg List.length hdays
    simpa using this
  have hne : salesData ≠ [] := by
    intro h
    rw [h] at hlen
    simp at hlen
    omega
  have hnodup : (salesData.map (fun s => calendarDay s.date)).Nodup := by
    rw [hdays]
    apply List.Nodup.map _ (List.nodup_range n)
    intro a b hab
    simpa using hab
  obtain ⟨dates, -, hx, hy, -, -, hm, hl⟩ := prepareTimeSeriesData_spec salesData hne
  rw [hnodup.dedup, List.length_map, hlen] at hl
  refine ⟨hne, by rw [hx, hl], ?_⟩
  rw [hy, ← hl]
  apply List.eq_replicate_iff.mpr
  refine ⟨by simp, ?_⟩
  intro t ht
  obtain ⟨d, hd, rfl⟩ := List.mem_map.mp ht
  have hdmem : d ∈ salesData.map (fun s => calendarDay s.date) := by
    obtain ⟨s, hs, hsd⟩ := (hm d).mp hd
    exact List.mem_map.mpr ⟨s, hs, hsd⟩
  have hcount := List.count_eq_one_of_mem hnodup hdmem
  have hfl := filter_day_length salesData d
  rw [hcount] at hfl
  unfold totalOnDay
  have hall : ∀ a ∈ (salesData.filter (fun s => calendarDay s.date = d)).map (fun s => s.quantity),
      a = v := by
    intro a ha
    obtain ⟨s, hs, rfl⟩ := List.mem_map.mp ha
    exact hq s (List.mem_of_mem_filter hs)
  rw [List.eq_replicate_of_mem hall]
  simp [hfl]

theorem replicate_eq_map_indices (n : Nat) (v : ℚ) :
    List.replicate n v = (indices n).map (fun t => v + 0 * t) := by
  apply List.ext_getElem
  · simp [indices]
  · intro i h1 h2
    simp [indices]

/-- The projection line fitted to a constant series of at least two days is
the constant itself. -/
theorem regress_constant (n : Nat) (v : ℚ) (hn : 2 ≤ n) :
    regress (indices n) (List.replicate n v) = { slope := fin 0, intercept := fin v } := by
  have hlen : (indices n).length ≠ 0 := by rw [indices_length]; omega
  have hn' : ((indices n).length : ℚ) ≠ 0 := by exact_mod_cast hlen
  have hd : squareSum (indices n) ≠ 0 := by
    rw [squareSum_eq _ hlen]
    exact mul_ne_zero hn' (sum_dev_sq_pos _ (indices_distinct n hn)).ne'
  have hc : crossSum (indices n) (List.replicate n v) = 0 := by
    rw [replicate_eq_map_indices]
    simp only [crossSum, sum_mul_affine, sum_affine]
    ring
  have hsum : (List.replicate n v).sum = (indices n).length * v := by
    simp [indices_length]
  rw [regress_fin _ _ hlen hd, hc, hsum]
  congr 2
  · simp
  · simp only [zero_div, zero_mul, sub_zero]
    field_simp


theorem smoothing_of_replicate (n : Nat) (v alpha : ℚ) :
    exponentialSmoothing (List.replicate n v) alpha = List.replicate n v := by
  cases n with
  | zero => rfl
  | succ n => simp [List.replicate_succ, exponentialSmoothing, smoothFrom_replicate]

theorem lastIndexOf_indices (n : Nat) (hn : 1 ≤ n) : ∃ l : ℚ, lastIndexOf (indices n) = fin l := by
  unfold lastIndexOf
  cases h : (indices n).getLast? with
  | none =>
    rw [List.getLast?_eq_none_iff] at h
    have := congrArg List.length h
    rw [indices_length] at this
    simp at this
    omega
  | some l => exact ⟨l, rfl⟩

theorem round_natCast (v : Nat) : JSNum.round (fin (v : ℚ)) = fin (v : ℚ) := by
  have h : ⌊(v : ℚ) + 1 / 2⌋ = (v : ℤ) := by
    rw [Int.floor_eq_iff]
    constructor
    · push_cast; linarith
    · push_cast; linarith
  show fin ((⌊(v : ℚ) + 1 / 2⌋ : ℤ) : ℚ) = fin (v : ℚ)
  rw [h]
  simp

theorem max_zero_natCast (v : Nat) : max (fin 0) (fin (v : ℚ)) = fin (v : ℚ) := by
  by_cases h : (0 : ℚ) < v
  · simp [JSNum.max, h]
  · have hv : (v : ℚ) = 0 := le_antisymm (not_lt.mp h) (Nat.cast_nonneg v)
    simp [JSNum.max, hv]

/-- With one quantity `v` everywhere the seasonal adjustment leaves the
constant projection `v` as it is. -/
theorem adjustedProjection_constant (salesData : List SalesRecord) (v l : ℚ) (now : Int)
    (i : Nat) (hq : ∀ s ∈ salesData, s.quantity = v) :
    adjustedProjection { slope := fin 0, intercept := fin v } (fin l)
      (detectSeasonality salesData) (fin v) now i = fin v := by
  have hp : SLR.predict { slope := fin 0, intercept := fin v } (fin l + fin (i : ℚ)) = fin v := by
    simp [SLR.predict]
  unfold adjustedProjection
  rw [detectSeasonality_lookup]
  split_ifs with hex
  · have hall : ∀ a ∈ quantitiesOnWeekday salesData (getDay (addDays now i)), a = v := by
      intro a ha
      obtain ⟨s, hs, rfl⟩ := List.mem_map.mp ha
      exact hq s (List.mem_of_mem_filter hs)
    have hne : quantitiesOnWeekday salesData (getDay (addDays now i)) ≠ [] := by
      obtain ⟨s, hs, hd⟩ := hex
      intro h0
      have hmem : s.quantity ∈ quantitiesOnWeekday salesData (getDay (addDays now i)) :=
        List.mem_map.mpr ⟨s, List.mem_filter.mpr ⟨hs, by simpa using hd⟩, rfl⟩
      rw [h0] at hmem
      simp at hmem
    rw [average_of_const _ v hne hall]
    by_cases hv : v = 0
    · simp [truthy, hv, hp]
      subst hv
      simpa using hp
    · simp only [truthy, hv, ne_eq, not_false_eq_true, decide_True, if_true, hp,
        fin_div_fin _ _ hv, fin_mul_fin]
      congr 1
      field_simp
  · exact hp


/-- Amended claim C17: for `n` records of one quantity `v` (a non-negative
integer), one per day on `n` consecutive calendar days, with `n` at least
`minDataPoints` and at least 2, and a horizon of at least one day,
`generateForecast` returns `success: true` with trend `STABLE` and every
`forecastedQuantity` equal to `v`. -/
theorem constant_sales_forecast (cfg : Config) (salesData : List SalesRecord) (now : Int)
    (forecastDays : Option Int) (n v : Nat) (d0 : Int)
    (hdays : salesData.map (fun s => calendarDay s.date) =
      (List.range n).map (fun (i : Nat) => d0 + (i : Int)))
    (hq : ∀ s ∈ salesData, s.quantity = (v : ℚ))
    (hmin : cfg.minDataPoints ≤ (n : Int)) (h2 : 2 ≤ n)
    (hh : 1 ≤ forecastDays.getD cfg.forecastDays) :
    ∃ f, generateForecast cfg salesData now forecastDays = .ok (.success f) ∧
      f.trend = .STABLE ∧ ∀ p ∈ f.predictions, p.forecastedQuantity = fin (v : ℚ) := by
  obtain ⟨hne, hx, hy⟩ := prepareTimeSeriesData_constant salesData n v d0 (by omega) hdays hq
  have hlen : salesData.length = n := by
    have := congrArg List.length hdays
    simpa using this
  obtain ⟨f, hf⟩ := generateForecast_succeeds cfg salesData now forecastDays
    (by rw [hlen]; omega) hne hh
  obtain ⟨-, slr, avg, hs, hp, -, -, ht, -, -, -, -⟩ := generateForecast_success_inv hf
  refine ⟨f, hf, ?_, ?_⟩
  · rw [ht, hx, hy, calculateTrend_fit _ _ (by rw [indices_length]; exact h2)
      (by simp [indices_length]), regress_constant n v h2]
    exact (classify_fin 0).2.2.mpr ⟨by norm_num, by norm_num⟩
  · have hslr : slr = regress (prepareTimeSeriesData salesData).x
        (exponentialSmoothing (prepareTimeSeriesData salesData).y defaultAlpha) := by
      unfold SLR.create at hs
      split_ifs at hs
      exact (Except.ok.inj hs).symm
    rw [hslr, forecastLoop_eq salesData now _ hne] at hp
    have hp' := (Except.ok.inj hp).symm
    obtain ⟨l, hl⟩ := lastIndexOf_indices n (by omega)
    have havg : average (List.replicate n (v : ℚ)) = v :=
      average_of_const _ _ (by simp; omega) (fun a ha => (List.mem_replicate.mp ha).2)
    intro p hpmem
    rw [hp'] at hpmem
    obtain ⟨i, -, rfl⟩ := List.mem_map.mp hpmem
    simp only [hx, hy, smoothing_of_replicate, regress_constant n v h2, hl, havg,
      adjustedProjection_constant salesData v l now i hq, round_natCast, max_zero_natCast]

theorem constant_sales_forecast_witness :
    ∃ f, generateForecast defaultConfig constantSales (40 * msPerDay) none = .ok (.success f) ∧
      f.trend = .STABLE ∧ ∀ p ∈ f.predictions, p.forecastedQuantity = fin ((5 : Nat) : ℚ) :=
  constant_sales_forecast defaultConfig constantSales (40 * msPerDay) none 35 5 0
    (by decide!) (by decide!) (by decide) (by decide) (by decide)

/-- Counterexample to claim C17 as stated: with `MIN_DATA_POINTS=1` a single
record of five units satisfies `n >= minDataPoints`, yet its forecast is
`NaN`, not `5`; and with the default configuration the thirty-five records of
the witness make `generateForecast` throw when the horizon is `0`. -/
theorem single_record_forecast_nan :
    forecastQuantities
      (generateForecast singleRecordConfig [{ date := 0, quantity := 5 }] 0 (some 1)) =
      some [nan] ∧
    generateForecast defaultConfig constantSales (40 * msPerDay) (some 0) =
      .error "mean requires at least one data point" := by
  decide!

/-! ## The ranking -/

theorem groupStage_ids (rows : List SalesRow) :
    (groupStage rows).map (fun item => item.id) = (rows.map (fun r => r.productId)).dedup := by
  unfold groupStage
  rw [List.map_map]
  exact (List.map_congr_left (fun pid _ => rfl)).trans (List.map_id _)

/-- Claim C19: for every limit of at least 1 the ranking returns
`min(limit, m)` items, `m` being the number of distinct products with a row
of the category in the window; the items are distinct products, each with the
sum of `quantity` over its rows of the category in the window as
`totalQuantity`; they are in non-increasing order of `totalQuantity`; and no
product left out has a total strictly greater than a returned one. -/
theorem getTrendingProductsByCategory_ranking (rows : List SalesRow)
    (findById : Nat → Option String) (categoryId : String) (limit : Int) (startDate : Int)
    (hl : 1 ≤ limit) :
    ∃ res, getTrendingProductsByCategory rows findById categoryId limit startDate = .ok res ∧
      res.length = Min.min limit.toNat (matchedProducts rows categoryId startDate).length ∧
      (res.map (fun e => e.1.id)).Nodup ∧
      (∀ e ∈ res, e.1.id ∈ matchedProducts rows categoryId startDate ∧
        e.1.totalQuantity = productTotal rows categoryId startDate e.1.id ∧
        e.2 = findById e.1.id) ∧
      (res.map (fun e => e.1.totalQuantity)).Sorted (· ≥ ·) ∧
      (∀ pid ∈ matchedProducts rows categoryId startDate, pid ∉ res.map (fun e => e.1.id) →
        ∀ e ∈ res, productTotal rows categoryId startDate pid ≤ e.1.totalQuantity) := by
  have hlim : ¬ limit ≤ 0 := by omega
  have hperm := List.perm_insertionSort byQuantityDesc
    (groupStage (matchStage rows categoryId startDate))
  have hsorted : List.Sorted byQuantityDesc
      (sortStage (groupStage (matchStage rows categoryId startDate))) :=
    List.sorted_insertionSort byQuantityDesc (groupStage (matchStage rows categoryId startDate))
  have hids : ((sortStage (groupStage (matchStage rows categoryId startDate))).map
      (fun item => item.id)).Nodup := by
    have := (hperm.map (fun item => item.id)).nodup_iff.mpr
      (by rw [groupStage_ids]; exact List.nodup_dedup _)
    exact this
  have hmem : ∀ item ∈ sortStage (groupStage (matchStage rows categoryId startDate)),
      item.id ∈ matchedProducts rows categoryId startDate ∧
      item.totalQuantity = productTotal rows categoryId startDate item.id := by
    intro item hitem
    have hg : item ∈ groupStage (matchStage rows categoryId startDate) := hperm.mem_iff.mp hitem
    obtain ⟨pid, hpid, rfl⟩ := List.mem_map.mp hg
    exact ⟨hpid, rfl⟩
  have htake := List.take_sublist limit.toNat
    (sortStage (groupStage (matchStage rows categoryId startDate)))
  refine ⟨((sortStage (groupStage (matchStage rows categoryId startDate))).take limit.toNat).map
      (fun item => (item, findById item.id)),
    by simp only [getTrendingProductsByCategory, if_neg hlim], ?_, ?_, ?_, ?_, ?_⟩
  · simp only [List.length_map, List.length_take, sortStage, List.length_insertionSort,
      groupStage, matchedProducts]
  · rw [List.map_map]
    exact (htake.map (fun item => item.id)).nodup hids
  · intro e he
    obtain ⟨item, hitem, rfl⟩ := List.mem_map.mp he
    have := hmem item (htake.subset hitem)
    exact ⟨this.1, this.2, rfl⟩
  · rw [List.map_map, List.Sorted, List.pairwise_map]
    exact (List.Pairwise.sublist htake hsorted).imp (fun h => h)
  · intro pid hpid hout e he
    obtain ⟨item, hitem, rfl⟩ := List.mem_map.mp he
    have hg : groupOf (matchStage rows categoryId startDate) pid ∈
        sortStage (groupStage (matchStage rows categoryId startDate)) :=
      hperm.mem_iff.mpr (List.mem_map.mpr ⟨pid, hpid, rfl⟩)
    rw [← List.take_append_drop limit.toNat
      (sortStage (groupStage (matchStage rows categoryId startDate)))] at hg hsorted
    rcases List.mem_append.mp hg with hin | hin
    · exfalso
      apply hout
      rw [List.map_map]
      exact List.mem_map.mpr ⟨_, hin, rfl⟩
    · exact (List.pairwise_append.mp hsorted).2.2 item hitem _ hin

theorem getTrendingProductsByCategory_ranking_witness :
    ∃ res, getTrendingProductsByCategory rankingRows (fun _ => none) "toys" 2 30 = .ok res ∧
      res.length = Min.min (2 : Int).toNat (matchedProducts rankingRows "toys" 30).length ∧
      (res.map (fun e => e.1.id)).Nodup ∧
      (∀ e ∈ res, e.1.id ∈ matchedProducts rankingRows "toys" 30 ∧
        e.1.totalQuantity = productTotal rankingRows "toys" 30 e.1.id ∧
        e.2 = (fun _ => none) e.1.id) ∧
      (res.map (fun e => e.1.totalQuantity)).Sorted (· ≥ ·) ∧
      (∀ pid ∈ matchedProducts rankingRows "toys" 30, pid ∉ res.map (fun e => e.1.id) →
        ∀ e ∈ res, productTotal rankingRows "toys" 30 pid ≤ e.1.totalQuantity) :=
  getTrendingProductsByCategory_ranking rankingRows (fun _ => none) "toys" 2 30 (by decide)

/-- The scenario of the ranking: products A, B and C with totals 100, 80 and
80 in the window and `limit = 2` give two items, A first; the product sold
only before the window is not ranked. -/
theorem ranking_scenario :
    (getTrendingProductsByCategory rankingRows (fun _ => none) "toys" 2 30).map
      (fun l => l.map (fun e => (e.1.id, e.1.totalQuantity))) = .ok [(1, 100), (2, 80)] := by
  decide!

/-! ## Saving a prediction -/

/-- Claim C20: a prediction passed to `savePrediction` with a `validUntil`
earlier than the current time and the status `ACTIVE`, given or by default,
is persisted with the status `ARCHIVED`, and the next read of it returns
`ARCHIVED`; no sweep of the scheduler is involved. -/
theorem savePrediction_archives_expired (now : Int) (store : List Prediction) (newId : Nat)
    (data : PredictionData)
    (hvalid : 0 ≤ data.confidenceScore.getD 0 ∧ data.confidenceScore.getD 0 ≤ 1)
    (hfresh : ∀ p ∈ store, p.id ≠ newId)
    (hexpired : data.validUntil < now)
    (hstatus : data.status = none ∨ data.status = some .ACTIVE) :
    ∃ saved store2, savePrediction now store newId data = .ok (saved, store2) ∧
      saved.status = .ARCHIVED ∧ saved ∈ store2 ∧
      findPrediction store2 newId = some saved ∧
      (findPrediction store2 newId).map (fun p => p.status) = some .ARCHIVED := by
  have hv : ¬ ((Prediction.ofData newId data).confidenceScore < 0 ∨
      1 < (Prediction.ofData newId data).confidenceScore) := by
    simp only [Prediction.ofData]
    push_neg
    exact hvalid
  have hst : (Prediction.ofData newId data).status = .ACTIVE := by
    rcases hstatus with h | h <;> simp [Prediction.ofData, h]
  have hpre : preSave now (Prediction.ofData newId data) =
      { Prediction.ofData newId data with status := .ARCHIVED } := by
    unfold preSave
    rw [if_pos ⟨hexpired, hst⟩]
  have hfind : findPrediction (store ++ [preSave now (Prediction.ofData newId data)]) newId =
      some (preSave now (Prediction.ofData newId data)) := by
    unfold findPrediction
    rw [List.find?_append]
    have hnone : store.find? (fun p => p.id = newId) = none := by
      rw [List.find?_eq_none]
      intro p hp
      simpa using hfresh p hp
    rw [hnone, hpre]
    simp [Prediction.ofData]
  refine ⟨preSave now (Prediction.ofData newId data),
    store ++ [preSave now (Prediction.ofData newId data)], ?_, ?_, by simp, hfind, ?_⟩
  · simp only [savePrediction, Prediction.validate, if_neg hv, bind, Except.bind, pure,
      Except.pure]
  · rw [hpre]
  · rw [hfind, hpre]
    rfl

theorem savePrediction_archives_expired_witness :
    ∃ saved store2, savePrediction 1000 [] 7 expiredData = .ok (saved, store2) ∧
      saved.status = .ARCHIVED ∧ saved ∈ store2 ∧
      findPrediction store2 7 = some saved ∧
      (findPrediction store2 7).map (fun p => p.status) = some .ARCHIVED :=
  savePrediction_archives_expired 1000 [] 7 expiredData (by decide!) (by decide) (by decide)
    (by decide)

/-! ## Archival of predictions -/

/-- Amended claim C21: the repository archives a prediction when it is saved
(the `pre('save')` hook) or swept, never when it is read.  The one read path,
the query of `getPredictionAccuracy`, returns exactly the stored predictions
whose stored status is `ARCHIVED` and whose `validUntil` is at most thirty days
old, each as stored; a stored `ACTIVE` prediction, expired or not, is not
returned.  The read leaves the collection as it was, so that prediction stays
`ACTIVE` in it; and after any operation on the collection, a prediction with
status `ARCHIVED` was stored so before, or was `ACTIVE` with a `validUntil`
more than thirty days old and has been archived by the sweep, or is the
document just saved, as the `pre('save')` hook left it. -/
theorem findArchivedRecent_returns_stored (now : Int) (store : List Prediction) :
    (∀ p, p ∈ findArchivedRecent now store ↔
      p ∈ store ∧ p.status = .ARCHIVED ∧ now - thirtyDaysMs ≤ p.validUntil) ∧
    (∀ p ∈ store, p.status = .ACTIVE → p ∉ findArchivedRecent now store) ∧
    (getPredictionAccuracy now store).1.totalPredictions = (findArchivedRecent now store).length ∧
    (getPredictionAccuracy now store).2 = store ∧
    StoreOp.run now store .read = store ∧
    (∀ p ∈ store, p.status = .ACTIVE → p ∈ StoreOp.run now store .read) ∧
    (∀ (op : StoreOp) (q : Prediction), q ∈ op.run now store → q.status = .ARCHIVED →
      q ∈ store ∨
      (op = .sweep ∧ ∃ p ∈ store, p.status = .ACTIVE ∧ p.validUntil < now - thirtyDaysMs ∧
        q = { p with status := .ARCHIVED }) ∨
      (∃ newId data, op = .save newId data ∧ q = preSave now (Prediction.ofData newId data))) := by
  refine ⟨?_, ?_, rfl, rfl, rfl, fun p hp _ => hp, ?_⟩
  · intro p
    simp [findArchivedRecent, List.mem_filter]
  · intro p _ hact hmem
    have := (List.mem_filter.mp hmem).2
    simp [hact] at this
  · intro op q hq hst
    cases op with
    | read => left; exact hq
    | sweep =>
      obtain ⟨p, hp, rfl⟩ := List.mem_map.mp hq
      by_cases hc : p.validUntil < now - thirtyDaysMs ∧ p.status = .ACTIVE
      · right; left
        refine ⟨rfl, p, hp, hc.2, hc.1, ?_⟩
        simp only [archiveIfOld, if_pos hc]
      · left
        simp only [archiveIfOld, if_neg hc]
        exact hp
    | save newId data =>
      simp only [StoreOp.run, savePrediction, bind, Except.bind, pure, Except.pure] at hq
      cases hv : (Prediction.ofData newId data).validate with
      | error e =>
        rw [hv] at hq
        left; exact hq
      | ok u =>
        rw [hv] at hq
        rcases List.mem_append.mp hq with h | h
        · left; exact h
        · right; right
          exact ⟨newId, data, rfl, List.mem_singleton.mp h⟩

theorem findArchivedRecent_returns_stored_witness :
    shortLivedPrediction ∉ findArchivedRecent 1000 [shortLivedPrediction] ∧
      shortLivedPrediction ∈ StoreOp.run 1000 [shortLivedPrediction] .read :=
  ⟨(findArchivedRecent_returns_stored 1000 [shortLivedPrediction]).2.1 shortLivedPrediction
      (List.mem_singleton.mpr rfl) rfl,
   (findArchivedRecent_returns_stored 1000 [shortLivedPrediction]).2.2.2.2.2.1
      shortLivedPrediction (List.mem_singleton.mpr rfl) rfl⟩

/-- Counterexample to claim C21 as stated: a prediction saved at time 100 with
`validUntil = 500` is stored `ACTIVE`; at the read time 1000 it has expired
and no sweep has run, yet the read returns nothing for it (in particular not
the prediction with status `ARCHIVED`), the collection after the read is the
one before it, and the stored status is still `ACTIVE`. -/
theorem expired_active_not_archived_on_read :
    savePrediction 100 [] 7 shortLivedData =
      .ok (shortLivedPrediction, [shortLivedPrediction]) ∧
    shortLivedPrediction.status = .ACTIVE ∧ shortLivedPrediction.validUntil < 1000 ∧
    findArchivedRecent 1000 [shortLivedPrediction] = [] ∧
    (getPredictionAccuracy 1000 [shortLivedPrediction]).2 = [shortLivedPrediction] ∧
    (findPrediction [shortLivedPrediction] 7).map (fun p => p.status) = some .ACTIVE := by
  decide!


/-- Amended claim C22: after the archival sweep of `cleanupOldData` run at
time `t`, every prediction that was `ACTIVE` with a `validUntil` earlier than
`t` minus thirty days has status `ARCHIVED`, and every other prediction is
left as it was; in particular an `ACTIVE` prediction that expired less than
thirty days before the sweep stays `ACTIVE`. -/
theorem cleanupOldData_archives_old (t : Int) (store : List Prediction) :
    (cleanupOldData t store).length = store.length ∧
    (∀ i : Nat, (cleanupOldData t store)[i]? = (store[i]?).map (archiveIfOld t)) ∧
    (∀ p : Prediction, p.status = .ACTIVE → p.validUntil < t - thirtyDaysMs →
      (archiveIfOld t p).status = .ARCHIVED) ∧
    (∀ p : Prediction, ¬ (p.status = .ACTIVE ∧ p.validUntil < t - thirtyDaysMs) →
      archiveIfOld t p = p) := by
  refine ⟨by simp [cleanupOldData], fun i => by simp [cleanupOldData], ?_, ?_⟩
  · intro p hs hv
    simp [archiveIfOld, hs, hv]
  · intro p hp
    have : ¬ (p.validUntil < t - thirtyDaysMs ∧ p.status = .ACTIVE) := fun h => hp ⟨h.2, h.1⟩
    simp only [archiveIfOld, if_neg this]

theorem cleanupOldData_archives_old_witness :
    (archiveIfOld (500 + thirtyDaysMs + 1) shortLivedPrediction).status = .ARCHIVED ∧
    archiveIfOld 1000 shortLivedPrediction = shortLivedPrediction :=
  ⟨(cleanupOldData_archives_old (500 + thirtyDaysMs + 1) []).2.2.1 shortLivedPrediction rfl
      (by decide),
   (cleanupOldData_archives_old 1000 []).2.2.2 shortLivedPrediction (by decide)⟩

/-- Counterexample to claim C22 as stated: a prediction that is `ACTIVE` with
`validUntil = 500` has expired at the sweep time 1000, and the sweep leaves
it `ACTIVE`: it archives only what expired more than thirty days earlier. -/
theorem sweep_leaves_recently_expired_active :
    shortLivedPrediction.status = .ACTIVE ∧ shortLivedPrediction.validUntil < 1000 ∧
    cleanupOldData 1000 [shortLivedPrediction] = [shortLivedPrediction] := by
  decide!

/-- Claim C23: neither the `pre('save')` hook nor the archival sweep changes an
`ARCHIVED` prediction to another status, neither changes a `PENDING`
prediction, and neither changes any field other than `status`. -/
theorem archival_never_reverts (now : Int) (p : Prediction) (store : List Prediction) :
    (p.status = .ARCHIVED → preSave now p = p ∧ archiveIfOld now p = p) ∧
    (p.status = .PENDING → preSave now p = p ∧ archiveIfOld now p = p) ∧
    { preSave now p with status := p.status } = p ∧
    { archiveIfOld now p with status := p.status } = p ∧
    (∀ q ∈ cleanupOldData now store, ∃ q0 ∈ store, { q with status := q0.status } = q0 ∧
      (q0.status = .ARCHIVED → q.status = .ARCHIVED) ∧
      (q0.status = .PENDING → q.status = .PENDING)) := by
  have hfields : ∀ r : Prediction, { preSave now r with status := r.status } = r ∧
      { archiveIfOld now r with status := r.status } = r := by
    intro r
    unfold preSave archiveIfOld
    constructor <;> split_ifs <;> rfl
  have hkeep : ∀ r : Prediction, r.status ≠ .ACTIVE → preSave now r = r ∧ archiveIfOld now r = r := by
    intro r hr
    unfold preSave archiveIfOld
    constructor <;> rw [if_neg (fun h => hr h.2)]
  refine ⟨fun h => hkeep p (by rw [h]; decide), fun h => hkeep p (by rw [h]; decide),
    (hfields p).1, (hfields p).2, ?_⟩
  intro q hq
  obtain ⟨q0, hq0, rfl⟩ := List.mem_map.mp hq
  refine ⟨q0, hq0, (hfields q0).2, ?_, ?_⟩
  · intro h; rw [(hkeep q0 (by rw [h]; decide)).2]; exact h
  · intro h; rw [(hkeep q0 (by rw [h]; decide)).2]; exact h

theorem archival_never_reverts_witness :
    preSave 1000 { shortLivedPrediction with status := .ARCHIVED } =
        { shortLivedPrediction with status := .ARCHIVED } ∧
      archiveIfOld 1000 { shortLivedPrediction with status := .ARCHIVED } =
        { shortLivedPrediction with status := .ARCHIVED } :=
  (archival_never_reverts 1000 { shortLivedPrediction with status := .ARCHIVED } []).1 rfl

/-- Claim C24: at a fixed time the archival sweep and the `pre('save')` rule are
idempotent, and they commute on every prediction: the sweep after the rule
and the rule after the sweep give the same prediction, hence the same
status. -/
theorem archival_idempotent_commutes (now : Int) (store : List Prediction) (p : Prediction) :
    cleanupOldData now (cleanupOldData now store) = cleanupOldData now store ∧
    preSave now (preSave now p) = preSave now p ∧
    archiveIfOld now (preSave now p) = preSave now (archiveIfOld now p) ∧
    (archiveIfOld now (preSave now p)).status = (preSave now (archiveIfOld now p)).status := by
  have hthirty : (0 : Int) < thirtyDaysMs := by decide
  have hidem : ∀ r : Prediction, archiveIfOld now (archiveIfOld now r) = archiveIfOld now r := by
    intro r
    unfold archiveIfOld
    split_ifs <;> simp_all
  have hcomm : archiveIfOld now (preSave now p) = preSave now (archiveIfOld now p) := by
    unfold archiveIfOld preSave
    split_ifs <;> simp_all
  refine ⟨?_, ?_, hcomm, by rw [hcomm]⟩
  · simp only [cleanupOldData, List.map_map]
    exact List.map_congr_left (fun r _ => hidem r)
  · unfold preSave
    split_ifs <;> simp_all

/-! ## A horizon below one day -/

/-- Claim C29: on a record set with at least `minDataPoints` records and a
horizon `forecastDays ≤ 0`, `generateForecast` returns no result: the loop
builds an empty list of predictions, `generateRecommendations` throws on it
and the error reaches the caller.  The inventory-forecast endpoint turns a
missing, non-numeric or zero `days` into 30 and passes a negative value on
unchanged, so that a negative `days` makes the endpoint fail. -/
theorem nonpositive_horizon_throws (cfg : Config) (salesData : List SalesRecord) (now : Int)
    (forecastDays : Option Int) (hmin : ¬ (salesData.length : Int) < cfg.minDataPoints)
    (hh : forecastDays.getD cfg.forecastDays ≤ 0) :
    generateForecast cfg salesData now forecastDays =
      .error "mean requires at least one data point" ∧
    (List.range (forecastDays.getD cfg.forecastDays).toNat).map (fun (j : Nat) => j + 1) = [] ∧
    (∀ (t : TrendAnalysis) (avg : JSNum),
      generateRecommendations [] t avg = .error "mean requires at least one data point") ∧
    parseIntOr none 30 = 30 ∧ parseIntOr (some 0) 30 = 30 ∧
    (∀ d : Int, d < 0 → parseIntOr (some d) 30 = d ∧
      getInventoryForecast cfg salesData now (some d) =
        .error "mean requires at least one data point") := by
  have hempty : ∀ h : Int, h ≤ 0 → (List.range h.toNat).map (fun (j : Nat) => j + 1) = [] := by
    intro h hle
    have : h.toNat = 0 := by omega
    rw [this]
    rfl
  have hrec : ∀ (t : TrendAnalysis) (avg : JSNum),
      generateRecommendations [] t avg = .error "mean requires at least one data point" := by
    intro t avg
    rfl
  have hthrow : ∀ fd : Option Int, fd.getD cfg.forecastDays ≤ 0 →
      generateForecast cfg salesData now fd = .error "mean requires at least one data point" := by
    intro fd hfd
    have hlen : ¬ (prepareTimeSeriesData salesData).x.length ≠
        (exponentialSmoothing (prepareTimeSeriesData salesData).y defaultAlpha).length := by
      rw [exponentialSmoothing_length, prepareTimeSeriesData_x, indices_length]
      simp
    unfold generateForecast
    simp only [hmin, if_false, SLR.create, if_neg hlen, bind, Except.bind, hempty _ hfd,
      forecastLoop]
    cases hm : mean ((prepareTimeSeriesData salesData).y.map fin) with
    | error e =>
      have : (prepareTimeSeriesData salesData).y.map fin = [] := by
        by_contra hne
        rw [mean_ok_of_ne_nil _ hne] at hm
        cases hm
      rw [this] at hm
      cases hm
      rfl
    | ok avg => simp only [hrec]
  refine ⟨hthrow forecastDays hh, hempty _ hh, hrec, rfl, rfl, ?_⟩
  intro d hd
  have hp : parseIntOr (some d) 30 = d := by
    have : d ≠ 0 := by omega
    simp [parseIntOr, this]
  refine ⟨hp, ?_⟩
  unfold getInventoryForecast
  rw [hp]
  exact hthrow (some d) (by simpa using hd.le)

theorem nonpositive_horizon_throws_witness :
    generateForecast defaultConfig constantSales (40 * msPerDay) (some (-3)) =
      .error "mean requires at least one data point" ∧
    getInventoryForecast defaultConfig constantSales (40 * msPerDay) (some (-3)) =
      .error "mean requires at least one data point" :=
  have h := nonpositive_horizon_throws defaultConfig constantSales (40 * msPerDay) (some (-3))
    (by decide) (by decide)
  ⟨h.1, (h.2.2.2.2.2 (-3) (by decide)).2⟩

/-! ## Seasonality and non-negative quantities -/

theorem sum_pos_of_mem_pos (l : List ℚ) (hnn : ∀ v ∈ l, 0 ≤ v) (a : ℚ) (ha : a ∈ l)
    (hpos : 0 < a) : 0 < l.sum := by
  rcases (List.sum_nonneg hnn).lt_or_eq with h | h
  · exact h
  · have := sum_eq_zero_of_nonneg l hnn h.symm a ha
    linarith

theorem le_sum_of_mem (l : List ℚ) (hnn : ∀ v ∈ l, 0 ≤ v) (a : ℚ) (ha : a ∈ l) : a ≤ l.sum := by
  induction l with
  | nil => simp at ha
  | cons b l ih =>
    have hb : 0 ≤ b := hnn b (List.mem_cons_self _ _)
    have hrest : ∀ v ∈ l, 0 ≤ v := fun v hv => hnn v (List.mem_cons_of_mem _ hv)
    rw [List.sum_cons]
    rcases List.mem_cons.mp ha with rfl | ha
    · linarith [List.sum_nonneg hrest]
    · linarith [ih hrest ha]

/-- With non-negative quantities, a seasonality factor that is applied (one
that is not zero) comes with a strictly positive mean of the aggregated
values: the division `factor / avgSales` is never a division by zero. -/
theorem applied_factor_mean_pos (salesData : List SalesRecord)
    (hnn : ∀ s ∈ salesData, 0 ≤ s.quantity) (d : Nat) (factor : JSNum)
    (hl : (detectSeasonality salesData).lookup d = some factor) (ht : factor.truthy = true) :
    0 < average (prepareTimeSeriesData salesData).y := by
  rw [detectSeasonality_lookup] at hl
  split_ifs at hl with hex
  cases hl
  have hq : average (quantitiesOnWeekday salesData d) ≠ 0 := by simpa [truthy] using ht
  have hsome : ∃ s ∈ salesData, 0 < s.quantity := by
    by_contra hno
    push_neg at hno
    apply hq
    have hall : ∀ a ∈ quantitiesOnWeekday salesData d, a = 0 := by
      intro a ha
      obtain ⟨s, hs, rfl⟩ := List.mem_map.mp ha
      have hsm := List.mem_of_mem_filter hs
      exact le_antisymm (hno s hsm) (hnn s hsm)
    have hne : quantitiesOnWeekday salesData d ≠ [] := by
      obtain ⟨s, hs, hd⟩ := hex
      intro h0
      have hmem : s.quantity ∈ quantitiesOnWeekday salesData d :=
        List.mem_map.mpr ⟨s, List.mem_filter.mpr ⟨hs, by simpa using hd⟩, rfl⟩
      rw [h0] at hmem
      simp at hmem
    exact average_of_const _ 0 hne hall
  obtain ⟨s, hs, hspos⟩ := hsome
  have hne : salesData ≠ [] := List.ne_nil_of_mem hs
  obtain ⟨dates, -, -, hy, -, -, hm, -⟩ := prepareTimeSeriesData_spec salesData hne
  have hday : calendarDay s.date ∈ dates := (hm _).mpr ⟨s, hs, rfl⟩
  have htot_nn : ∀ D, 0 ≤ totalOnDay salesData D := by
    intro D
    apply List.sum_nonneg
    intro v hv
    obtain ⟨r, hr, rfl⟩ := List.mem_map.mp hv
    exact hnn r (List.mem_of_mem_filter hr)
  have htot_pos : 0 < totalOnDay salesData (calendarDay s.date) := by
    have hle : s.quantity ≤ totalOnDay salesData (calendarDay s.date) := by
      apply le_sum_of_mem
      · intro v hv
        obtain ⟨r, hr, rfl⟩ := List.mem_map.mp hv
        exact hnn r (List.mem_of_mem_filter hr)
      · exact List.mem_map.mpr ⟨s, List.mem_filter.mpr ⟨hs, by simp⟩, rfl⟩
    linarith
  have hsum : 0 < (dates.map (totalOnDay salesData)).sum :=
    sum_pos_of_mem_pos _
      (by
        intro v hv
        obtain ⟨D, -, rfl⟩ := List.mem_map.mp hv
        exact htot_nn D)
      _ (List.mem_map.mpr ⟨_, hday, rfl⟩) htot_pos
  have hlen : (0 : ℚ) < ((dates.map (totalOnDay salesData)).length : ℚ) := by
    have : dates ≠ [] := List.ne_nil_of_mem hday
    have : 0 < dates.length := List.length_pos.mpr this
    simpa using this
  rw [hy]
  exact div_pos hsum hlen

/-- With every quantity zero, every seasonality factor is zero, so that none
is applied. -/
theorem zero_sales_factor_not_applied (salesData : List SalesRecord)
    (hz : ∀ s ∈ salesData, s.quantity = 0) (d : Nat) (factor : JSNum)
    (hl : (detectSeasonality salesData).lookup d = some factor) : factor.truthy = false := by
  rw [detectSeasonality_lookup] at hl
  split_ifs at hl with hex
  cases hl
  have hall : ∀ a ∈ quantitiesOnWeekday salesData d, a = 0 := by
    intro a ha
    obtain ⟨s, hs, rfl⟩ := List.mem_map.mp ha
    exact hz s (List.mem_of_mem_filter hs)
  have hne : quantitiesOnWeekday salesData d ≠ [] := by
    obtain ⟨s, hs, hd⟩ := hex
    intro h0
    have hmem : s.quantity ∈ quantitiesOnWeekday salesData d :=
      List.mem_map.mpr ⟨s, List.mem_filter.mpr ⟨hs, by simpa using hd⟩, rfl⟩
    rw [h0] at hmem
    simp at hmem
  rw [average_of_const _ 0 hne hall]
  simp [truthy]

/-- With every quantity zero and records on at least two calendar days, every
forecast quantity of a successful forecast is `0`. -/
theorem zero_sales_forecast (cfg : Config) (salesData : List SalesRecord) (now : Int)
    (forecastDays : Option Int) (f : Forecast) (hz : ∀ s ∈ salesData, s.quantity = 0)
    (h2 : 2 ≤ (prepareTimeSeriesData salesData).y.length)
    (hf : generateForecast cfg salesData now forecastDays = .ok (.success f)) :
    ∀ p ∈ f.predictions, p.forecastedQuantity = fin 0 := by
  have hne : salesData ≠ [] := by
    intro h
    rw [h] at h2
    simp [prepareTimeSeriesData] at h2
  obtain ⟨dates, -, -, hy, -, -, -, -⟩ := prepareTimeSeriesData_spec salesData hne
  have hy0 : (prepareTimeSeriesData salesData).y =
      List.replicate (prepareTimeSeriesData salesData).y.length 0 := by
    apply List.eq_replicate_of_mem
    intro a ha
    rw [hy] at ha
    obtain ⟨D, -, rfl⟩ := List.mem_map.mp ha
    unfold totalOnDay
    apply List.sum_eq_zero
    intro v hv
    obtain ⟨r, hr, rfl⟩ := List.mem_map.mp hv
    exact hz r (List.mem_of_mem_filter hr)
  obtain ⟨-, slr, avg, hs, hp, -, -, -, -, -, -, -⟩ := generateForecast_success_inv hf
  have hslr : slr = regress (prepareTimeSeriesData salesData).x
      (exponentialSmoothing (prepareTimeSeriesData salesData).y defaultAlpha) := by
    unfold SLR.create at hs
    split_ifs at hs
    exact (Except.ok.inj hs).symm
  rw [hslr, forecastLoop_eq salesData now _ hne] at hp
  have hp' := (Except.ok.inj hp).symm
  obtain ⟨l, hl⟩ := lastIndexOf_indices (prepareTimeSeriesData salesData).y.length (by omega)
  have havg : average (List.replicate (prepareTimeSeriesData salesData).y.length (0 : ℚ)) = 0 :=
    average_of_const _ _
      (by
        intro h
        have h3 := congrArg List.length h
        rw [List.length_replicate, List.length_nil] at h3
        omega)
      (fun a ha => (List.mem_replicate.mp ha).2)
  intro p hpmem
  rw [hp'] at hpmem
  obtain ⟨i, -, rfl⟩ := List.mem_map.mp hpmem
  have hr := round_natCast 0
  have hmx := max_zero_natCast 0
  simp only [Nat.cast_zero] at hr hmx
  rw [prepareTimeSeriesData_x, hy0]
  simp only [List.length_replicate, smoothing_of_replicate, regress_constant _ 0 h2, hl, havg,
    adjustedProjection_constant salesData 0 l now i hz, hr, hmx]

/-- Evaluation for claim C27: thirty records of quantity zero that all fall on
one calendar day are non-negative and all zero; no seasonality factor is
applied (the one entry of the mapping is zero), but the forecast quantities
are `NaN`, not `0`. -/
theorem zero_single_day_forecast_nan :
    (∀ s ∈ zeroSingleDaySales, s.quantity = 0) ∧
    detectSeasonality zeroSingleDaySales = [(4, fin 0)] ∧
    forecastQuantities (generateForecast defaultConfig zeroSingleDaySales 0 (some 2)) =
      some [nan, nan] := by
  decide!

/-! ## The daily prediction job -/

theorem jobPayload_categoryId (now : Int) (categoryId : String) (forecast : Forecast) :
    (jobPayload now categoryId forecast).categoryId = categoryId := rfl

theorem dailyPredictionStep_calls (run : CategoryRun) :
    forecastCalls (dailyPredictionStep run) = [run.categoryId] ∧
    saveCalls (dailyPredictionStep run) = (if run.forecastSucceeded then [run.categoryId] else []) ∧
    savedCategories (dailyPredictionStep run) = (if run.jobSaved then [run.categoryId] else []) := by
  unfold dailyPredictionStep CategoryRun.forecastSucceeded CategoryRun.jobSaved
  cases hf : run.forecast with
  | error e => simp [forecastCalls, saveCalls, savedCategories]
  | ok r =>
    cases r with
    | insufficient a b => simp [forecastCalls, saveCalls, savedCategories]
    | success forecast =>
      cases hs : run.save (jobPayload run.now run.categoryId forecast) with
      | error e => simp [forecastCalls, saveCalls, savedCategories, hs, jobPayload_categoryId]
      | ok id => simp [forecastCalls, saveCalls, savedCategories, hs, jobPayload_categoryId]


/-- Amended claim C25: whatever the outcome of each call, the daily job calls
`generateForecast` exactly once for every category, in list order, so that an
error thrown for one category does not stop the later ones; it calls
`savePrediction` for exactly the categories whose forecast returned
`success: true`, and a prediction is saved for exactly those of them whose
`savePrediction` did not throw. -/
theorem generateDailyPredictions_isolates (runs : List CategoryRun) :
    forecastCalls (generateDailyPredictions runs) = runs.map (fun run => run.categoryId) ∧
    saveCalls (generateDailyPredictions runs) =
      (runs.filter (fun run => run.forecastSucceeded)).map (fun run => run.categoryId) ∧
    savedCategories (generateDailyPredictions runs) =
      (runs.filter (fun run => run.jobSaved)).map (fun run => run.categoryId) ∧
    (runs.map (fun run => run.categoryId) = CATEGORIES →
      forecastCalls (generateDailyPredictions runs) = CATEGORIES) := by
  have h : forecastCalls (generateDailyPredictions runs) = runs.map (fun run => run.categoryId) ∧
      saveCalls (generateDailyPredictions runs) =
        (runs.filter (fun run => run.forecastSucceeded)).map (fun run => run.categoryId) ∧
      savedCategories (generateDailyPredictions runs) =
        (runs.filter (fun run => run.jobSaved)).map (fun run => run.categoryId) := by
    induction runs with
    | nil => exact ⟨rfl, rfl, rfl⟩
    | cons run runs ih =>
      obtain ⟨h1, h2, h3⟩ := dailyPredictionStep_calls run
      obtain ⟨i1, i2, i3⟩ := ih
      unfold generateDailyPredictions at i1 i2 i3 ⊢
      unfold forecastCalls saveCalls savedCategories at *
      rw [List.flatMap_cons, List.filterMap_append, List.filterMap_append, List.filterMap_append,
        h1, h2, h3, i1, i2, i3]
      refine ⟨rfl, ?_, ?_⟩
      · cases hsucc : run.forecastSucceeded <;> simp [List.filter_cons, hsucc]
      · cases hsaved : run.jobSaved <;> simp [List.filter_cons, hsaved]
  exact ⟨h.1, h.2.1, h.2.2, fun hc => by rw [h.1, hc]⟩

theorem generateDailyPredictions_isolates_witness :
    forecastCalls (generateDailyPredictions
      (CATEGORIES.map (fun c =>
        { categoryId := c, now := 0, forecast := .error "no connection",
          save := fun _ => .error "no connection" }))) = CATEGORIES :=
  (generateDailyPredictions_isolates
    (CATEGORIES.map (fun c =>
      { categoryId := c, now := 0, forecast := .error "no connection",
        save := fun _ => .error "no connection" }))).2.2.2 (by decide)

/-- Counterexample to claim C25 as stated: the forecast of `BOOKS` returns
`success: true` and `savePrediction` throws; the job calls `savePrediction`
once and no prediction is saved for `BOOKS`. -/
theorem failed_save_is_not_saved :
    failingSaveRun.forecastSucceeded = true ∧
    saveCalls (generateDailyPredictions [failingSaveRun]) = ["BOOKS"] ∧
    savedCategories (generateDailyPredictions [failingSaveRun]) = [] := by
  decide!

/-! ## The admin endpoint -/

theorem adminEntry_categoryId (run : CategoryRun) :
    (adminEntry run).categoryId = run.categoryId := by
  unfold adminEntry
  cases hf : run.forecast with
  | error e => rfl
  | ok r =>
    cases r with
    | insufficient a b => rfl
    | success forecast =>
      cases hs : run.save (adminPayload run.now run.categoryId forecast) with
      | error e => simp [hs, ResultEntry.categoryId]
      | ok id => simp [hs, ResultEntry.categoryId]

/-- Claim C30: the results of the admin endpoint have one entry per element of
`categoryIds`, in the same order; the entry of a category is `success`, with
the identifier of the saved prediction, iff its forecast returned
`success: true` and the save went through, `failed`, with the message of the
forecast, iff the forecast returned `success: false`, and `error` iff
`generateForecast` or `savePrediction` threw; and the saved prediction has the
`historicalAverage` of the forecast as `forecastedValue` and as
`historicalData.averageValue`, and its `confidenceScore` as
`confidenceScore`. -/
theorem generatePredictions_results (runs : List CategoryRun) :
    (generatePredictions runs).length = runs.length ∧
    (generatePredictions runs).map (fun e => e.categoryId) =
      runs.map (fun run => run.categoryId) ∧
    (∀ (i : Nat) (run : CategoryRun), runs[i]? = some run →
      (generatePredictions runs)[i]? = some (adminEntry run) ∧
      (∀ id : Nat, adminEntry run = .success run.categoryId id ↔
        ∃ forecast, run.forecast = .ok (.success forecast) ∧
          run.save (adminPayload run.now run.categoryId forecast) = .ok id) ∧
      ((adminEntry run).status = "success" ↔
        ∃ forecast id, run.forecast = .ok (.success forecast) ∧
          run.save (adminPayload run.now run.categoryId forecast) = .ok id) ∧
      ((adminEntry run).status = "failed" ↔
        ∃ n m, run.forecast = .ok (.insufficient n m)) ∧
      ((adminEntry run).status = "failed" →
        adminEntry run = .failed run.categoryId insufficientMessage) ∧
      ((adminEntry run).status = "error" ↔
        (∃ e, run.forecast = .error e) ∨
          ∃ forecast e, run.forecast = .ok (.success forecast) ∧
            run.save (adminPayload run.now run.categoryId forecast) = .error e)) ∧
    (∀ e ∈ adminSaved runs, ∃ run ∈ runs, ∃ forecast,
      run.forecast = .ok (.success forecast) ∧
      e.2.forecastedValue = forecast.historicalAverage ∧
      e.2.historicalData.averageValue = forecast.historicalAverage ∧
      e.2.confidenceScore = forecast.confidenceScore ∧
      e.2.categoryId = run.categoryId) := by
  refine ⟨by simp [generatePredictions], ?_, ?_, ?_⟩
  · simp only [generatePredictions, List.map_map]
    apply List.map_congr_left
    intro run _
    exact adminEntry_categoryId run
  · intro i run hrun
    refine ⟨by simp [generatePredictions, hrun], ?_⟩
    unfold adminEntry
    cases hf : run.forecast with
    | error e => simp [ResultEntry.status]
    | ok r =>
      cases r with
      | insufficient a b => simp [ResultEntry.status]
      | success forecast =>
        cases hs : run.save (adminPayload run.now run.categoryId forecast) with
        | error e => simp [ResultEntry.status, hs]
        | ok id => simp [ResultEntry.status, hs]
  · intro e he
    obtain ⟨run, hrun, hsome⟩ := List.mem_filterMap.mp he
    cases hf : run.forecast with
    | error err => simp [hf] at hsome
    | ok r =>
      cases r with
      | insufficient a b => simp [hf] at hsome
      | success forecast =>
        cases hs : run.save (adminPayload run.now run.categoryId forecast) with
        | error err => simp [hf, hs] at hsome
        | ok id =>
          simp only [hf, hs, Option.some.injEq] at hsome
          subst hsome
          exact ⟨run, hrun, forecast, hf, rfl, rfl, rfl, rfl⟩

theorem generatePredictions_results_witness :
    (generatePredictions [savedRun, failingSaveRun])[0]? = some (adminEntry savedRun) ∧
    (adminEntry savedRun = .success savedRun.categoryId 11 ↔
      ∃ forecast, savedRun.forecast = .ok (.success forecast) ∧
        savedRun.save (adminPayload savedRun.now savedRun.categoryId forecast) = .ok 11) :=
  have h := (generatePredictions_results [savedRun, failingSaveRun]).2.2.1 0 savedRun rfl
  ⟨h.1, h.2.1 11⟩

/-- The scenario of the admin endpoint on two categories: the first is saved
with identifier 11, the save of the second throws. -/
theorem generatePredictions_scenario :
    generatePredictions [savedRun, failingSaveRun] =
      [.success "TOYS" 11, .error "BOOKS" "connection lost"] := by
  decide!

/-! ## Rounding to binary64 -/

namespace Binary64

theorem pow2_eq_zpow (k : ℤ) : pow2 k = (2 : ℚ) ^ k := by
  unfold pow2
  split_ifs with h
  · lift k to ℕ using h
    simp
  · have hk : 0 ≤ -k := by omega
    obtain ⟨n, hn⟩ := Int.eq_ofNat_of_zero_le hk
    have hkn : k = -(n : ℤ) := by omega
    subst hkn
    simp [zpow_neg]

theorem pow2_pos (k : ℤ) : 0 < pow2 k := by
  rw [pow2_eq_zpow]; positivity

theorem pow2_add (a b : ℤ) : pow2 (a + b) = pow2 a * pow2 b := by
  simp only [pow2_eq_zpow]
  exact zpow_add₀ (by norm_num) a b

theorem pow2_le_pow2 {a b : ℤ} (h : a ≤ b) : pow2 a ≤ pow2 b := by
  simp only [pow2_eq_zpow]
  exact zpow_le_zpow_right₀ (by norm_num) h

theorem pow2_lt_pow2 {a b : ℤ} (h : a < b) : pow2 a < pow2 b := by
  simp only [pow2_eq_zpow]
  exact zpow_lt_zpow_right₀ (by norm_num) h

theorem pow2_natCast (n : ℕ) : pow2 (n : ℤ) = (2 : ℚ) ^ n := by
  rw [pow2_eq_zpow, zpow_natCast]

theorem log2Bound_spec (n fuel j : ℕ) (h : n < 2 ^ 2 ^ (j + fuel)) :
    n < 2 ^ 2 ^ log2Bound n fuel j := by
  induction fuel generalizing j with
  | zero => simpa [log2Bound] using h
  | succ fuel ih =>
    simp only [log2Bound]
    split_ifs with hj
    · exact hj
    · exact ih (j + 1) (by rw [show j + 1 + fuel = j + (fuel + 1) by omega]; exact h)

theorem log2Search_spec (n s k : ℕ) (h1 : 2 ^ k ≤ n) (h2 : n < 2 ^ (k + 2 ^ s)) :
    2 ^ log2Search n s k ≤ n ∧ n < 2 ^ (log2Search n s k + 1) := by
  induction s generalizing k with
  | zero => exact ⟨h1, by simpa [log2Search] using h2⟩
  | succ s ih =>
    simp only [log2Search]
    split_ifs with hc
    · exact ih (k + 2 ^ s) hc (by rw [add_assoc, ← two_mul, ← pow_succ']; exact h2)
    · exact ih k h1 (not_le.mp hc)

theorem natLog2_spec (n : ℕ) (hn : n ≠ 0) : 2 ^ natLog2 n ≤ n ∧ n < 2 ^ (natLog2 n + 1) := by
  have hb : n < 2 ^ 2 ^ log2Bound n n 0 := by
    apply log2Bound_spec
    rw [Nat.zero_add]
    have h1 : n < 2 ^ n := Nat.lt_two_pow n
    have h2 : 2 ^ n ≤ 2 ^ 2 ^ n := Nat.pow_le_pow_right (by norm_num) h1.le
    omega
  exact log2Search_spec n _ 0 (by simpa using Nat.one_le_iff_ne_zero.mpr hn) (by simpa using hb)

theorem abs_eq_natAbs_div (q : ℚ) : |q| = (q.num.natAbs : ℚ) / (q.den : ℚ) := by
  have hden : (0 : ℚ) < q.den := by exact_mod_cast q.den_pos
  conv_lhs => rw [← Rat.num_div_den q]
  rw [abs_div, abs_of_pos hden]
  congr 1
  rw [Nat.cast_natAbs, Int.cast_abs]

theorem floorLog2_spec (q : ℚ) (hq : q ≠ 0) :
    pow2 (floorLog2 q) ≤ |q| ∧ |q| < pow2 (floorLog2 q + 1) := by
  have hnum : q.num.natAbs ≠ 0 := by
    intro h
    exact hq (Rat.zero_of_num_zero (Int.natAbs_eq_zero.mp h))
  have hden : q.den ≠ 0 := q.den_nz
  obtain ⟨ha1, ha2⟩ := natLog2_spec _ hnum
  obtain ⟨hb1, hb2⟩ := natLog2_spec _ hden
  have hD : (0 : ℚ) < q.den := by exact_mod_cast q.den_pos
  have ha1' : (2 : ℚ) ^ natLog2 q.num.natAbs ≤ (q.num.natAbs : ℚ) := by exact_mod_cast ha1
  have ha2' : (q.num.natAbs : ℚ) < (2 : ℚ) ^ (natLog2 q.num.natAbs + 1) := by exact_mod_cast ha2
  have hb1' : (2 : ℚ) ^ natLog2 q.den ≤ (q.den : ℚ) := by exact_mod_cast hb1
  have hb2' : (q.den : ℚ) < (2 : ℚ) ^ (natLog2 q.den + 1) := by exact_mod_cast hb2
  have habs := abs_eq_natAbs_div q
  have hup : |q| < pow2 ((natLog2 q.num.natAbs : ℤ) - (natLog2 q.den : ℤ) + 1) := by
    rw [habs, div_lt_iff₀ hD]
    have : pow2 ((natLog2 q.num.natAbs : ℤ) - (natLog2 q.den : ℤ) + 1) * pow2 (natLog2 q.den : ℤ) =
        pow2 ((natLog2 q.num.natAbs + 1 : ℕ) : ℤ) := by
      rw [← pow2_add]; congr 1; push_cast; ring
    calc (q.num.natAbs : ℚ) < (2 : ℚ) ^ (natLog2 q.num.natAbs + 1) := ha2'
      _ = pow2 ((natLog2 q.num.natAbs : ℤ) - (natLog2 q.den : ℤ) + 1) * pow2 (natLog2 q.den : ℤ) := by
          rw [this, pow2_natCast]
      _ ≤ pow2 ((natLog2 q.num.natAbs : ℤ) - (natLog2 q.den : ℤ) + 1) * q.den := by
          apply mul_le_mul_of_nonneg_left _ (pow2_pos _).le
          rw [pow2_natCast]; exact hb1'
  have hlow : pow2 ((natLog2 q.num.natAbs : ℤ) - (natLog2 q.den : ℤ) - 1) ≤ |q| := by
    rw [habs, le_div_iff₀ hD]
    have : pow2 ((natLog2 q.num.natAbs : ℤ) - (natLog2 q.den : ℤ) - 1) *
        pow2 ((natLog2 q.den + 1 : ℕ) : ℤ) = pow2 (natLog2 q.num.natAbs : ℤ) := by
      rw [← pow2_add]; congr 1; push_cast; ring
    calc pow2 ((natLog2 q.num.natAbs : ℤ) - (natLog2 q.den : ℤ) - 1) * q.den
        ≤ pow2 ((natLog2 q.num.natAbs : ℤ) - (natLog2 q.den : ℤ) - 1) *
            pow2 ((natLog2 q.den + 1 : ℕ) : ℤ) := by
          apply mul_le_mul_of_nonneg_left _ (pow2_pos _).le
          rw [pow2_natCast]; exact hb2'.le
      _ = (2 : ℚ) ^ natLog2 q.num.natAbs := by rw [this, pow2_natCast]
      _ ≤ (q.num.natAbs : ℚ) := ha1'
  unfold floorLog2
  simp only
  split_ifs with h
  · exact ⟨h, hup⟩
  · refine ⟨hlow, ?_⟩
    rw [sub_add_cancel]
    exact not_le.mp h

end Binary64

namespace Binary64

theorem roundHalfEven_intCast (m : ℤ) : roundHalfEven (m : ℚ) = m := by
  unfold roundHalfEven
  simp

theorem roundHalfEven_le (x : ℚ) : (roundHalfEven x : ℚ) ≤ x + 1 / 2 := by
  unfold roundHalfEven
  have h1 := Int.floor_le x
  have h2 := Int.lt_floor_add_one x
  simp only
  split_ifs with ha hb hc
  · linarith
  · push_cast; linarith
  · linarith
  · push_cast
    have : x - ⌊x⌋ = 1 / 2 := le_antisymm (not_lt.mp hb) (not_lt.mp ha)
    linarith

theorem le_roundHalfEven (x : ℚ) : x - 1 / 2 ≤ (roundHalfEven x : ℚ) := by
  unfold roundHalfEven
  have h1 := Int.floor_le x
  have h2 := Int.lt_floor_add_one x
  simp only
  split_ifs with ha hb hc
  · linarith
  · push_cast; linarith
  · have : x - ⌊x⌋ = 1 / 2 := le_antisymm (not_lt.mp hb) (not_lt.mp ha)
    linarith
  · push_cast; linarith

theorem roundHalfEven_nonneg {x : ℚ} (hx : 0 ≤ x) : 0 ≤ roundHalfEven x := by
  have hf : 0 ≤ ⌊x⌋ := Int.floor_nonneg.mpr hx
  unfold roundHalfEven
  simp only
  split_ifs <;> omega

theorem roundHalfEven_le_of_le {x : ℚ} {m : ℤ} (h : x ≤ m) : roundHalfEven x ≤ m := by
  have hf : ⌊x⌋ ≤ m := by exact_mod_cast (Int.floor_le x).trans h
  by_cases hm : ⌊x⌋ = m
  · have hx : x = m := le_antisymm h (by rw [← hm]; exact Int.floor_le x)
    rw [hx, roundHalfEven_intCast]
  · have hlt : ⌊x⌋ < m := lt_of_le_of_ne hf hm
    unfold roundHalfEven
    simp only
    split_ifs <;> omega

theorem roundHalfEven_lt_of_lt {x : ℚ} {m : ℤ} (h : x < (m : ℚ) - 1 / 2) :
    roundHalfEven x < m := by
  have h1 := roundHalfEven_le x
  have : (roundHalfEven x : ℚ) < m := by linarith
  exact_mod_cast this

theorem ulp_pos (q : ℚ) : 0 < ulp q := pow2_pos _

theorem overflowThreshold_pos : 0 < overflowThreshold := by
  unfold overflowThreshold
  have := @pow2_lt_pow2 970 1024 (by norm_num)
  linarith

theorem ofRat_of_lt {q : ℚ} (h : |q| < overflowThreshold) :
    ofRat q = fin ((roundHalfEven (q / ulp q) : ℚ) * ulp q) := by
  unfold ofRat
  rw [if_neg (not_le.mpr h)]

theorem ofRat_zero : ofRat 0 = fin 0 := by
  rw [ofRat_of_lt (by rw [abs_zero]; exact overflowThreshold_pos)]
  simp [roundHalfEven]

/-- Rounding keeps the sign: a non-negative value rounds to a non-negative
number or to `+Infinity`. -/
theorem ofRat_nonneg {q : ℚ} (hq : 0 ≤ q) :
    ofRat q = pinf ∨ ∃ r : ℚ, ofRat q = fin r ∧ 0 ≤ r := by
  by_cases h : |q| < overflowThreshold
  · right
    refine ⟨_, ofRat_of_lt h, ?_⟩
    have h1 : 0 ≤ q / ulp q := div_nonneg hq (ulp_pos q).le
    have h2 : (0 : ℚ) ≤ roundHalfEven (q / ulp q) := by exact_mod_cast roundHalfEven_nonneg h1
    exact mul_nonneg h2 (ulp_pos q).le
  · left
    have hT : overflowThreshold ≤ |q| := not_lt.mp h
    have hpos : 0 < q := by
      rcases hq.lt_or_eq with h0 | h0
      · exact h0
      · rw [← h0, abs_zero] at hT
        exact absurd overflowThreshold_pos (not_lt.mpr hT)
    unfold ofRat
    rw [if_pos hT, if_pos hpos]

/-- A value that rounding leaves finite is below the overflow threshold. -/
theorem lt_threshold_of_ofRat_fin {q r : ℚ} (h : ofRat q = fin r) : |q| < overflowThreshold := by
  by_contra hc
  unfold ofRat at h
  rw [if_pos (not_lt.mp hc)] at h
  split_ifs at h

end Binary64

namespace Binary64

theorem le_roundHalfEven_of_le {x : ℚ} {m : ℤ} (h : (m : ℚ) ≤ x) : m ≤ roundHalfEven x := by
  have hf : m ≤ ⌊x⌋ := Int.le_floor.mpr h
  unfold roundHalfEven
  simp only
  split_ifs <;> omega

theorem two_pow_53_lt_threshold : (2 : ℚ) ^ 53 < overflowThreshold := by
  unfold overflowThreshold
  rw [pow2_eq_zpow, pow2_eq_zpow]
  norm_num

theorem pow2_1023_lt_threshold : pow2 1023 < overflowThreshold := by
  unfold overflowThreshold
  rw [pow2_eq_zpow, pow2_eq_zpow, pow2_eq_zpow]
  norm_num

theorem threshold_lt_pow2_1024 : overflowThreshold < pow2 1024 := by
  unfold overflowThreshold
  have := pow2_pos 970
  linarith

/-- Every integer of magnitude below `2 ^ 53` is a binary64 number. -/
theorem ofRat_intCast (k : ℤ) (hk : |k| < 2 ^ 53) : ofRat (k : ℚ) = fin (k : ℚ) := by
  by_cases h0 : k = 0
  · subst h0
    simpa using ofRat_zero
  have hq0 : (k : ℚ) ≠ 0 := by exact_mod_cast h0
  have habs : |(k : ℚ)| < (2 : ℚ) ^ 53 := by
    have : ((|k| : ℤ) : ℚ) < ((2 ^ 53 : ℤ) : ℚ) := by exact_mod_cast hk
    simpa using this
  have hone : (1 : ℚ) ≤ |(k : ℚ)| := by
    have : (1 : ℤ) ≤ |k| := Int.one_le_abs h0
    have : ((1 : ℤ) : ℚ) ≤ ((|k| : ℤ) : ℚ) := by exact_mod_cast this
    simpa using this
  obtain ⟨hlo, hhi⟩ := floorLog2_spec (k : ℚ) hq0
  have he0 : 0 ≤ floorLog2 (k : ℚ) := by
    by_contra hneg
    have h1 : floorLog2 (k : ℚ) + 1 ≤ 0 := by omega
    have h2 := pow2_le_pow2 h1
    have h3 : pow2 0 = 1 := by rw [pow2_eq_zpow]; norm_num
    linarith
  have he52 : floorLog2 (k : ℚ) ≤ 52 := by
    by_contra hbig
    have h1 : (53 : ℤ) ≤ floorLog2 (k : ℚ) := by omega
    have h2 := pow2_le_pow2 h1
    have h3 : pow2 53 = (2 : ℚ) ^ 53 := by rw [pow2_eq_zpow]; norm_num
    linarith
  have hlt : |(k : ℚ)| < overflowThreshold := lt_trans habs two_pow_53_lt_threshold
  rw [ofRat_of_lt hlt]
  have hmax : max (floorLog2 (k : ℚ)) (-1022 : ℤ) = floorLog2 (k : ℚ) := max_eq_left (by omega)
  obtain ⟨j, hj⟩ := Int.eq_ofNat_of_zero_le (show 0 ≤ 52 - floorLog2 (k : ℚ) by omega)
  have hu : ulp (k : ℚ) * (2 : ℚ) ^ j = 1 := by
    unfold ulp
    rw [hmax, ← pow2_natCast, ← pow2_add]
    have : floorLog2 (k : ℚ) - 52 + (j : ℤ) = 0 := by omega
    rw [this, pow2_eq_zpow]; norm_num
  have hupos := ulp_pos (k : ℚ)
  have hdiv : (k : ℚ) / ulp (k : ℚ) = ((k * 2 ^ j : ℤ) : ℚ) := by
    rw [div_eq_iff hupos.ne']
    push_cast
    rw [mul_assoc, mul_comm ((2 : ℚ) ^ j), hu, mul_one]
  rw [hdiv, roundHalfEven_intCast]
  congr 1
  push_cast
  rw [mul_assoc, mul_comm ((2 : ℚ) ^ j), hu, mul_one]

theorem ofRat_natCast (n : ℕ) (hn : n < 2 ^ 53) : ofRat (n : ℚ) = fin (n : ℚ) := by
  have := ofRat_intCast (n : ℤ) (by rw [abs_of_nonneg (by positivity)]; exact_mod_cast hn)
  simpa using this

/-- A finite result of rounding is itself below the overflow threshold. -/
theorem ofRat_fin_lt_threshold {q r : ℚ} (h : ofRat q = fin r) : |r| < overflowThreshold := by
  have hlt := lt_threshold_of_ofRat_fin h
  rw [ofRat_of_lt hlt] at h
  have hr : r = (roundHalfEven (q / ulp q) : ℚ) * ulp q := by
    injection h with h; exact h.symm
  by_cases hq0 : q = 0
  · subst hq0
    rw [hr]
    simp [roundHalfEven, overflowThreshold_pos]
  obtain ⟨hlo, hhi⟩ := floorLog2_spec q hq0
  have hupos := ulp_pos q
  have habsx : |q / ulp q| = |q| / ulp q := by rw [abs_div, abs_of_pos hupos]
  rw [hr, abs_mul, abs_of_pos hupos]
  by_cases he : floorLog2 q ≤ 1022
  · -- the rounded significand is at most 2 ^ 53
    have hE : max (floorLog2 q) (-1022 : ℤ) ≤ 1022 := max_le he (by norm_num)
    have hle : floorLog2 q + 1 ≤ max (floorLog2 q) (-1022 : ℤ) + 1 := by
      have := le_max_left (floorLog2 q) (-1022 : ℤ); omega
    have hu53 : ulp q * (2 : ℚ) ^ 53 = pow2 (max (floorLog2 q) (-1022 : ℤ) + 1) := by
      unfold ulp
      have : (2 : ℚ) ^ 53 = pow2 53 := by rw [pow2_eq_zpow]; norm_num
      rw [this, ← pow2_add]; congr 1; ring
    have hx : |q / ulp q| ≤ (2 : ℚ) ^ 53 := by
      rw [habsx, div_le_iff₀ hupos, mul_comm, hu53]
      exact (hhi.le).trans (pow2_le_pow2 hle)
    have hx' := abs_le.mp hx
    have h1 : roundHalfEven (q / ulp q) ≤ (2 : ℤ) ^ 53 :=
      roundHalfEven_le_of_le (by push_cast; exact hx'.2)
    have h2 : -((2 : ℤ) ^ 53) ≤ roundHalfEven (q / ulp q) :=
      le_roundHalfEven_of_le (by push_cast; exact hx'.1)
    have h3 : |(roundHalfEven (q / ulp q) : ℚ)| ≤ (2 : ℚ) ^ 53 := by
      rw [abs_le]
      constructor
      · have : ((-((2 : ℤ) ^ 53) : ℤ) : ℚ) ≤ (roundHalfEven (q / ulp q) : ℚ) := by exact_mod_cast h2
        simpa using this
      · have : (roundHalfEven (q / ulp q) : ℚ) ≤ (((2 : ℤ) ^ 53 : ℤ) : ℚ) := by exact_mod_cast h1
        simpa using this
    calc |(roundHalfEven (q / ulp q) : ℚ)| * ulp q ≤ (2 : ℚ) ^ 53 * ulp q :=
          mul_le_mul_of_nonneg_right h3 hupos.le
      _ = pow2 (max (floorLog2 q) (-1022 : ℤ) + 1) := by rw [mul_comm, hu53]
      _ ≤ pow2 1023 := pow2_le_pow2 (by omega)
      _ < overflowThreshold := pow2_1023_lt_threshold
  · -- the top binade
    have he1 : floorLog2 q < 1024 := by
      by_contra hbig
      have h1 : (1024 : ℤ) ≤ floorLog2 q := by omega
      have h2 := pow2_le_pow2 h1
      have := threshold_lt_pow2_1024
      linarith
    have heq : floorLog2 q = 1023 := by omega
    have hu : ulp q = pow2 971 := by
      unfold ulp; rw [heq]; norm_num
    have hT : overflowThreshold = ((2 : ℚ) ^ 53 - 1 / 2) * pow2 971 := by
      unfold overflowThreshold
      rw [pow2_eq_zpow, pow2_eq_zpow, pow2_eq_zpow]
      norm_num
    have hx : |q / ulp q| < (2 : ℚ) ^ 53 - 1 / 2 := by
      rw [habsx, div_lt_iff₀ hupos, hu, ← hT]
      exact hlt
    have hx' := abs_lt.mp hx
    have h1 : roundHalfEven (q / ulp q) < (2 : ℤ) ^ 53 :=
      roundHalfEven_lt_of_lt (by push_cast; exact hx'.2)
    have h2 : -((2 : ℤ) ^ 53) < roundHalfEven (q / ulp q) := by
      have := le_roundHalfEven (q / ulp q)
      have h3 : ((-((2 : ℤ) ^ 53) : ℤ) : ℚ) < (roundHalfEven (q / ulp q) : ℚ) := by
        push_cast; linarith [hx'.1]
      exact_mod_cast h3
    have h3 : |(roundHalfEven (q / ulp q) : ℚ)| ≤ (2 : ℚ) ^ 53 - 1 := by
      rw [abs_le]
      constructor
      · have : ((-((2 : ℤ) ^ 53) + 1 : ℤ) : ℚ) ≤ (roundHalfEven (q / ulp q) : ℚ) := by
          exact_mod_cast (show -((2 : ℤ) ^ 53) + 1 ≤ roundHalfEven (q / ulp q) by omega)
        push_cast at this; linarith
      · have : (roundHalfEven (q / ulp q) : ℚ) ≤ (((2 : ℤ) ^ 53 - 1 : ℤ) : ℚ) := by
          exact_mod_cast (show roundHalfEven (q / ulp q) ≤ (2 : ℤ) ^ 53 - 1 by omega)
        push_cast at this; linarith
    have hpos971 := pow2_pos 971
    calc |(roundHalfEven (q / ulp q) : ℚ)| * ulp q ≤ ((2 : ℚ) ^ 53 - 1) * ulp q :=
          mul_le_mul_of_nonneg_right h3 hupos.le
      _ < ((2 : ℚ) ^ 53 - 1 / 2) * pow2 971 := by
          rw [hu]
          apply mul_lt_mul_of_pos_right _ hpos971
          norm_num
      _ = overflowThreshold := hT.symm

end Binary64

namespace Binary64

/-! ## Sums of whole numbers are exact below `2 ^ 53` -/

theorem ofNum_fin (q : ℚ) : ofNum (fin q) = ofRat q := rfl

theorem fadd_natCast (a b : ℕ) (h : a + b < 2 ^ 53) :
    fadd (fin (a : ℚ)) (fin (b : ℚ)) = fin ((a + b : ℕ) : ℚ) := by
  have := ofRat_natCast (a + b) h
  simpa [fadd, ofNum_fin] using this

theorem fmul_natCast (a b : ℕ) (h : a * b < 2 ^ 53) :
    fmul (fin (a : ℚ)) (fin (b : ℚ)) = fin ((a * b : ℕ) : ℚ) := by
  have := ofRat_natCast (a * b) h
  simpa [fmul, ofNum_fin] using this

theorem fsub_natCast (a b : ℕ) (ha : a < 2 ^ 53) (hb : b < 2 ^ 53) :
    fsub (fin (a : ℚ)) (fin (b : ℚ)) = fin ((a : ℚ) - (b : ℚ)) := by
  have hk : |(a : ℤ) - (b : ℤ)| < 2 ^ 53 := by
    rw [abs_lt]
    constructor <;> omega
  have := ofRat_intCast ((a : ℤ) - (b : ℤ)) hk
  push_cast at this
  rw [fsub, fin_sub_fin, ofNum_fin]
  exact this

theorem foldl_fadd_ofNats (l : List ℕ) (acc : ℕ) (h : acc + l.sum < 2 ^ 53) :
    (ofNats l).foldl fadd (fin (acc : ℚ)) = fin ((acc + l.sum : ℕ) : ℚ) := by
  induction l generalizing acc with
  | nil => simp [ofNats]
  | cons k l ih =>
    have hk : acc + k < 2 ^ 53 := by
      rw [List.sum_cons] at h; omega
    have hl : acc + k + l.sum < 2 ^ 53 := by
      rw [List.sum_cons] at h; omega
    have := ih (acc + k) hl
    simp only [ofNats, List.map_cons, List.foldl_cons] at this ⊢
    rw [fadd_natCast acc k hk, this, List.sum_cons, add_assoc]

theorem loopSum_ofNats (l : List ℕ) (h : l.sum < 2 ^ 53) :
    loopSum (ofNats l) = fin ((l.sum : ℕ) : ℚ) := by
  have := foldl_fadd_ofNats l 0 (by simpa using h)
  simpa [loopSum] using this

theorem map_fmul_self_ofNats (l : List ℕ) (h : (l.map (fun k => k * k)).sum < 2 ^ 53) :
    (ofNats l).map (fun a => fmul a a) = ofNats (l.map (fun k => k * k)) := by
  induction l with
  | nil => rfl
  | cons k l ih =>
    rw [List.map_cons, List.sum_cons] at h
    have := ih (by omega)
    simp only [ofNats, List.map_cons] at this ⊢
    rw [fmul_natCast k k (by omega), this]

theorem zipWith_fmul_ofNats (xs ys : List ℕ) (h : (List.zipWith (· * ·) xs ys).sum < 2 ^ 53) :
    List.zipWith fmul (ofNats xs) (ofNats ys) = ofNats (List.zipWith (· * ·) xs ys) := by
  induction xs generalizing ys with
  | nil => simp [ofNats]
  | cons a xs ih =>
    cases ys with
    | nil => simp [ofNats]
    | cons b ys =>
      rw [List.zipWith_cons_cons, List.sum_cons] at h
      have := ih ys (by omega)
      simp only [ofNats, List.map_cons, List.zipWith_cons_cons] at this ⊢
      rw [fmul_natCast a b (by omega), this]

theorem ofNats_length (l : List ℕ) : (ofNats l).length = l.length := by simp [ofNats]

end Binary64

namespace Binary64

/-! ## The slope of whole-number series in binary64 arithmetic -/

theorem cast_sum_natCast (l : List ℕ) :
    (l.map (fun (k : ℕ) => (k : ℚ))).sum = ((l.sum : ℕ) : ℚ) := by
  induction l with
  | nil => simp
  | cons a l ih => rw [List.map_cons, List.sum_cons, List.sum_cons, ih, Nat.cast_add]

theorem cast_sum_sq_natCast (l : List ℕ) :
    ((l.map (fun (k : ℕ) => (k : ℚ))).map (fun a => a * a)).sum =
      (((l.map (fun k => k * k)).sum : ℕ) : ℚ) := by
  induction l with
  | nil => simp
  | cons a l ih =>
    rw [List.map_cons, List.map_cons, List.map_cons, List.sum_cons, List.sum_cons, ih,
      Nat.cast_add, Nat.cast_mul]

theorem cast_sum_zipWith_natCast (xs ys : List ℕ) :
    (List.zipWith (· * ·) (xs.map (fun (k : ℕ) => (k : ℚ))) (ys.map (fun (k : ℕ) => (k : ℚ)))).sum =
      (((List.zipWith (· * ·) xs ys).sum : ℕ) : ℚ) := by
  induction xs generalizing ys with
  | nil => simp
  | cons a xs ih =>
    cases ys with
    | nil => simp
    | cons b ys =>
      rw [List.map_cons, List.map_cons, List.zipWith_cons_cons, List.zipWith_cons_cons,
        List.sum_cons, List.sum_cons, ih, Nat.cast_add, Nat.cast_mul]

/-- On two series of whole numbers whose sums stay below `2 ^ 53`, the slope
computed by `regress` in binary64 arithmetic is the exact least-squares
quotient, rounded once. -/
theorem regress_slope_ofNats (xs ys : List ℕ) (h : ExactSums xs ys) :
    (regress (ofNats xs) (ofNats ys)).slope =
      ofNum (PredictiveAnalytics.regress (xs.map (fun (k : ℕ) => (k : ℚ)))
        (ys.map (fun (k : ℕ) => (k : ℚ)))).slope := by
  obtain ⟨h1, h2, h3, h4, h5, h6, h7, h8⟩ := h
  have hnum : fsub (fmul (fin ((ofNats xs).length : ℚ)) (loopSum (List.zipWith fmul (ofNats xs) (ofNats ys))))
      (fmul (loopSum (ofNats xs)) (loopSum (ofNats ys))) =
      fin (((xs.length * (List.zipWith (· * ·) xs ys).sum : ℕ) : ℚ) - ((xs.sum * ys.sum : ℕ) : ℚ)) := by
    rw [zipWith_fmul_ofNats xs ys h4, loopSum_ofNats _ h4, loopSum_ofNats _ h1, loopSum_ofNats _ h2,
      ofNats_length, fmul_natCast _ _ h5, fmul_natCast _ _ h6, fsub_natCast _ _ h5 h6]
  have hden : fsub (fmul (fin ((ofNats xs).length : ℚ)) (loopSum ((ofNats xs).map (fun a => fmul a a))))
      (fmul (loopSum (ofNats xs)) (loopSum (ofNats xs))) =
      fin (((xs.length * (xs.map (fun k => k * k)).sum : ℕ) : ℚ) - ((xs.sum * xs.sum : ℕ) : ℚ)) := by
    rw [map_fmul_self_ofNats xs h3, loopSum_ofNats _ h3, loopSum_ofNats _ h1,
      ofNats_length, fmul_natCast _ _ h7, fmul_natCast _ _ h8, fsub_natCast _ _ h7 h8]
  show fdiv (fsub (fmul (fin ((ofNats xs).length : ℚ)) (loopSum (List.zipWith fmul (ofNats xs) (ofNats ys))))
      (fmul (loopSum (ofNats xs)) (loopSum (ofNats ys))))
    (fsub (fmul (fin ((ofNats xs).length : ℚ)) (loopSum ((ofNats xs).map (fun a => fmul a a))))
      (fmul (loopSum (ofNats xs)) (loopSum (ofNats xs)))) = ofNum (fin _ / fin _)
  rw [hnum, hden, fdiv]
  congr 3
  · rw [cast_sum_zipWith_natCast, cast_sum_natCast, cast_sum_natCast, List.length_map,
      Nat.cast_mul, Nat.cast_mul]
  · rw [cast_sum_sq_natCast, cast_sum_natCast, List.length_map, Nat.cast_mul, Nat.cast_mul]

end Binary64

namespace Binary64

theorem sum_le_length_mul (l : List ℕ) (B : ℕ) (h : ∀ k ∈ l, k ≤ B) : l.sum ≤ l.length * B := by
  induction l with
  | nil => simp
  | cons a l ih =>
    have ha := h a (List.mem_cons_self a l)
    have hl := ih (fun k hk => h k (List.mem_cons_of_mem a hk))
    rw [List.sum_cons, List.length_cons, Nat.succ_mul]
    omega

theorem zipWith_mul_map (l : List ℕ) (f : ℕ → ℕ) :
    List.zipWith (· * ·) l (l.map f) = l.map (fun i => i * f i) := by
  induction l with
  | nil => rfl
  | cons a l ih => simp [ih]

/-- The sums of `regress` on the linear series `a + b * i` over the indices
`0, ..., n - 1` stay below `2 ^ 53` when `n ^ 3 * (n + a + b * n)` does. -/
theorem exactSums_linear (a b n : ℕ) (h : n ^ 3 * (n + a + b * n) < 2 ^ 53) :
    ExactSums (List.range n) ((List.range n).map (fun i => a + b * i)) := by
  have hx : ∀ k ∈ List.range n, k ≤ n := fun k hk => (List.mem_range.mp hk).le
  have hy : ∀ k ∈ (List.range n).map (fun i => a + b * i), k ≤ a + b * n := by
    intro k hk
    obtain ⟨i, hi, rfl⟩ := List.mem_map.mp hk
    have : b * i ≤ b * n := Nat.mul_le_mul_left b (List.mem_range.mp hi).le
    omega
  have hxx : ∀ k ∈ (List.range n).map (fun k => k * k), k ≤ n * n := by
    intro k hk
    obtain ⟨i, hi, rfl⟩ := List.mem_map.mp hk
    exact Nat.mul_le_mul (List.mem_range.mp hi).le (List.mem_range.mp hi).le
  have hxy : ∀ k ∈ (List.range n).map (fun i => i * (a + b * i)), k ≤ n * (a + b * n) := by
    intro k hk
    obtain ⟨i, hi, rfl⟩ := List.mem_map.mp hk
    have : b * i ≤ b * n := Nat.mul_le_mul_left b (List.mem_range.mp hi).le
    exact Nat.mul_le_mul (List.mem_range.mp hi).le (by omega)
  have s1 := sum_le_length_mul _ _ hx
  have s2 := sum_le_length_mul _ _ hy
  have s3 := sum_le_length_mul _ _ hxx
  have s4 := sum_le_length_mul _ _ hxy
  simp only [List.length_range, List.length_map] at s1 s2 s3 s4
  unfold ExactSums
  rw [zipWith_mul_map, List.length_range]
  generalize (List.range n).sum = X at s1 ⊢
  generalize ((List.range n).map (fun i => a + b * i)).sum = Y at s2 ⊢
  generalize ((List.range n).map (fun k => k * k)).sum = XX at s3 ⊢
  generalize ((List.range n).map (fun i => i * (a + b * i))).sum = XY at s4 ⊢
  rcases Nat.eq_zero_or_pos n with h0 | hpos
  · subst h0
    simp only [Nat.zero_mul, Nat.le_zero] at s1 s2 s3 s4
    subst s1 s2 s3 s4
    simp
  · generalize hM : a + b * n = M at *
    have hP : n ^ 3 * (n + M) < 2 ^ 53 := by
      have : n + a + b * n = n + M := by omega
      rw [this] at h; exact h
    have e1 : n ^ 3 * (n + M) = n * n * n * n + n * n * n * M := by ring
    have k1 : n ≤ n * n := Nat.le_mul_self n
    have k2 : n * n ≤ n * n * n := by nlinarith
    have k3 : n * n * n ≤ n * n * n * n := by nlinarith
    have m1 : n * M ≤ n * n * M := Nat.mul_le_mul_right M k1
    have m2 : n * n * M ≤ n * n * n * M := Nat.mul_le_mul_right M k2
    have t5 : n * XY ≤ n * n * n * M := by
      calc n * XY ≤ n * (n * (n * M)) := Nat.mul_le_mul_left n s4
        _ = n * n * n * M := by ring
    have t6 : X * Y ≤ n * n * n * M := by
      calc X * Y ≤ (n * n) * (n * M) := Nat.mul_le_mul s1 s2
        _ = n * n * n * M := by ring
    have t7 : n * XX ≤ n * n * n * n := by
      calc n * XX ≤ n * (n * (n * n)) := Nat.mul_le_mul_left n s3
        _ = n * n * n * n := by ring
    have t8 : X * X ≤ n * n * n * n := by
      calc X * X ≤ (n * n) * (n * n) := Nat.mul_le_mul s1 s1
        _ = n * n * n * n := by ring
    have t3 : XX ≤ n * n * n * n := by
      calc XX ≤ n * (n * n) := s3
        _ = n * n * n := by ring
        _ ≤ n * n * n * n := k3
    have t4 : XY ≤ n * n * n * M := by
      calc XY ≤ n * (n * M) := s4
        _ = n * n * M := by ring
        _ ≤ n * n * n * M := m2
    refine ⟨?_, ?_, ?_, ?_, ?_, ?_, ?_, ?_⟩ <;> omega

end Binary64

namespace Binary64

theorem calculateTrend64_short (x y : List JSNum) (h : x.length < 2) :
    calculateTrend x y = stableTrend := by
  simp [calculateTrend, h]

theorem calculateTrend64_fit (x y : List JSNum) (h2 : 2 ≤ x.length) (hl : x.length = y.length) :
    calculateTrend x y =
      { trend := classify (regress x y).slope
        slope := (regress x y).slope
        intercept := some (regress x y).intercept
        r2 := some ((regress x y).r2Value x y) } := by
  have h2' : ¬ x.length < 2 := by omega
  have hl' : ¬ x.length ≠ y.length := by simpa using hl
  unfold calculateTrend
  rw [if_neg h2']
  simp only [fitTrend, SLR.create, SLR.scoreR2, if_neg hl', bind, Except.bind, pure, Except.pure]

theorem calculateTrend64_mismatch (x y : List JSNum) (hl : x.length ≠ y.length) :
    calculateTrend x y = stableTrend := by
  unfold calculateTrend
  split_ifs
  · rfl
  · simp only [fitTrend, SLR.create, if_pos hl, bind, Except.bind]

theorem literal_tenth : ofRat (1 / 10) = fin (3602879701896397 / 36028797018963968) := by
  decide!

theorem classify64_natCast (b : ℕ) (hb : 1 ≤ b) : classify (fin (b : ℚ)) = .INCREASING := by
  have h1 : (1 : ℚ) ≤ (b : ℚ) := by exact_mod_cast hb
  have : (3602879701896397 / 36028797018963968 : ℚ) < (b : ℚ) := by
    have : (3602879701896397 / 36028797018963968 : ℚ) < 1 := by norm_num
    linarith
  unfold classify
  rw [literal_tenth]
  simp [gt, lt, this]

theorem classify64_zero : classify (fin 0) = .STABLE := by decide!

theorem indices64_length (n : ℕ) : (indices n).length = n := by simp [indices, ofNats]

theorem linearSeries64_length (a b n : ℕ) : (linearSeries a b n).length = n := by
  simp [linearSeries, ofNats]

/-- In binary64 arithmetic the slope fitted to the linear series `a + b * i`
of whole numbers is exactly `b`, as long as the sums of `regress` stay below
`2 ^ 53`. -/
theorem regress64_linear_slope (a b n : ℕ) (hn : 2 ≤ n) (h : n ^ 3 * (n + a + b * n) < 2 ^ 53) :
    (regress (indices n) (linearSeries a b n)).slope = fin (b : ℚ) := by
  have hb : b < 2 ^ 53 := by
    have h1 : b ≤ b * n := Nat.le_mul_of_pos_right b (by omega)
    have h2 : n + a + b * n ≤ n ^ 3 * (n + a + b * n) :=
      Nat.le_mul_of_pos_left _ (by positivity)
    omega
  have hys : ((List.range n).map (fun i => a + b * i)).map (fun (k : ℕ) => (k : ℚ)) =
      (PredictiveAnalytics.indices n).map (fun t => (a : ℚ) + (b : ℚ) * t) := by
    simp [PredictiveAnalytics.indices, List.map_map, Function.comp]
  have hexact : (PredictiveAnalytics.regress (PredictiveAnalytics.indices n)
      ((PredictiveAnalytics.indices n).map (fun t => (a : ℚ) + (b : ℚ) * t))).slope = fin (b : ℚ) := by
    by_cases hb0 : b = 0
    · subst hb0
      have := regress_constant n (a : ℚ) hn
      rw [replicate_eq_map_indices] at this
      simp only [Nat.cast_zero]
      rw [this]
    · exact (regress_affine (a : ℚ) (b : ℚ) (PredictiveAnalytics.indices n)
        (by exact_mod_cast hb0) (indices_distinct n hn)).1
  unfold indices linearSeries
  rw [regress_slope_ofNats _ _ (exactSums_linear a b n h), hys]
  show ofNum (PredictiveAnalytics.regress (PredictiveAnalytics.indices n) _).slope = _
  rw [hexact, ofNum_fin, ofRat_natCast b hb]

end Binary64

namespace Binary64

/-! ## The trend analysis and the confidence score in binary64 arithmetic -/

theorem generateForecast64_success_inv {cfg : Config} {salesData : List SalesRecord} {now : Int}
    {fd : Option Int} {f : Forecast}
    (h : generateForecast cfg salesData now fd = .ok (.success f)) :
    f.trend = (calculateTrend (prepareTimeSeriesData salesData).x
      (prepareTimeSeriesData salesData).y).trend ∧
    f.r2 = (calculateTrend (prepareTimeSeriesData salesData).x
      (prepareTimeSeriesData salesData).y).r2 ∧
    f.confidenceScore = confidenceOf f.r2 := by
  unfold generateForecast at h
  by_cases hlt : (salesData.length : Int) < cfg.minDataPoints
  · simp [hlt] at h
  · simp only [hlt, if_false] at h
    cases hs : SLR.create (prepareTimeSeriesData salesData).x
        (exponentialSmoothing (prepareTimeSeriesData salesData).y defaultAlpha) with
    | error e => simp [hs, bind, Except.bind] at h
    | ok slr =>
      cases hp : forecastLoop slr (lastIndexOf (prepareTimeSeriesData salesData).x)
        (detectSeasonality salesData) (prepareTimeSeriesData salesData).y now
        ((List.range (fd.getD cfg.forecastDays).toNat).map (fun (j : Nat) => j + 1)) with
      | error e => simp [hs, hp, bind, Except.bind] at h
      | ok preds =>
        cases hm : mean (prepareTimeSeriesData salesData).y with
        | error e => simp [hs, hp, hm, bind, Except.bind] at h
        | ok avg =>
          cases hr : generateRecommendations preds
            (calculateTrend (prepareTimeSeriesData salesData).x
              (prepareTimeSeriesData salesData).y) avg with
          | error e => simp [hs, hp, hm, hr, bind, Except.bind] at h
          | ok recs =>
            simp only [hs, hp, hm, hr, bind, Except.bind, pure, Except.pure, Except.ok.injEq,
              ForecastResult.success.injEq] at h
            subst h
            exact ⟨rfl, rfl, rfl⟩

/-- The square `r * r` computed in binary64 arithmetic is `NaN`, `+Infinity`
or a non-negative number. -/
theorem fmul_self_cases (r : JSNum) :
    fmul r r = nan ∨ fmul r r = pinf ∨ ∃ q : ℚ, fmul r r = fin q ∧ 0 ≤ q := by
  cases r with
  | fin c =>
    rcases ofRat_nonneg (mul_self_nonneg c) with h | ⟨q, h, hq⟩
    · right; left
      show ofNum (fin c * fin c) = pinf
      rw [fin_mul_fin, ofNum_fin, h]
    · right; right
      refine ⟨q, ?_, hq⟩
      show ofNum (fin c * fin c) = fin q
      rw [fin_mul_fin, ofNum_fin, h]
  | nan => left; rfl
  | pinf => right; left; rfl
  | ninf => right; left; rfl

theorem calculateTrend64_r2_cases (x y : List JSNum) :
    (calculateTrend x y).r2 = none ∨ (calculateTrend x y).r2 = some nan ∨
      (calculateTrend x y).r2 = some pinf ∨
      ∃ q : ℚ, (calculateTrend x y).r2 = some (fin q) ∧ 0 ≤ q := by
  by_cases h2 : x.length < 2
  · left; rw [calculateTrend64_short x y h2]; rfl
  · by_cases hl : x.length = y.length
    · right
      rw [calculateTrend64_fit x y (by omega) hl]
      rcases fmul_self_cases ((regress x y).correlation x y) with h | h | ⟨q, h, hq⟩
      · left; show some (fmul _ _) = _; rw [h]
      · right; left; show some (fmul _ _) = _; rw [h]
      · right; right; exact ⟨q, by show some (fmul _ _) = _; rw [h], hq⟩
    · left; rw [calculateTrend64_mismatch x y hl]; rfl

theorem calculateTrend64_zero_slope (x y : List JSNum) (h : (calculateTrend x y).slope = fin 0) :
    (calculateTrend x y).trend = .STABLE := by
  by_cases h2 : x.length < 2
  · rw [calculateTrend64_short x y h2]; rfl
  · by_cases hl : x.length = y.length
    · rw [calculateTrend64_fit x y (by omega) hl] at h ⊢
      show classify (regress x y).slope = _
      have h' : (regress x y).slope = fin 0 := h
      rw [h', classify64_zero]
    · rw [calculateTrend64_mismatch x y hl]; rfl

theorem literal_half : ofRat (1 / 2) = fin (1 / 2) := by decide!

theorem literal_095 : ofRat (19 / 20) = fin (4278419646001971 / 4503599627370496) := by decide!

theorem confidenceOf64_undefined (r2 : Option JSNum)
    (h : r2 = none ∨ r2 = some nan ∨ r2 = some (fin 0)) : confidenceOf r2 = fin (1 / 2) := by
  unfold confidenceOf
  rw [literal_half, literal_095]
  rcases h with h | h | h <;> subst h <;> simp [orDefault, truthy, JSNum.min, lt] <;> norm_num

theorem confidenceOf64_pinf : confidenceOf (some pinf) = ofRat (19 / 20) := by
  unfold confidenceOf
  rw [literal_half, literal_095]
  simp [orDefault, truthy, JSNum.min, lt]

theorem confidenceOf64_fin (q : ℚ) (hq : q ≠ 0) :
    confidenceOf (some (fin q)) = JSNum.min (ofRat (19 / 20)) (fin q) := by
  unfold confidenceOf
  simp [orDefault, truthy, hq]

theorem confidenceOf64_eq_half (r2 : Option JSNum) (h : confidenceOf r2 = fin (1 / 2)) :
    r2 = none ∨ r2 = some nan ∨ r2 = some (fin 0) ∨ r2 = some (fin (1 / 2)) := by
  cases r2 with
  | none => left; rfl
  | some v =>
    cases v with
    | nan => right; left; rfl
    | pinf =>
      rw [confidenceOf64_pinf, literal_095] at h
      injection h with h
      norm_num at h
    | ninf =>
      unfold confidenceOf at h
      rw [literal_half, literal_095] at h
      simp [orDefault, truthy, JSNum.min, lt] at h
    | fin q =>
      by_cases hq : q = 0
      · right; right; left; rw [hq]
      · right; right; right
        rw [confidenceOf64_fin q hq, literal_095] at h
        simp only [JSNum.min, lt] at h
        split_ifs at h with hlt
        · exact h ▸ rfl
        · injection h with h
          norm_num at h

/-! ## The correlation of whole-number predictions in binary64 arithmetic -/

theorem regress_intercept_ofNats (xs ys : List ℕ) (h : ExactSums xs ys) :
    (regress (ofNats xs) (ofNats ys)).intercept =
      fsub (fmul (fdiv (fin 1) (fin (xs.length : ℚ))) (fin ((ys.sum : ℕ) : ℚ)))
        (fmul (fmul (regress (ofNats xs) (ofNats ys)).slope (fdiv (fin 1) (fin (xs.length : ℚ))))
          (fin ((xs.sum : ℕ) : ℚ))) := by
  have h0 : (regress (ofNats xs) (ofNats ys)).intercept =
      fsub (fmul (fdiv (fin 1) (fin ((ofNats xs).length : ℚ))) (loopSum (ofNats ys)))
        (fmul (fmul (regress (ofNats xs) (ofNats ys)).slope
          (fdiv (fin 1) (fin ((ofNats xs).length : ℚ)))) (loopSum (ofNats xs))) := rfl
  rw [h0, loopSum_ofNats _ h.1, loopSum_ofNats _ h.2.1, ofNats_length]

theorem map_predict_ofNats (a b : ℕ) (xs : List ℕ) (h : ∀ i ∈ xs, b * i + a < 2 ^ 53) :
    (ofNats xs).map (fun xi => SLR.predict { slope := fin (b : ℚ), intercept := fin (a : ℚ) } xi) =
      ofNats (xs.map (fun i => b * i + a)) := by
  induction xs with
  | nil => rfl
  | cons i xs ih =>
    have hi := h i (List.mem_cons_self i xs)
    have := ih (fun j hj => h j (List.mem_cons_of_mem i hj))
    simp only [ofNats, List.map_cons, List.map_map] at this ⊢
    rw [this]
    congr 1
    simp only [SLR.predict]
    rw [fmul_natCast b i (by omega), fadd_natCast (b * i) a hi]

/-- The correlation computed by `score` when the predictions and the values
are whole numbers whose sums stay below `2 ^ 53`: every sum is exact, and only
the square root and the quotient are rounded. -/
theorem correlation_ofNats (slr : SLR) (xs ps ys : List ℕ)
    (hp : (ofNats xs).map (fun xi => slr.predict xi) = ofNats ps)
    (hlen : xs.length = ps.length) (hleny : xs.length = ys.length)
    (h1 : ExactSums ps ys) (h2 : ExactSums ys ys) :
    slr.correlation (ofNats xs) (ofNats ys) =
      fdiv (fin (((ps.length * (List.zipWith (· * ·) ps ys).sum : ℕ) : ℚ) -
          ((ps.sum * ys.sum : ℕ) : ℚ)))
        (fsqrt (fmul
          (fin (((ps.length * (ps.map (fun k => k * k)).sum : ℕ) : ℚ) - ((ps.sum * ps.sum : ℕ) : ℚ)))
          (fin (((ys.length * (ys.map (fun k => k * k)).sum : ℕ) : ℚ) -
            ((ys.sum * ys.sum : ℕ) : ℚ))))) := by
  obtain ⟨p1, p2, p3, p4, p5, p6, p7, p8⟩ := h1
  obtain ⟨-, -, q3, -, -, -, q7, q8⟩ := h2
  unfold SLR.correlation
  simp only [hp]
  rw [zipWith_fmul_ofNats ps ys p4, map_fmul_self_ofNats ps p3, map_fmul_self_ofNats ys q3,
    loopSum_ofNats _ p4, loopSum_ofNats _ p3, loopSum_ofNats _ q3, loopSum_ofNats _ p1,
    loopSum_ofNats _ p2, ofNats_length, hlen, fmul_natCast _ _ p5, fmul_natCast _ _ p6,
    fmul_natCast _ _ p7, fmul_natCast _ _ p8, fsub_natCast _ _ p5 p6, fsub_natCast _ _ p7 p8]
  have hq7 : ps.length * (ys.map (fun k => k * k)).sum < 2 ^ 53 := by
    rw [← hlen, hleny]; exact q7
  rw [fmul_natCast _ _ hq7, fmul_natCast _ _ q8, fsub_natCast _ _ hq7 q8, ← hlen, hleny]

/-- The line fitted in binary64 arithmetic to the linear series `a + b * i` of
whole numbers: the slope is exactly `b`, and the intercept is computed from the
exact sums with five rounded operations. -/
theorem regress64_linear (a b n : ℕ) (hn : 2 ≤ n) (h : n ^ 3 * (n + a + b * n) < 2 ^ 53) :
    regress (indices n) (linearSeries a b n) =
      { slope := fin (b : ℚ)
        intercept :=
          fsub (fmul (fdiv (fin 1) (fin (n : ℚ)))
              (fin ((((List.range n).map (fun i => a + b * i)).sum : ℕ) : ℚ)))
            (fmul (fmul (fin (b : ℚ)) (fdiv (fin 1) (fin (n : ℚ))))
              (fin (((List.range n).sum : ℕ) : ℚ))) } := by
  have hs := regress64_linear_slope a b n hn h
  have hi := regress_intercept_ofNats (List.range n) _ (exactSums_linear a b n h)
  unfold indices linearSeries at hs ⊢
  rw [List.length_range, hs] at hi
  cases hr : regress (ofNats (List.range n)) (ofNats ((List.range n).map (fun i => a + b * i))) with
  | mk s i =>
    rw [hr] at hs hi
    simp only at hs hi
    rw [hs, hi]

end Binary64

/-! ## Claims on the trend analysis in binary64 arithmetic -/

theorem prepareTimeSeriesData64_x (salesData : List SalesRecord) :
    (Binary64.prepareTimeSeriesData salesData).x =
      Binary64.indices (Binary64.prepareTimeSeriesData salesData).y.length := by
  unfold Binary64.prepareTimeSeriesData
  split_ifs <;> simp [Binary64.indices, Binary64.ofNats]

theorem linearSeries64_zero (v n : ℕ) :
    Binary64.linearSeries v 0 n = List.replicate n (fin (v : ℚ)) := by
  apply List.ext_getElem
  · simp [Binary64.linearSeries, Binary64.ofNats]
  · intro i h1 h2
    simp [Binary64.linearSeries, Binary64.ofNats]

/-- The trend analysis of the forty-day series `10 + i` has `r2 = 1`: the
predictions of the fitted line are the whole numbers of the series, every sum
of `score` is exact, and the square root and the quotient are exact too. -/
theorem risingSeries_r2 :
    (Binary64.calculateTrend (Binary64.indices 40) (Binary64.linearSeries 10 1 40)).r2 =
      some (fin 1) := by
  have hlen : (Binary64.indices 40).length = (Binary64.linearSeries 10 1 40).length := by
    rw [Binary64.indices64_length, Binary64.linearSeries64_length]
  have hint : Binary64.fsub (Binary64.fmul (Binary64.fdiv (fin 1) (fin ((40 : ℕ) : ℚ)))
        (fin ((((List.range 40).map (fun i => 10 + 1 * i)).sum : ℕ) : ℚ)))
      (Binary64.fmul (Binary64.fmul (fin ((1 : ℕ) : ℚ)) (Binary64.fdiv (fin 1) (fin ((40 : ℕ) : ℚ))))
        (fin (((List.range 40).sum : ℕ) : ℚ))) = fin ((10 : ℕ) : ℚ) := by
    decide!
  rw [Binary64.calculateTrend64_fit _ _ (by rw [Binary64.indices64_length]; decide) hlen,
    Binary64.regress64_linear 10 1 40 (by decide) (by decide), hint]
  have hcorr : Binary64.SLR.correlation
      { slope := fin ((1 : ℕ) : ℚ), intercept := fin ((10 : ℕ) : ℚ) }
      (Binary64.indices 40) (Binary64.linearSeries 10 1 40) = fin 1 := by
    unfold Binary64.indices Binary64.linearSeries
    rw [Binary64.correlation_ofNats _ (List.range 40) ((List.range 40).map (fun i => 1 * i + 10))
      ((List.range 40).map (fun i => 10 + 1 * i))
      (Binary64.map_predict_ofNats 10 1 (List.range 40) (by decide)) (by decide) (by decide)
      (by decide) (by decide)]
    decide!
  show some (Binary64.SLR.r2Value _ _ _) = _
  unfold Binary64.SLR.r2Value
  rw [hcorr]
  decide!

/-- The trend analysis of the series `2, 3, 2` in binary64 arithmetic: the
slope is exactly `0` and `r2` is `+Infinity`. -/
theorem peakSeries_trend64 :
    Binary64.calculateTrend (Binary64.indices 3) [fin 2, fin 3, fin 2] =
      { trend := .STABLE, slope := fin 0,
        intercept := some (fin (2627099782632789 / 1125899906842624)), r2 := some pinf } := by
  decide!

/-- The trend analysis of the series `0, 0, 1, 0, 0` in binary64 arithmetic:
the slope is exactly `0` and `r2` is exactly `0`. -/
theorem sparseSeries_trend64 :
    Binary64.calculateTrend (Binary64.indices 5) [fin 0, fin 0, fin 1, fin 0, fin 0] =
      { trend := .STABLE, slope := fin 0,
        intercept := some (fin (3602879701896397 / 18014398509481984)), r2 := some (fin 0) } := by
  decide!

/-- The trend analysis of the six-point linear series `1 + 7 i` in binary64
arithmetic: `r2` is `1 + 2⁻⁵⁰`. -/
theorem sixPointSeries_trend64 :
    Binary64.calculateTrend (Binary64.indices 6) (Binary64.linearSeries 1 7 6) =
      { trend := .INCREASING, slope := fin 7,
        intercept := some (fin (281474976710657 / 281474976710656)),
        r2 := some (fin (1 + 1 / 2 ^ 50)) } := by
  decide!

theorem growingSales_forecast64 :
    Binary64.generateForecast defaultConfig Binary64.growingSales (5 * msPerDay) (some 2) =
      .ok (.success Binary64.growingForecast) := by
  decide!

theorem offsetSales_forecast64 :
    Binary64.generateForecast Binary64.twoRecordConfig Binary64.offsetSales (2 * msPerDay)
      (some 1) = .ok (.success Binary64.offsetForecast) := by
  decide!

theorem sparseSales_forecast64 :
    Binary64.generateForecast defaultConfig Binary64.sparseSales (5 * msPerDay) (some 2) =
      .ok (.success Binary64.sparseForecast) := by
  decide!

/-- Amended claim C18: whenever `calculateTrend` returns a defined `r2` (one
that is not `NaN`; this needs at least two points), that `r2` is non-negative:
a number `≥ 0` or `+Infinity`.  The arithmetic is binary64, and `r2` is the
rounded square of the correlation computed by `score`. -/
theorem calculateTrend_r2_nonneg (x y : List JSNum) (v : JSNum)
    (hr : (Binary64.calculateTrend x y).r2 = some v) (hv : v ≠ nan) :
    2 ≤ x.length ∧ (v = pinf ∨ ∃ q : ℚ, v = fin q ∧ 0 ≤ q) := by
  constructor
  · by_contra h2
    rw [Binary64.calculateTrend64_short x y (by omega)] at hr
    exact absurd hr (by simp [stableTrend])
  · rcases Binary64.calculateTrend64_r2_cases x y with h | h | h | ⟨q, h, hq⟩
    · rw [h] at hr; exact absurd hr (by simp)
    · rw [h] at hr
      exact absurd (Option.some.inj hr).symm hv
    · rw [h] at hr
      left; exact (Option.some.inj hr).symm
    · rw [h] at hr
      right; exact ⟨q, (Option.some.inj hr).symm, hq⟩

theorem calculateTrend_r2_nonneg_witness :
    2 ≤ (Binary64.indices 5).length ∧
      (fin 0 = pinf ∨ ∃ q : ℚ, fin 0 = fin q ∧ 0 ≤ q) :=
  calculateTrend_r2_nonneg (Binary64.indices 5) [fin 0, fin 0, fin 1, fin 0, fin 0] (fin 0)
    (by rw [sparseSeries_trend64]) (by decide)

/-- Counterexample to claim C18 as stated: in binary64 arithmetic the `r2` of
the six-point series `1 + 7 i` is `1 + 2⁻⁵⁰` (printed
`1.0000000000000009`), a defined `r2` above `1`; and the `r2` of the series
`2, 3, 2` is `+Infinity`, which is no real number. -/
theorem r2_outside_unit_interval :
    (Binary64.calculateTrend (Binary64.indices 6) (Binary64.linearSeries 1 7 6)).r2 =
      some (fin (1 + 1 / 2 ^ 50)) ∧ (1 : ℚ) < 1 + 1 / 2 ^ 50 ∧
    (Binary64.calculateTrend (Binary64.indices 3) [fin 2, fin 3, fin 2]).r2 = some pinf := by
  refine ⟨by rw [sixPointSeries_trend64], by norm_num, by rw [peakSeries_trend64]⟩

/-- Amended claim C26: in binary64 arithmetic, whenever the slope computed by
`calculateTrend` is exactly `0` the trend is `STABLE`, and the slope is
exactly `0` for every constant series of a whole number `v` over `n ≥ 2` days
with `n³ (n + v) < 2⁵³`.  A zero slope does not decide `r2`: whatever the
slope, `r2` is absent, `NaN`, `+Infinity` or a number `≥ 0`, which can be `0`.
The confidence score of a successful forecast is `0.5` whenever `r2` is
undefined (absent or `NaN`) or `0`, and `0.95` when `r2` is `+Infinity`. -/
theorem zero_slope_is_stable (x y : List JSNum) :
    ((Binary64.calculateTrend x y).slope = fin 0 →
      (Binary64.calculateTrend x y).trend = .STABLE) ∧
    (∀ v n : ℕ, 2 ≤ n → n ^ 3 * (n + v) < 2 ^ 53 →
      (Binary64.calculateTrend (Binary64.indices n) (List.replicate n (fin (v : ℚ)))).slope =
        fin 0) ∧
    ((Binary64.calculateTrend x y).r2 = none ∨ (Binary64.calculateTrend x y).r2 = some nan ∨
      (Binary64.calculateTrend x y).r2 = some pinf ∨
      ∃ q : ℚ, (Binary64.calculateTrend x y).r2 = some (fin q) ∧ 0 ≤ q) ∧
    (∀ (cfg : Config) (salesData : List SalesRecord) (now : Int) (forecastDays : Option Int)
      (f : Forecast),
      Binary64.generateForecast cfg salesData now forecastDays = .ok (.success f) →
      f.r2 = (Binary64.calculateTrend (Binary64.prepareTimeSeriesData salesData).x
        (Binary64.prepareTimeSeriesData salesData).y).r2 ∧
      (f.r2 = none ∨ f.r2 = some nan ∨ f.r2 = some (fin 0) → f.confidenceScore = fin (1 / 2)) ∧
      (f.r2 = some pinf → f.confidenceScore = Binary64.ofRat (19 / 20))) := by
  refine ⟨Binary64.calculateTrend64_zero_slope x y, ?_, Binary64.calculateTrend64_r2_cases x y, ?_⟩
  · intro v n hn hb
    have hlen : (Binary64.indices n).length = (Binary64.linearSeries v 0 n).length := by
      rw [Binary64.indices64_length, Binary64.linearSeries64_length]
    rw [← linearSeries64_zero,
      Binary64.calculateTrend64_fit _ _ (by rw [Binary64.indices64_length]; exact hn) hlen]
    show (Binary64.regress _ _).slope = _
    rw [Binary64.regress64_linear_slope v 0 n hn (by simpa using hb)]
    simp
  · intro cfg salesData now forecastDays f hf
    obtain ⟨-, hr2, hc⟩ := Binary64.generateForecast64_success_inv hf
    refine ⟨hr2, fun h => ?_, fun h => ?_⟩
    · rw [hc]; exact Binary64.confidenceOf64_undefined _ h
    · rw [hc, h]; exact Binary64.confidenceOf64_pinf

theorem zero_slope_is_stable_witness :
    (Binary64.calculateTrend (Binary64.indices 5) [fin 0, fin 0, fin 1, fin 0, fin 0]).trend =
      .STABLE ∧
    (Binary64.calculateTrend (Binary64.indices 35) (List.replicate 35 (fin ((5 : ℕ) : ℚ)))).slope =
      fin 0 ∧
    Binary64.sparseForecast.confidenceScore = fin (1 / 2) :=
  ⟨(zero_slope_is_stable (Binary64.indices 5) [fin 0, fin 0, fin 1, fin 0, fin 0]).1
      (by rw [sparseSeries_trend64]),
   (zero_slope_is_stable [] []).2.1 5 35 (by decide) (by decide),
   ((zero_slope_is_stable [] []).2.2.2 defaultConfig Binary64.sparseSales (5 * msPerDay) (some 2)
      Binary64.sparseForecast sparseSales_forecast64).2.1 (Or.inr (Or.inr rfl))⟩

/-- Counterexample to claim C26 as stated, in binary64 arithmetic.  The series
`2, 3, 2` has slope exactly `0`, yet its `r2` is `+Infinity`, not undefined,
and the confidence score computed from such an `r2` is `0.95`, not `0.5`.  The
series `0, 0, 1, 0, 0` has slope exactly `0` and the defined `r2 = 0`, which is
not strictly positive, and the fallback replaces it: the forecast of thirty
records that aggregate to this series has confidence score `0.5`. -/
theorem zero_slope_r2_defined :
    (Binary64.calculateTrend (Binary64.indices 3) [fin 2, fin 3, fin 2]).slope = fin 0 ∧
    (Binary64.calculateTrend (Binary64.indices 3) [fin 2, fin 3, fin 2]).r2 = some pinf ∧
    Binary64.confidenceOf (some pinf) = Binary64.ofRat (19 / 20) ∧
    Binary64.ofRat (19 / 20) ≠ fin (1 / 2) ∧
    (Binary64.prepareTimeSeriesData Binary64.sparseSales).y = [fin 0, fin 0, fin 1, fin 0, fin 0] ∧
    (Binary64.calculateTrend (Binary64.indices 5) [fin 0, fin 0, fin 1, fin 0, fin 0]).slope =
      fin 0 ∧
    Binary64.generateForecast defaultConfig Binary64.sparseSales (5 * msPerDay) (some 2) =
      .ok (.success Binary64.sparseForecast) ∧
    Binary64.sparseForecast.r2 = some (fin 0) ∧
    Binary64.sparseForecast.confidenceScore = fin (1 / 2) := by
  refine ⟨by rw [peakSeries_trend64], by rw [peakSeries_trend64], Binary64.confidenceOf64_pinf,
    by decide!, by decide!, by rw [sparseSeries_trend64], sparseSales_forecast64, rfl, rfl⟩

/-- Amended claim C14: for every successful forecast (binary64 arithmetic),
`r2` is the one returned by the trend analysis of the aggregated series, and
the confidence score equals `min(0.95, r2)` whenever that `r2` is a number
other than `0`, equals `0.95` when it is `+Infinity`, and equals `0.5` when it
is undefined (absent or `NaN`) or `0`; the score equals `0.5` only when `r2`
is undefined, `0`, or `0.5` itself. -/
theorem confidenceScore_of_r2 (cfg : Config) (salesData : List SalesRecord) (now : Int)
    (forecastDays : Option Int) (f : Forecast)
    (h : Binary64.generateForecast cfg salesData now forecastDays = .ok (.success f)) :
    f.r2 = (Binary64.calculateTrend (Binary64.prepareTimeSeriesData salesData).x
      (Binary64.prepareTimeSeriesData salesData).y).r2 ∧
    (∀ q : ℚ, f.r2 = some (fin q) → q ≠ 0 →
      f.confidenceScore = JSNum.min (Binary64.ofRat (19 / 20)) (fin q)) ∧
    (f.r2 = some pinf → f.confidenceScore = Binary64.ofRat (19 / 20)) ∧
    (f.r2 = none ∨ f.r2 = some nan ∨ f.r2 = some (fin 0) → f.confidenceScore = fin (1 / 2)) ∧
    (f.confidenceScore = fin (1 / 2) →
      f.r2 = none ∨ f.r2 = some nan ∨ f.r2 = some (fin 0) ∨ f.r2 = some (fin (1 / 2))) := by
  obtain ⟨-, hr2, hc⟩ := Binary64.generateForecast64_success_inv h
  refine ⟨hr2, ?_, ?_, ?_, ?_⟩
  · intro q hq hq0
    rw [hc, hq]; exact Binary64.confidenceOf64_fin q hq0
  · intro hq
    rw [hc, hq]; exact Binary64.confidenceOf64_pinf
  · intro hq
    rw [hc]; exact Binary64.confidenceOf64_undefined _ hq
  · intro hq
    rw [hc] at hq
    exact Binary64.confidenceOf64_eq_half _ hq

theorem confidenceScore_of_r2_witness :
    Binary64.offsetForecast.confidenceScore = fin (1 / 2) :=
  (confidenceScore_of_r2 Binary64.twoRecordConfig Binary64.offsetSales (2 * msPerDay) (some 1)
    Binary64.offsetForecast offsetSales_forecast64).2.2.2.1 (Or.inr (Or.inl rfl))

/-- Counterexample to claim C14 as stated: thirty records that aggregate to
the series `0, 0, 1, 0, 0` yield, in binary64 arithmetic, a successful
forecast whose trend analysis has the defined `r2 = 0`; its confidence score
is `0.5`, not `min(0.95, 0) = 0`. -/
theorem zero_r2_scores_half :
    Binary64.generateForecast defaultConfig Binary64.sparseSales (5 * msPerDay) (some 2) =
      .ok (.success Binary64.sparseForecast) ∧
    Binary64.sparseForecast.r2 = some (fin 0) ∧
    Binary64.sparseForecast.confidenceScore = fin (1 / 2) ∧
    JSNum.min (Binary64.ofRat (19 / 20)) (fin 0) = fin 0 ∧
    Binary64.sparseForecast.confidenceScore ≠ JSNum.min (Binary64.ofRat (19 / 20)) (fin 0) := by
  refine ⟨sparseSales_forecast64, rfl, rfl, by decide!, by decide!⟩

theorem confidenceOf64_high (q : ℚ) (hq : 19 / 20 ≤ q) :
    Binary64.confidenceOf (some (fin q)) = Binary64.ofRat (19 / 20) := by
  have hq0 : q ≠ 0 := by
    intro h; rw [h] at hq; norm_num at hq
  rw [Binary64.confidenceOf64_fin q hq0, Binary64.literal_095]
  have : ¬ q < 4278419646001971 / 4503599627370496 := by
    have : (4278419646001971 / 4503599627370496 : ℚ) < 19 / 20 := by norm_num
    linarith
  simp [JSNum.min, lt, this]

/-- Amended claim C8: for every exactly linear aggregated series `a + b i`
of whole numbers over the indices `0, ..., n - 1`, with `b ≥ 1`, `n ≥ 2` and
`n³ (n + a + b n) < 2⁵³` (so that the sums of the regression are exact in
binary64 arithmetic), `calculateTrend` returns the trend `INCREASING` and the
slope `b`, and a successful forecast of such a series has the trend
`INCREASING`, the `r2` of that trend analysis, and the confidence score `0.95`
whenever that `r2` is at least `0.95`.  At the witness `n = 40`, `a = 10`,
`b = 1` the trend analysis has `r2 = 1`, and every successful forecast of the
forty daily records `risingSales`, which aggregate to that series, has the
trend `INCREASING`, `r2 = 1` and the confidence score `0.95`. -/
theorem calculateTrend_linear_whole (a b n : ℕ) (hn : 2 ≤ n) (hb : 1 ≤ b)
    (hexact : n ^ 3 * (n + a + b * n) < 2 ^ 53) :
    (Binary64.calculateTrend (Binary64.indices n) (Binary64.linearSeries a b n)).trend =
      .INCREASING ∧
    (Binary64.calculateTrend (Binary64.indices n) (Binary64.linearSeries a b n)).slope =
      fin (b : ℚ) ∧
    (∀ (cfg : Config) (salesData : List SalesRecord) (now : Int) (forecastDays : Option Int)
      (f : Forecast),
      (Binary64.prepareTimeSeriesData salesData).y = Binary64.linearSeries a b n →
      Binary64.generateForecast cfg salesData now forecastDays = .ok (.success f) →
      f.trend = .INCREASING ∧
      f.r2 = (Binary64.calculateTrend (Binary64.indices n) (Binary64.linearSeries a b n)).r2 ∧
      (∀ q : ℚ, f.r2 = some (fin q) → 19 / 20 ≤ q →
        f.confidenceScore = Binary64.ofRat (19 / 20))) ∧
    (Binary64.calculateTrend (Binary64.indices 40) (Binary64.linearSeries 10 1 40)).r2 =
      some (fin 1) ∧
    (Binary64.prepareTimeSeriesData risingSales).y = Binary64.linearSeries 10 1 40 ∧
    (∀ (cfg : Config) (now : Int) (forecastDays : Option Int) (f : Forecast),
      Binary64.generateForecast cfg risingSales now forecastDays = .ok (.success f) →
      f.trend = .INCREASING ∧ f.r2 = some (fin 1) ∧
      f.confidenceScore = Binary64.ofRat (19 / 20)) := by
  have hmain : ∀ a b n : ℕ, 2 ≤ n → 1 ≤ b → n ^ 3 * (n + a + b * n) < 2 ^ 53 →
      (Binary64.calculateTrend (Binary64.indices n) (Binary64.linearSeries a b n)).trend =
        .INCREASING ∧
      (Binary64.calculateTrend (Binary64.indices n) (Binary64.linearSeries a b n)).slope =
        fin (b : ℚ) ∧
      (∀ (cfg : Config) (salesData : List SalesRecord) (now : Int) (forecastDays : Option Int)
        (f : Forecast),
        (Binary64.prepareTimeSeriesData salesData).y = Binary64.linearSeries a b n →
        Binary64.generateForecast cfg salesData now forecastDays = .ok (.success f) →
        f.trend = .INCREASING ∧
        f.r2 = (Binary64.calculateTrend (Binary64.indices n) (Binary64.linearSeries a b n)).r2 ∧
        (∀ q : ℚ, f.r2 = some (fin q) → 19 / 20 ≤ q →
          f.confidenceScore = Binary64.ofRat (19 / 20))) := by
    intro a b n hn hb hexact
    have hlen : (Binary64.indices n).length = (Binary64.linearSeries a b n).length := by
      rw [Binary64.indices64_length, Binary64.linearSeries64_length]
    have hfit := Binary64.calculateTrend64_fit (Binary64.indices n) (Binary64.linearSeries a b n)
      (by rw [Binary64.indices64_length]; exact hn) hlen
    have hslope := Binary64.regress64_linear_slope a b n hn hexact
    have htrend : (Binary64.calculateTrend (Binary64.indices n)
        (Binary64.linearSeries a b n)).trend = .INCREASING := by
      rw [hfit]
      show Binary64.classify (Binary64.regress _ _).slope = _
      rw [hslope, Binary64.classify64_natCast b hb]
    refine ⟨htrend, by rw [hfit]; exact hslope, ?_⟩
    intro cfg salesData now forecastDays f hy hf
    obtain ⟨ht, hr2, hc⟩ := Binary64.generateForecast64_success_inv hf
    rw [prepareTimeSeriesData64_x, hy, Binary64.linearSeries64_length] at ht hr2
    refine ⟨ht.trans htrend, hr2, ?_⟩
    intro q hq hq95
    rw [hc, hq]
    exact confidenceOf64_high q hq95
  have hy40 : (Binary64.prepareTimeSeriesData risingSales).y = Binary64.linearSeries 10 1 40 := by
    decide!
  obtain ⟨h1, h2, h3⟩ := hmain a b n hn hb hexact
  refine ⟨h1, h2, h3, risingSeries_r2, hy40, ?_⟩
  intro cfg now forecastDays f hf
  obtain ⟨ht, hr, hc⟩ := (hmain 10 1 40 (by decide) (by decide) (by decide)).2.2 cfg risingSales
    now forecastDays f hy40 hf
  rw [risingSeries_r2] at hr
  exact ⟨ht, hr, hc 1 hr (by norm_num)⟩

theorem calculateTrend_linear_whole_witness :
    (Binary64.calculateTrend (Binary64.indices 40) (Binary64.linearSeries 10 1 40)).trend =
      .INCREASING ∧
    (Binary64.calculateTrend (Binary64.indices 40) (Binary64.linearSeries 10 1 40)).slope =
      fin ((1 : ℕ) : ℚ) ∧
    (Binary64.calculateTrend (Binary64.indices 5) (Binary64.linearSeries 6 6 5)).slope =
      fin ((6 : ℕ) : ℚ) ∧
    Binary64.growingForecast.trend = .INCREASING ∧
    Binary64.growingForecast.r2 =
      (Binary64.calculateTrend (Binary64.indices 5) (Binary64.linearSeries 6 6 5)).r2 ∧
    Binary64.growingForecast.confidenceScore = Binary64.ofRat (19 / 20) :=
  have h40 := calculateTrend_linear_whole 10 1 40 (by decide) (by decide) (by decide)
  have h5 := calculateTrend_linear_whole 6 6 5 (by decide) (by decide) (by decide)
  have hf := h5.2.2.1 defaultConfig Binary64.growingSales (5 * msPerDay) (some 2)
    Binary64.growingForecast (by decide!) growingSales_forecast64
  ⟨h40.1, h40.2.1, h5.2.1, hf.1, hf.2.1, hf.2.2 1 rfl (by norm_num)⟩

/-- Counterexample to claim C8 as stated, in binary64 arithmetic.  The linear
series `1 + 7 i` over six days has `r2 = 1 + 2⁻⁵⁰` (printed
`1.0000000000000009`), not `1`.  The series `0, 0.3, 0.6`, exactly linear with
the binary64 number `b = 0.3 > 0.1`, gets the slope `0.30000000000000004`, not
`b`.  The two-day series `1000000000, 1000000001` (`b = 1`) gives a successful
forecast whose confidence score is `0.5`, not `0.95`. -/
theorem linear_series_rounding :
    (Binary64.calculateTrend (Binary64.indices 6) (Binary64.linearSeries 1 7 6)).r2 =
      some (fin (1 + 1 / 2 ^ 50)) ∧ (1 + 1 / 2 ^ 50 : ℚ) ≠ 1 ∧
    Binary64.ofRat (3 / 10) = fin Binary64.threeTenths ∧
    Binary64.IsBinary64 (2 * Binary64.threeTenths) ∧ 1 / 10 < Binary64.threeTenths ∧
    (Binary64.calculateTrend (Binary64.indices 3)
      [fin (0 + Binary64.threeTenths * 0), fin (0 + Binary64.threeTenths * 1),
        fin (0 + Binary64.threeTenths * 2)]).slope =
      fin (1351079888211149 / 4503599627370496) ∧
    (1351079888211149 / 4503599627370496 : ℚ) ≠ Binary64.threeTenths ∧
    (Binary64.prepareTimeSeriesData Binary64.offsetSales).y =
      Binary64.linearSeries 1000000000 1 2 ∧
    Binary64.generateForecast Binary64.twoRecordConfig Binary64.offsetSales (2 * msPerDay)
      (some 1) = .ok (.success Binary64.offsetForecast) ∧
    Binary64.offsetForecast.confidenceScore = fin (1 / 2) ∧
    Binary64.ofRat (19 / 20) ≠ fin (1 / 2) := by
  refine ⟨by rw [sixPointSeries_trend64], by norm_num, by decide!, by decide!, by decide!,
    by decide!, by decide!, by decide!, offsetSales_forecast64, rfl, by decide!⟩

/-! ## Exponential smoothing in binary64 arithmetic -/

theorem smoothFrom64_length (alpha prev : JSNum) (ds : List JSNum) :
    (Binary64.smoothFrom alpha prev ds).length = ds.length := by
  induction ds generalizing prev with
  | nil => rfl
  | cons d ds ih => simp [Binary64.smoothFrom, ih]

theorem smoothFrom64_replicate (alpha v : JSNum) (h : Binary64.smoothStep alpha v v = v)
    (n : ℕ) : Binary64.smoothFrom alpha v (List.replicate n v) = List.replicate n v := by
  induction n with
  | zero => rfl
  | succ n ih => simp [List.replicate_succ, Binary64.smoothFrom, h, ih]

theorem ofRat_one : Binary64.ofRat 1 = fin 1 := by
  simpa using Binary64.ofRat_natCast 1 (by norm_num)

theorem smoothStep_alpha_zero (q : ℚ) (hq : Binary64.IsBinary64 q) :
    Binary64.smoothStep (fin 0) (fin q) (fin q) = fin q := by
  unfold Binary64.IsBinary64 at hq
  simp only [Binary64.smoothStep, Binary64.fadd, Binary64.fmul, Binary64.fsub, fin_mul_fin,
    fin_sub_fin, fin_add_fin, Binary64.ofNum_fin, zero_mul, sub_zero, Binary64.ofRat_zero,
    ofRat_one, one_mul, hq, zero_add]

theorem smoothStep_alpha_one (q : ℚ) (hq : Binary64.IsBinary64 q) :
    Binary64.smoothStep (fin 1) (fin q) (fin q) = fin q := by
  unfold Binary64.IsBinary64 at hq
  simp only [Binary64.smoothStep, Binary64.fadd, Binary64.fmul, Binary64.fsub, fin_mul_fin,
    fin_sub_fin, fin_add_fin, Binary64.ofNum_fin, zero_mul, sub_self, Binary64.ofRat_zero,
    one_mul, hq, add_zero]

/-- The rounded value of `1 - alpha` for `0 ≤ alpha ≤ 1` is a number in
`[0, ∞)`. -/
theorem fsub_one_nonneg (a : ℚ) (h0 : 0 ≤ a) (h1 : a ≤ 1) :
    ∃ b : ℚ, Binary64.fsub (fin 1) (fin a) = fin b ∧ 0 ≤ b := by
  have hlt : |1 - a| < Binary64.overflowThreshold := by
    rw [abs_of_nonneg (by linarith)]
    have h53 := Binary64.two_pow_53_lt_threshold
    have : (1 : ℚ) < 2 ^ 53 := by norm_num
    linarith
  rcases Binary64.ofRat_nonneg (show 0 ≤ 1 - a by linarith) with h | ⟨b, hb, hb0⟩
  · rw [Binary64.ofRat_of_lt hlt] at h
    exact absurd h (by simp)
  · exact ⟨b, by rw [Binary64.fsub, fin_sub_fin, Binary64.ofNum_fin, hb], hb0⟩

theorem smoothStep_value_zero (a : ℚ) (h0 : 0 ≤ a) (h1 : a ≤ 1) :
    Binary64.smoothStep (fin a) (fin 0) (fin 0) = fin 0 := by
  obtain ⟨b, hb, -⟩ := fsub_one_nonneg a h0 h1
  simp only [Binary64.smoothStep, hb, Binary64.fadd, Binary64.fmul, fin_mul_fin, fin_add_fin,
    Binary64.ofNum_fin, mul_zero, Binary64.ofRat_zero, add_zero]

/-- Amended claim C10: in binary64 arithmetic `exponentialSmoothing` applied
to `n` copies of `v` returns a list of `n` elements whose first is `v`, and it
returns the `n` copies of `v` exactly when `n ≤ 1` or one smoothing step
leaves `v` unchanged, that is when the rounded value of
`alpha * v + (1 - alpha) * v` is `v`.  That holds for every binary64 number
`v` with `alpha = 0` or `alpha = 1`, and for `v = 0` with `0 ≤ alpha ≤ 1`. -/
theorem exponentialSmoothing_constant_iff (v alpha : JSNum) (n : ℕ) :
    (Binary64.exponentialSmoothing (List.replicate n v) alpha).length = n ∧
    (Binary64.exponentialSmoothing (List.replicate n v) alpha).head? =
      (List.replicate n v).head? ∧
    (Binary64.exponentialSmoothing (List.replicate n v) alpha = List.replicate n v ↔
      n ≤ 1 ∨ Binary64.smoothStep alpha v v = v) ∧
    (∀ q : ℚ, Binary64.IsBinary64 q →
      Binary64.smoothStep (fin 0) (fin q) (fin q) = fin q ∧
      Binary64.smoothStep (fin 1) (fin q) (fin q) = fin q) ∧
    (∀ a : ℚ, 0 ≤ a → a ≤ 1 → Binary64.smoothStep (fin a) (fin 0) (fin 0) = fin 0) := by
  refine ⟨?_, ?_, ?_, fun q hq => ⟨smoothStep_alpha_zero q hq, smoothStep_alpha_one q hq⟩,
    smoothStep_value_zero⟩
  · cases n with
    | zero => rfl
    | succ n => simp [List.replicate_succ, Binary64.exponentialSmoothing, smoothFrom64_length]
  · cases n with
    | zero => rfl
    | succ n => simp [List.replicate_succ, Binary64.exponentialSmoothing]
  · constructor
    · intro h
      rcases n with _ | _ | n
      · left; omega
      · left; omega
      · right
        simp only [List.replicate_succ, Binary64.exponentialSmoothing, Binary64.smoothFrom,
          List.cons.injEq, true_and] at h
        exact h.1
    · intro h
      rcases n with _ | n
      · rfl
      · rcases h with h | h
        · have hn : n = 0 := by omega
          subst hn
          rfl
        · simp only [List.replicate_succ, Binary64.exponentialSmoothing,
            smoothFrom64_replicate alpha v h n]

theorem exponentialSmoothing_constant_iff_witness :
    Binary64.smoothStep (fin 0) (fin 3) (fin 3) = fin 3 ∧
      Binary64.smoothStep (fin 1) (fin 3) (fin 3) = fin 3 :=
  (exponentialSmoothing_constant_iff (fin 3) (fin 1) 3).2.2.2.1 3 (by decide!)

/-- Counterexample to claim C10 as stated: in binary64 arithmetic, with the
default `alpha = 0.3`, smoothing the constant series `3, 3, 3` gives
`3, 3 - 2⁻⁵¹, 3 - 2⁻⁵¹` (printed `2.9999999999999996`), not the series
itself. -/
theorem smoothing_moves_constant :
    Binary64.exponentialSmoothing (List.replicate 3 (fin 3)) Binary64.defaultAlpha =
      [fin 3, fin (3 - 1 / 2 ^ 51), fin (3 - 1 / 2 ^ 51)] ∧
    Binary64.exponentialSmoothing (List.replicate 3 (fin 3)) Binary64.defaultAlpha ≠
      List.replicate 3 (fin 3) := by
  refine ⟨by decide!, by decide!⟩

theorem smoothFrom64_nonneg (a b : ℚ) (h0 : 0 ≤ a) (h1 : a ≤ 1) (hb0 : 0 ≤ b)
    (hb : Binary64.fsub (fin 1) (fin a) = fin b) (ds : List ℚ)
    (hds : ∀ d ∈ ds, Binary64.IsBinary64 d ∧ 0 ≤ d) (prev : JSNum)
    (hprev : (∃ q : ℚ, prev = fin q ∧ 0 ≤ q) ∨ (prev = pinf ∧ b ≠ 0)) :
    ∀ s ∈ Binary64.smoothFrom (fin a) prev (ds.map fin), s = pinf ∨ ∃ q : ℚ, s = fin q ∧ 0 ≤ q := by
  induction ds generalizing prev with
  | nil => intro s hs; simp [Binary64.smoothFrom] at hs
  | cons d ds ih =>
    obtain ⟨hdb, hd0⟩ := hds d (List.mem_cons_self d ds)
    have hdlt : |d| < Binary64.overflowThreshold := Binary64.lt_threshold_of_ofRat_fin hdb
    -- the first product is a finite non-negative number
    have hadlt : |a * d| < Binary64.overflowThreshold := by
      rw [abs_of_nonneg (mul_nonneg h0 hd0)]
      rw [abs_of_nonneg hd0] at hdlt
      have : a * d ≤ d := by nlinarith
      linarith
    obtain ⟨p, hp, hp0⟩ : ∃ p : ℚ, Binary64.ofRat (a * d) = fin p ∧ 0 ≤ p := by
      rcases Binary64.ofRat_nonneg (mul_nonneg h0 hd0) with h | h
      · rw [Binary64.ofRat_of_lt hadlt] at h
        exact absurd h (by simp)
      · exact h
    have hplt : |p| < Binary64.overflowThreshold := Binary64.ofRat_fin_lt_threshold hp
    -- the step keeps the invariant
    have hstep : (∃ q : ℚ, Binary64.smoothStep (fin a) (fin d) prev = fin q ∧ 0 ≤ q) ∨
        (Binary64.smoothStep (fin a) (fin d) prev = pinf ∧ b ≠ 0) := by
      simp only [Binary64.smoothStep, hb, Binary64.fmul, fin_mul_fin, Binary64.ofNum_fin, hp]
      rcases hprev with ⟨q, rfl, hq0⟩ | ⟨rfl, hbne⟩
      · rw [fin_mul_fin, Binary64.ofNum_fin]
        by_cases hbz : b = 0
        · left
          rw [hbz, zero_mul, Binary64.ofRat_zero, Binary64.fadd, fin_add_fin, Binary64.ofNum_fin,
            add_zero]
          rcases Binary64.ofRat_nonneg hp0 with h | h
          · rw [Binary64.ofRat_of_lt hplt] at h
            exact absurd h (by simp)
          · exact h
        · rcases Binary64.ofRat_nonneg (mul_nonneg hb0 hq0) with h | ⟨t, ht, ht0⟩
          · right
            rw [h]
            exact ⟨rfl, hbz⟩
          · rw [ht, Binary64.fadd, fin_add_fin, Binary64.ofNum_fin]
            rcases Binary64.ofRat_nonneg (add_nonneg hp0 ht0) with h | h
            · right; exact ⟨h, hbz⟩
            · left; exact h
      · right
        have hbpos : 0 < b := lt_of_le_of_ne hb0 (Ne.symm hbne)
        have : fin b * pinf = pinf := by
          show ofSign b = pinf
          simp [ofSign, hbne, hbpos]
        rw [this]
        exact ⟨rfl, hbne⟩
    intro s hs
    simp only [List.map_cons, Binary64.smoothFrom, List.mem_cons] at hs
    rcases hs with rfl | hs
    · rcases hstep with h | ⟨h, -⟩
      · right; exact h
      · left; exact h
    · exact ih (fun e he => hds e (List.mem_cons_of_mem d he)) _ hstep s hs

/-- Amended claim C28: in binary64 arithmetic, for every list of non-negative
binary64 values and every `alpha` with `0 ≤ alpha ≤ 1`,
`exponentialSmoothing` returns a list of the same length that starts with the
first value and whose every element is non-negative: a number `≥ 0` or
`+Infinity`, never a negative number and never `NaN`. -/
theorem exponentialSmoothing_nonneg (data : List ℚ) (alpha : ℚ) (h0 : 0 ≤ alpha)
    (h1 : alpha ≤ 1) (hdata : ∀ d ∈ data, Binary64.IsBinary64 d ∧ 0 ≤ d) :
    (Binary64.exponentialSmoothing (data.map fin) (fin alpha)).length = data.length ∧
    (Binary64.exponentialSmoothing (data.map fin) (fin alpha)).head? = (data.map fin).head? ∧
    ∀ s ∈ Binary64.exponentialSmoothing (data.map fin) (fin alpha),
      s = pinf ∨ ∃ q : ℚ, s = fin q ∧ 0 ≤ q := by
  obtain ⟨b, hb, hb0⟩ := fsub_one_nonneg alpha h0 h1
  cases data with
  | nil => exact ⟨rfl, rfl, fun s hs => by simp [Binary64.exponentialSmoothing] at hs⟩
  | cons d ds =>
    refine ⟨by simp [Binary64.exponentialSmoothing, smoothFrom64_length],
      by simp [Binary64.exponentialSmoothing], ?_⟩
    intro s hs
    simp only [List.map_cons, Binary64.exponentialSmoothing, List.mem_cons] at hs
    rcases hs with rfl | hs
    · right; exact ⟨d, rfl, (hdata d (List.mem_cons_self d ds)).2⟩
    · exact smoothFrom64_nonneg alpha b h0 h1 hb0 hb ds
        (fun e he => hdata e (List.mem_cons_of_mem d he)) (fin d)
        (Or.inl ⟨d, rfl, (hdata d (List.mem_cons_self d ds)).2⟩) s hs

theorem exponentialSmoothing_nonneg_witness :
    ((0 : ℚ) ≤ 3 / 10 ∧ (3 / 10 : ℚ) ≤ 1) ∧
    ((Binary64.exponentialSmoothing (([4, 8, 6] : List ℚ).map fin) (fin (3 / 10))).getD 2 nan =
        pinf ∨
      ∃ q : ℚ, (Binary64.exponentialSmoothing (([4, 8, 6] : List ℚ).map fin)
        (fin (3 / 10))).getD 2 nan = fin q ∧ 0 ≤ q) :=
  ⟨⟨by norm_num, by norm_num⟩,
    (exponentialSmoothing_nonneg [4, 8, 6] (3 / 10) (by norm_num) (by norm_num)
      (by decide!)).2.2 _ (by decide!)⟩

/-- Counterexample to claim C28 as stated: in binary64 arithmetic, with the
default `alpha = 0.3` (between `0` and `1`), smoothing the series `6, 6` gives
`6, 6 - 2⁻⁵⁰` (printed `5.999999999999999`): the second element is below the
minimum `6` of the values. -/
theorem smoothing_leaves_range :
    Binary64.defaultAlpha = fin Binary64.threeTenths ∧
    (0 ≤ Binary64.threeTenths ∧ Binary64.threeTenths ≤ 1) ∧
    Binary64.exponentialSmoothing [fin 6, fin 6] Binary64.defaultAlpha =
      [fin 6, fin (6 - 1 / 2 ^ 50)] ∧
    (6 - 1 / 2 ^ 50 : ℚ) < 6 := by
  refine ⟨by decide!, by decide!, by decide!, by norm_num⟩

end PredictiveAnalytics
